import Mathlib

/-!
# exif4go: a shallow embedding of the EXIF/TIFF decoder

Conventions of the embedding.

* A Go `string` is a sequence of bytes.  It is embedded as a Lean `String` whose
  characters are those bytes (code points `0 .. 255`); `[]byte(s)` is `s.data`.
* Go `int`, `int64` and `uint` are 64 bits wide (the `amd64` port).  Values are
  kept as `Int`; every operation that can leave the 64-bit range is wrapped with
  `wrap64`, and the bitwise work of `s2n` is done on the 64-bit pattern (`Nat`
  below `2 ^ 64`).
* The `*os.File` is a byte list with a read position.  `Seek` to a negative
  position fails and leaves the position where it was (the source ignores the
  error); `Read` on a regular file delivers every byte that is available up to
  the length of the buffer and reports `io.EOF` only when it delivers none.
* Mutable state (`eh.file`, `eh.tags`, the package variable `detailed`) is
  passed explicitly.  `writeInfo` and the `debug` flag only print and are left
  out.
-/

namespace Exif4go

/-! ## Machine integers -/

/-- Two's-complement wrap of an integer to the signed 64-bit range. -/
def wrap64 (x : Int) : Int := (x + 2 ^ 63) % 2 ^ 64 - 2 ^ 63

/-- The 64-bit pattern of a Go `int`. -/
def toBits (x : Int) : Nat := (x % 2 ^ 64).toNat

/-- The Go `int` denoted by a 64-bit pattern. -/
def ofBits (n : Nat) : Int := wrap64 (n : Int)

/-! ## Errors and files -/

/-- The `error` values that the package can return. -/
inductive GoError
  /-- `io.EOF`, from `File.Read` at the end of the file. -/
  | eof
  /-- `io.ErrUnexpectedEOF`, from `io.ReadAtLeast`. -/
  | unexpectedEOF
  /-- The error built in `dumpIfd`: "unknown type %d in tag 0x%04X". -/
  | unknownType (fieldtype tag : Int)
  /-- A `*strconv.NumError` from `strconv.Atoi`. -/
  | numError (s : String)
  deriving DecidableEq, Repr

deriving instance DecidableEq for Except

/-- An open regular file: its bytes and the current read position. -/
structure File where
  data : List UInt8
  pos : Nat
  deriving DecidableEq, Repr

/-- The call `f.Seek(off, 0)`; a negative target is refused and the position stays. -/
def File.seekStart (f : File) (off : Int) : File :=
  if off < 0 then f else { f with pos := off.toNat }

/-- The call `f.Seek(off, 1)`: relative to the current position. -/
def File.seekCur (f : File) (off : Int) : File :=
  if (f.pos : Int) + off < 0 then f else { f with pos := ((f.pos : Int) + off).toNat }

/-- The bytes that a `Read` into a buffer of length `n` leaves in the buffer:
what is available, followed by the zeroes the buffer was made with. -/
def File.buffer (f : File) (n : Nat) : List UInt8 :=
  let got := (f.data.drop f.pos).take n
  got ++ List.replicate (n - got.length) 0

/-- The call `f.Read(buf)` with `len(buf) = n`: the error (if any), the buffer and the file. -/
def File.read (f : File) (n : Nat) : Except GoError (List UInt8) × File :=
  if n = 0 then (.ok [], f)
  else if f.data.length ≤ f.pos then (.error .eof, f)
  else (.ok (f.buffer n), { f with pos := f.pos + ((f.data.drop f.pos).take n).length })

/-- The call `io.ReadAtLeast(f, buf, n)` with `len(buf) = n`. -/
def File.readAtLeast (f : File) (n : Nat) : Except GoError (List UInt8) × File :=
  if n = 0 then (.ok [], f)
  else if f.data.length ≤ f.pos then (.error .eof, f)
  else if f.data.length - f.pos < n then
    (.error .unexpectedEOF, { f with pos := f.data.length })
  else (.ok ((f.data.drop f.pos).take n), { f with pos := f.pos + n })

/-- The conversion `string(bytes)`. -/
def bytesToString (bs : List UInt8) : String :=
  String.mk (bs.map (fun b => Char.ofNat b.toNat))

/-! ## Decimal and hexadecimal rendering (`strconv`, `fmt`) -/

/-- The digits of `n` in base `base`, most significant first, with upper-case letters. -/
def natDigits (base : Nat) : Nat → Nat → List Char
  | 0, _ => []
  | fuel + 1, n =>
    let d := n % base
    let c := if d < 10 then Char.ofNat (48 + d) else Char.ofNat (55 + d)
    if n < base then [c] else natDigits base fuel (n / base) ++ [c]

/-- The decimal rendering of a natural number. -/
def natToDec (n : Nat) : String := String.mk (natDigits 10 (n + 1) n)

/-- The function `strconv.Itoa`, also the verb `%d`. -/
def itoa (v : Int) : String :=
  if v < 0 then "-" ++ natToDec (-v).toNat else natToDec v.toNat

/-- The verb `%04X`: upper-case hexadecimal, zero-padded to four characters, the
sign counted in the width. -/
def fmt04X (v : Int) : String :=
  let ds := natDigits 16 (v.natAbs + 1) v.natAbs
  if v < 0 then String.mk (('-' :: List.replicate (3 - ds.length) '0') ++ ds)
  else String.mk (List.replicate (4 - ds.length) '0' ++ ds)

/-- The value of a string of decimal digits, `none` when a character is not a digit. -/
def parseDigits : List Char → Nat → Option Nat
  | [], acc => some acc
  | c :: cs, acc =>
    if 48 ≤ c.toNat ∧ c.toNat ≤ 57 then parseDigits cs (acc * 10 + (c.toNat - 48)) else none

/-- The function `strconv.Atoi`: value and error.  A syntax error gives `0`, a
value outside the 64-bit range gives the nearest bound, both with an error. -/
def atoi (s : String) : Int × Option GoError :=
  let body : List Char × Bool :=
    match s.data with
    | '+' :: cs => (cs, false)
    | '-' :: cs => (cs, true)
    | cs => (cs, false)
  match body with
  | ([], _) => (0, some (.numError s))
  | (cs, neg) =>
    match parseDigits cs 0 with
    | none => (0, some (.numError s))
    | some n =>
      let v : Int := if neg then -(n : Int) else (n : Int)
      if v > 2 ^ 63 - 1 then (2 ^ 63 - 1, some (.numError s))
      else if v < -(2 ^ 63) then (-(2 ^ 63), some (.numError s))
      else (v, none)

/-- The function `strings.Join`. -/
def join (sep : String) : List String → String
  | [] => ""
  | [s] => s
  | s :: rest => s ++ sep ++ join sep rest

/-! ## Rationals (`exifheader.go`, lines 11-48) -/

/-- The struct `ratio`. -/
structure ratio where
  num : Int
  den : Int
  reduced : Bool
  deriving DecidableEq, Repr

/-- The constructor `newRatio`. -/
def newRatio (num den : Int) : ratio := ⟨num, den, false⟩

/-- The recursion of `gcd`, with Go's truncated remainder, bounded by `fuel` calls;
`none` when the bound is reached. -/
def gcdFuel : Nat → Int → Int → Option Int
  | 0, _, _ => none
  | fuel + 1, a, b => if b = 0 then some a else gcdFuel fuel b (Int.tmod a b)

/-- The function `gcd`.  The remainder shrinks in absolute value at every call, so
`|b| + 1` calls always suffice (`gcdFuel_isSome`). -/
def gcd (a b : Int) : Int := (gcdFuel (b.natAbs + 1) a b).getD 0

/-- The method `ratio.reduce`. -/
def ratio.reduce (r : ratio) : ratio :=
  let div := gcd r.num r.den
  if div > 1 then { r with num := Int.tdiv r.num div, den := Int.tdiv r.den div } else r

/-- The method `ratio.String`: the ratio after the call and the string returned. -/
def ratio.String (r : ratio) : ratio × String :=
  let r1 := if !r.reduced then { r.reduce with reduced := true } else r
  if r1.den = 1 then (r1, itoa r1.num) else (r1, itoa r1.num ++ "/" ++ itoa r1.den)

/-! ## The header and the byte primitives (`exifheader.go`, lines 50-148) -/

/-- The struct `IfdTag`. -/
structure IfdTag where
  Printable : String
  tag : Int
  Fieldtype : Int
  fieldoffset : Int
  fieldlength : Int
  Values : List String
  deriving DecidableEq, Repr

/-- A Go `map[string]*IfdTag`, as an association list with unique keys. -/
abbrev TagMap := List (String × IfdTag)

/-- The map assignment `m[k] = v`. -/
def TagMap.set (m : TagMap) (k : String) (v : IfdTag) : TagMap :=
  (k, v) :: m.filter (fun p => p.1 != k)

/-- The map read `v, ok := m[k]`. -/
def TagMap.get (m : TagMap) (k : String) : Option IfdTag := m.lookup k

/-- The struct `exifHeader` (`endian` is the one byte of the slice; `debug` is left out). -/
structure exifHeader where
  file : File
  endian : UInt8
  offset : Int
  fakeExif : Bool
  strict : Bool
  tags : TagMap
  deriving DecidableEq, Repr

/-- The constructor `newExifHeader`. -/
def newExifHeader (file : File) (endian : UInt8) (offset : Int) (fakeExif strict : Bool) :
    exifHeader :=
  ⟨file, endian, offset, fakeExif, strict, []⟩

/-- The method `s2n_motorola`, on 64-bit patterns: `x = (x << 8) | int(c)`. -/
def s2n_motorola (str : List UInt8) : Nat :=
  str.foldl (fun x c => ((x <<< 8) % 2 ^ 64) ||| c.toNat) 0

/-- The loop of `s2n_intel`: `x = x | (int(c) << y); y = y + 8` with `y` a byte. -/
def s2n_intel_loop : List UInt8 → Nat → Nat → Nat
  | [], x, _ => x
  | c :: cs, x, y => s2n_intel_loop cs (x ||| ((c.toNat <<< y) % 2 ^ 64)) ((y + 8) % 256)

/-- The method `s2n_intel`, on 64-bit patterns. -/
def s2n_intel (str : List UInt8) : Nat := s2n_intel_loop str 0 0

/-- The sign extension of `s2n` (lines 141-146) on the pattern `val`:
`msb := 1 << (8*length - 1)`, with the shift count computed in `uint`. -/
def signExtend (length : Nat) (val : Nat) : Nat :=
  let sh := (8 * length + 2 ^ 64 - 1) % 2 ^ 64
  let msb := (1 <<< sh) % 2 ^ 64
  if ofBits (val &&& msb) > 0 then (val + 2 ^ 64 - (msb <<< 1) % 2 ^ 64) % 2 ^ 64 else val

/-- The method `s2n`: the value or the error, and the header with the file moved. -/
def s2n (eh : exifHeader) (offset : Int) (length : Nat) (signed : Bool) :
    Except GoError Int × exifHeader :=
  let f := eh.file.seekStart (wrap64 (eh.offset + offset))
  match f.read length with
  | (.error e, f1) => (.error e, { eh with file := f1 })
  | (.ok s, f1) =>
    let val := if eh.endian = 73 then s2n_intel s else s2n_motorola s
    let val := if signed then signExtend length val else val
    (.ok (ofBits val), { eh with file := f1 })

/-! ## Tag dictionaries and transforms (`exifdefs.go`) -/

/-- The function `makestring`: drop the bytes below 32; keep the input when nothing is left. -/
def makestring (values : List String) : String :=
  match values with
  | [] => ""
  | v :: _ =>
    let seq := v.data
    let out := seq.filter (fun c => decide (32 ≤ c.toNat) && decide (c.toNat < 256))
    if out.length = 0 then String.mk seq else String.mk out

/-- The function `makestringuc`: skip the eight bytes of the character code. -/
def makestringuc (values : List String) : String :=
  match values with
  | [] => ""
  | v :: _ =>
    let seq0 := v.data
    let str := if seq0.length ≥ 8 then String.mk (seq0.drop 8) else ""
    makestring [str]

/-- The struct `FieldType`. -/
structure FieldType where
  Size : Nat
  Code : String
  Name : String
  deriving DecidableEq, Repr

/-- The table `FIELD_TYPES`. -/
def FIELD_TYPES : List FieldType :=
  [ ⟨0, "X", "Proprietary"⟩,
    ⟨1, "B", "Byte"⟩,
    ⟨1, "A", "ASCII"⟩,
    ⟨2, "S", "Short"⟩,
    ⟨4, "L", "Long"⟩,
    ⟨8, "R", "Ratio"⟩,
    ⟨1, "SB", "Signed Byte"⟩,
    ⟨1, "U", "Undefined"⟩,
    ⟨2, "SS", "Signed Short"⟩,
    ⟨4, "SL", "Signed Long"⟩,
    ⟨8, "SR", "Signed Ratio"⟩ ]

/-- The struct `exifTag`: a name, an optional table of value names, an optional transform. -/
structure exifTag where
  name : String
  fields : Option (List (Int × String))
  function : Option (List String → String)

/-- The map `exifTags`: the main EXIF tag names (`exifdefs.go`, lines 79-349). -/
def exifTags : List (Int × exifTag) :=
  [
    ((0x0100 : Int), exifTag.mk "ImageWidth" none none),
    ((0x0101 : Int), exifTag.mk "ImageLength" none none),
    ((0x0102 : Int), exifTag.mk "BitsPerSample" none none),
    ((0x0103 : Int), exifTag.mk "Compression" (some [
      (1, "Uncompressed"), (2, "CCITT 1D"), (3, "T4/Group 3 Fax"), (4, "T6/Group 4 Fax"),
      (5, "LZW"), (6, "JPEG (old-style)"), (7, "JPEG"), (8, "Adobe Deflate"), (9, "JBIG B&W"),
      (10, "JBIG Color"), (32766, "Next"), (32769, "Epson ERF Compressed"), (32771, "CCIRLEW"),
      (32773, "PackBits"), (32809, "Thunderscan"), (32895, "IT8CTPAD"), (32896, "IT8LW"),
      (32897, "IT8MP"), (32898, "IT8BL"), (32908, "PixarFilm"), (32909, "PixarLog"),
      (32946, "Deflate"), (32947, "DCS"), (34661, "JBIG"), (34676, "SGILog"),
      (34677, "SGILog24"), (34712, "JPEG 2000"), (34713, "Nikon NEF Compressed"),
      (65000, "Kodak DCR Compressed"), (65535, "Pentax PEF Compressed")])  none),
    ((0x0106 : Int), exifTag.mk "PhotometricInterpretation" none none),
    ((0x0107 : Int), exifTag.mk "Thresholding" none none),
    ((0x010A : Int), exifTag.mk "FillOrder" none none),
    ((0x010D : Int), exifTag.mk "DocumentName" none none),
    ((0x010E : Int), exifTag.mk "ImageDescription" none none),
    ((0x010F : Int), exifTag.mk "Make" none none),
    ((0x0110 : Int), exifTag.mk "Model" none none),
    ((0x0111 : Int), exifTag.mk "StripOffsets" none none),
    ((0x0112 : Int), exifTag.mk "Orientation" (some [
      (1, "Horizontal (normal)"), (2, "Mirrored horizontal"), (3, "Rotated 180"),
      (4, "Mirrored vertical"), (5, "Mirrored horizontal then rotated 90 CCW"),
      (6, "Rotated 90 CW"), (7, "Mirrored horizontal then rotated 90 CW"),
      (8, "Rotated 90 CCW")])  none),
    ((0x0115 : Int), exifTag.mk "SamplesPerPixel" none none),
    ((0x0116 : Int), exifTag.mk "RowsPerStrip" none none),
    ((0x0117 : Int), exifTag.mk "StripByteCounts" none none),
    ((0x011A : Int), exifTag.mk "XResolution" none none),
    ((0x011B : Int), exifTag.mk "YResolution" none none),
    ((0x011C : Int), exifTag.mk "PlanarConfiguration" none none),
    ((0x011D : Int), exifTag.mk "PageName" none (some makestring)),
    ((0x0128 : Int), exifTag.mk "ResolutionUnit" (some [
      (1, "Not Absolute"), (2, "Pixels/Inch"), (3, "Pixels/Centimeter")])  none),
    ((0x012D : Int), exifTag.mk "TransferFunction" none none),
    ((0x0131 : Int), exifTag.mk "Software" none none),
    ((0x0132 : Int), exifTag.mk "DateTime" none none),
    ((0x013B : Int), exifTag.mk "Artist" none none),
    ((0x013E : Int), exifTag.mk "WhitePoint" none none),
    ((0x013F : Int), exifTag.mk "PrimaryChromaticities" none none),
    ((0x0156 : Int), exifTag.mk "TransferRange" none none),
    ((0x0200 : Int), exifTag.mk "JPEGProc" none none),
    ((0x0201 : Int), exifTag.mk "JPEGInterchangeFormat" none none),
    ((0x0202 : Int), exifTag.mk "JPEGInterchangeFormatLength" none none),
    ((0x0211 : Int), exifTag.mk "YCbCrCoefficients" none none),
    ((0x0212 : Int), exifTag.mk "YCbCrSubSampling" none none),
    ((0x0213 : Int), exifTag.mk "YCbCrPositioning" (some [
      (1, "Centered"), (2, "Co-sited")])  none),
    ((0x0214 : Int), exifTag.mk "ReferenceBlackWhite" none none),
    ((0x4746 : Int), exifTag.mk "Rating" none none),
    ((0x828D : Int), exifTag.mk "CFARepeatPatternDim" none none),
    ((0x828E : Int), exifTag.mk "CFAPattern" none none),
    ((0x828F : Int), exifTag.mk "BatteryLevel" none none),
    ((0x8298 : Int), exifTag.mk "Copyright" none none),
    ((0x829A : Int), exifTag.mk "ExposureTime" none none),
    ((0x829D : Int), exifTag.mk "FNumber" none none),
    ((0x83BB : Int), exifTag.mk "IPTC/NAA" none none),
    ((0x8769 : Int), exifTag.mk "ExifOffset" none none),
    ((0x8773 : Int), exifTag.mk "InterColorProfile" none none),
    ((0x8822 : Int), exifTag.mk "ExposureProgram" (some [
      (0, "Unidentified"), (1, "Manual"), (2, "Program Normal"), (3, "Aperture Priority"),
      (4, "Shutter Priority"), (5, "Program Creative"), (6, "Program Action"),
      (7, "Portrait Mode"), (8, "Landscape Mode")])  none),
    ((0x8824 : Int), exifTag.mk "SpectralSensitivity" none none),
    ((0x8825 : Int), exifTag.mk "GPSInfo" none none),
    ((0x8827 : Int), exifTag.mk "ISOSpeedRatings" none none),
    ((0x8828 : Int), exifTag.mk "OECF" none none),
    ((0x9000 : Int), exifTag.mk "ExifVersion" none (some makestring)),
    ((0x9003 : Int), exifTag.mk "DateTimeOriginal" none none),
    ((0x9004 : Int), exifTag.mk "DateTimeDigitized" none none),
    ((0x9101 : Int), exifTag.mk "ComponentsConfiguration" (some [
      (0, ""), (1, "Y"), (2, "Cb"), (3, "Cr"), (4, "Red"), (5, "Green"), (6, "Blue")])  none),
    ((0x9102 : Int), exifTag.mk "CompressedBitsPerPixel" none none),
    ((0x9201 : Int), exifTag.mk "ShutterSpeedValue" none none),
    ((0x9202 : Int), exifTag.mk "ApertureValue" none none),
    ((0x9203 : Int), exifTag.mk "BrightnessValue" none none),
    ((0x9204 : Int), exifTag.mk "ExposureBiasValue" none none),
    ((0x9205 : Int), exifTag.mk "MaxApertureValue" none none),
    ((0x9206 : Int), exifTag.mk "SubjectDistance" none none),
    ((0x9207 : Int), exifTag.mk "MeteringMode" (some [
      (0, "Unidentified"), (1, "Average"), (2, "CenterWeightedAverage"), (3, "Spot"),
      (4, "MultiSpot"), (5, "Pattern")])  none),
    ((0x9208 : Int), exifTag.mk "LightSource" (some [
      (0, "Unknown"), (1, "Daylight"), (2, "Fluorescent"), (3, "Tungsten"),
      (9, "Fine Weather"), (10, "Flash"), (11, "Shade"), (12, "Daylight Fluorescent"),
      (13, "Day White Fluorescent"), (14, "Cool White Fluorescent"), (15, "White Fluorescent"),
      (17, "Standard Light A"), (18, "Standard Light B"), (19, "Standard Light C"),
      (20, "D55"), (21, "D65"), (22, "D75"), (255, "Other")])  none),
    ((0x9209 : Int), exifTag.mk "Flash" (some [
      (0, "No"), (1, "Fired"), (5, "Fired (?)"), (7, "Fired (!)"), (9, "Fill Fired"),
      (13, "Fill Fired (?)"), (15, "Fill Fired (!)"), (16, "Off"), (24, "Auto Off"),
      (25, "Auto Fired"), (29, "Auto Fired (?)"), (31, "Auto Fired (!)"),
      (32, "Not Available")])  none),
    ((0x920A : Int), exifTag.mk "FocalLength" none none),
    ((0x9214 : Int), exifTag.mk "SubjectArea" none none),
    ((0x927C : Int), exifTag.mk "MakerNote" none none),
    ((0x9286 : Int), exifTag.mk "UserComment" none (some makestringuc)),
    ((0x9290 : Int), exifTag.mk "SubSecTime" none none),
    ((0x9291 : Int), exifTag.mk "SubSecTimeOriginal" none none),
    ((0x9292 : Int), exifTag.mk "SubSecTimeDigitized" none none),
    ((0x9C9B : Int), exifTag.mk "XPTitle" none none),
    ((0x9C9C : Int), exifTag.mk "XPComment" none none),
    ((0x9C9D : Int), exifTag.mk "XPAuthor" none none),
    ((0x9C9E : Int), exifTag.mk "XPKeywords" none none),
    ((0x9C9F : Int), exifTag.mk "XPSubject" none none),
    ((0xA000 : Int), exifTag.mk "FlashPixVersion" none (some makestring)),
    ((0xA001 : Int), exifTag.mk "ColorSpace" (some [
      (1, "sRGB"), (2, "Adobe RGB"), (65535, "Uncalibrated")])  none),
    ((0xA002 : Int), exifTag.mk "ExifImageWidth" none none),
    ((0xA003 : Int), exifTag.mk "ExifImageLength" none none),
    ((0xA005 : Int), exifTag.mk "InteroperabilityOffset" none none),
    ((0xA20B : Int), exifTag.mk "FlashEnergy" none none),
    ((0xA20C : Int), exifTag.mk "SpatialFrequencyResponse" none none),
    ((0xA20E : Int), exifTag.mk "FocalPlaneXResolution" none none),
    ((0xA20F : Int), exifTag.mk "FocalPlaneYResolution" none none),
    ((0xA210 : Int), exifTag.mk "FocalPlaneResolutionUnit" none none),
    ((0xA214 : Int), exifTag.mk "SubjectLocation" none none),
    ((0xA215 : Int), exifTag.mk "ExposureIndex" none none),
    ((0xA217 : Int), exifTag.mk "SensingMethod" (some [
      (1, "Not defined"), (2, "One-chip color area"), (3, "Two-chip color area"),
      (4, "Three-chip color area"), (5, "Color sequential area"), (7, "Trilinear"),
      (8, "Color sequential linear")])  none),
    ((0xA300 : Int), exifTag.mk "FileSource" (some [
      (1, "Film Scanner"), (2, "Reflection Print Scanner"), (3, "Digital Camera")])  none),
    ((0xA301 : Int), exifTag.mk "SceneType" (some [
      (1, "Directly Photographed")])  none),
    ((0xA302 : Int), exifTag.mk "CVAPattern" none none),
    ((0xA401 : Int), exifTag.mk "CustomRendered" (some [
      (0, "Normal"), (1, "Custom")])  none),
    ((0xA402 : Int), exifTag.mk "ExposureMode" (some [
      (0, "Auto Exposure"), (1, "Manual Exposure"), (2, "Auto Bracket")])  none),
    ((0xA403 : Int), exifTag.mk "WhiteBalance" (some [
      (0, "Auto"), (1, "Manual")])  none),
    ((0xA404 : Int), exifTag.mk "DigitalZoomRatio" none none),
    ((0xA405 : Int), exifTag.mk "FocalLengthIn35mmFilm" none none),
    ((0xA406 : Int), exifTag.mk "SceneCaptureType" (some [
      (0, "Standard"), (1, "Landscape"), (2, "Portrait"), (3, "Night)")])  none),
    ((0xA407 : Int), exifTag.mk "GainControl" (some [
      (0, "None"), (1, "Low gain up"), (2, "High gain up"), (3, "Low gain down"),
      (4, "High gain down")])  none),
    ((0xA408 : Int), exifTag.mk "Contrast" (some [
      (0, "Normal"), (1, "Soft"), (2, "Hard")])  none),
    ((0xA409 : Int), exifTag.mk "Saturation" (some [
      (0, "Normal"), (1, "Soft"), (2, "Hard")])  none),
    ((0xA40A : Int), exifTag.mk "Sharpness" (some [
      (0, "Normal"), (1, "Soft"), (2, "Hard")])  none),
    ((0xA40B : Int), exifTag.mk "DeviceSettingDescription" none none),
    ((0xA40C : Int), exifTag.mk "SubjectDistanceRange" none none),
    ((0xA500 : Int), exifTag.mk "Gamma" none none),
    ((0xC4A5 : Int), exifTag.mk "PrintIM" none none),
    ((0xEA1C : Int), exifTag.mk "Padding" none none)
  ]

/-- The map `interTags`: the interoperability tags (lines 352-358). -/
def interTags : List (Int × exifTag) :=
  [
    ((0x0001 : Int), exifTag.mk "InteroperabilityIndex" none none),
    ((0x0002 : Int), exifTag.mk "InteroperabilityVersion" none none),
    ((0x1000 : Int), exifTag.mk "RelatedImageFileFormat" none none),
    ((0x1001 : Int), exifTag.mk "RelatedImageWidth" none none),
    ((0x1002 : Int), exifTag.mk "RelatedImageLength" none none)
  ]

/-- The map `gpsTags`: the GPS tags (lines 361-390). -/
def gpsTags : List (Int × exifTag) :=
  [
    ((0x0000 : Int), exifTag.mk "GPSVersionID" none none),
    ((0x0001 : Int), exifTag.mk "GPSLatitudeRef" none none),
    ((0x0002 : Int), exifTag.mk "GPSLatitude" none none),
    ((0x0003 : Int), exifTag.mk "GPSLongitudeRef" none none),
    ((0x0004 : Int), exifTag.mk "GPSLongitude" none none),
    ((0x0005 : Int), exifTag.mk "GPSAltitudeRef" none none),
    ((0x0006 : Int), exifTag.mk "GPSAltitude" none none),
    ((0x0007 : Int), exifTag.mk "GPSTimeStamp" none none),
    ((0x0008 : Int), exifTag.mk "GPSSatellites" none none),
    ((0x0009 : Int), exifTag.mk "GPSStatus" none none),
    ((0x000A : Int), exifTag.mk "GPSMeasureMode" none none),
    ((0x000B : Int), exifTag.mk "GPSDOP" none none),
    ((0x000C : Int), exifTag.mk "GPSSpeedRef" none none),
    ((0x000D : Int), exifTag.mk "GPSSpeed" none none),
    ((0x000E : Int), exifTag.mk "GPSTrackRef" none none),
    ((0x000F : Int), exifTag.mk "GPSTrack" none none),
    ((0x0010 : Int), exifTag.mk "GPSImgDirectionRef" none none),
    ((0x0011 : Int), exifTag.mk "GPSImgDirection" none none),
    ((0x0012 : Int), exifTag.mk "GPSMapDatum" none none),
    ((0x0013 : Int), exifTag.mk "GPSDestLatitudeRef" none none),
    ((0x0014 : Int), exifTag.mk "GPSDestLatitude" none none),
    ((0x0015 : Int), exifTag.mk "GPSDestLongitudeRef" none none),
    ((0x0016 : Int), exifTag.mk "GPSDestLongitude" none none),
    ((0x0017 : Int), exifTag.mk "GPSDestBearingRef" none none),
    ((0x0018 : Int), exifTag.mk "GPSDestBearing" none none),
    ((0x0019 : Int), exifTag.mk "GPSDestDistanceRef" none none),
    ((0x001A : Int), exifTag.mk "GPSDestDistance" none none),
    ((0x001D : Int), exifTag.mk "GPSDate" none none)
  ]

/-- The slice `ignoreTags`: UserComment and MakerNote. -/
def ignoreTags : List Int := [0x9286, 0x927C]

/-! ## The IFD walker (`exifheader.go`, lines 164-194) -/

/-- The method `firstIfd`. -/
def firstIfd (eh : exifHeader) : Except GoError Int × exifHeader :=
  s2n eh 4 4 false

/-- The method `nextIfd`. -/
def nextIfd (eh : exifHeader) (ifd : Int) : Except GoError Int × exifHeader :=
  match s2n eh ifd 2 false with
  | (.error e, eh1) => (.error e, eh1)
  | (.ok entries, eh1) => s2n eh1 (wrap64 (ifd + 2 + 12 * entries)) 4 false

/-- The loop of `listIfds` (`for i > 0`), bounded by `fuel` iterations; `none`
when the bound is reached. -/
def listIfdsLoop : Nat → Int → List Int → exifHeader →
    Option (Except GoError (List Int) × exifHeader)
  | 0, _, _, _ => none
  | fuel + 1, i, a, eh =>
    if i > 0 then
      match nextIfd eh i with
      | (.error e, eh1) => some (.error e, eh1)
      | (.ok i1, eh1) => listIfdsLoop fuel i1 (a ++ [i]) eh1
    else some (.ok a, eh)

/-- The method `listIfds`; `none` when the chain is longer than `fuel`. -/
def listIfds (fuel : Nat) (eh : exifHeader) :
    Option (Except GoError (List Int) × exifHeader) :=
  match firstIfd eh with
  | (.error e, eh1) => some (.error e, eh1)
  | (.ok i, eh1) => listIfdsLoop fuel i [] eh1

/-! ## The entry decoder (`exifheader.go`, lines 196-425) -/

/-- How one turn of the entry loop of `dumpIfd` ends: `continue` or the end of
the body, `break`, or `return err`. -/
inductive LoopCtl
  | next
  | stop
  | fail (e : GoError)
  deriving DecidableEq, Repr

/-- Lines 262-288: where the values of an entry start.  `offset` is `entry + 8`. -/
def valueOffset (eh : exifHeader) (ifd relative count : Int) (typelen : Nat) (offset : Int) :
    Except GoError Int × exifHeader :=
  if count * (typelen : Int) > 4 then
    if relative > 0 then
      match s2n eh offset 4 false with
      | (.error e, eh1) => (.error e, eh1)
      | (.ok tmp_offset, eh1) =>
        let offset := wrap64 (wrap64 (tmp_offset + ifd) - 8)
        (.ok (if eh1.fakeExif then wrap64 (offset + 18) else offset), eh1)
    else s2n eh offset 4 false
  else (.ok offset, eh)

/-- Lines 321-341: one value of a numeric field, a ratio for the types 5 and 10
when `ratios` is set (the MakerNote loop of lines 349-357 has no ratio case). -/
def readValue (eh : exifHeader) (ratios : Bool) (fieldtype : Int) (typelen : Nat)
    (signed : Bool) (offset : Int) : Except GoError String × exifHeader :=
  if ratios ∧ (fieldtype = 5 ∨ fieldtype = 10) then
    match s2n eh offset 4 signed with
    | (.error e, eh1) => (.error e, eh1)
    | (.ok num, eh1) =>
      match s2n eh1 (wrap64 (offset + 4)) 4 signed with
      | (.error e, eh2) => (.error e, eh2)
      | (.ok den, eh2) => (.ok (newRatio num den).String.2, eh2)
  else
    match s2n eh offset typelen signed with
    | (.error e, eh1) => (.error e, eh1)
    | (.ok v, eh1) => (.ok (itoa v), eh1)

/-- The loops of lines 319-345 and 349-357: `count` values, `typelen` bytes apart. -/
def readValuesLoop (ratios : Bool) (fieldtype : Int) (typelen : Nat) (signed : Bool) :
    Nat → Int → List String → exifHeader → Except GoError (List String) × exifHeader
  | 0, _, values, eh => (.ok values, eh)
  | count + 1, offset, values, eh =>
    match readValue eh ratios fieldtype typelen signed offset with
    | (.error e, eh1) => (.error e, eh1)
    | (.ok value, eh1) =>
      readValuesLoop ratios fieldtype typelen signed count (wrap64 (offset + (typelen : Int)))
        (values ++ [value]) eh1

/-- Lines 291-361: the values of an entry.  The bound of the ASCII case is the
source's `2^31`, which in Go is the exclusive or of 2 and 31. -/
def readValues (eh : exifHeader) (tagname : String) (fieldtype count : Int) (typelen : Nat)
    (offset : Int) : Except GoError (List String) × exifHeader :=
  if fieldtype = 2 then
    if count ≠ 0 ∧ count < ((2 ^^^ 31 : Nat) : Int) then
      let f := eh.file.seekStart (wrap64 (eh.offset + offset))
      match f.read count.toNat with
      | (.error e, f1) => (.error e, { eh with file := f1 })
      | (.ok vals, f1) =>
        (.ok [bytesToString (vals.takeWhile (fun b => b != 0))], { eh with file := f1 })
    else (.ok [""], eh)
  else
    let signed := [6, 8, 9, 10].contains fieldtype
    if count < 1000 then
      readValuesLoop true fieldtype typelen signed count.toNat offset [] eh
    else if tagname = "MakerNote" then
      readValuesLoop false fieldtype typelen signed count.toNat offset [] eh
    else (.ok [], eh)

/-- Lines 363-374: the first printable form.  `quote` stands for `strconv.Quote`,
which belongs to the Go library and is a parameter of the embedding. -/
def printableOf (quote : String → String) (count fieldtype : Int) (values : List String) :
    String :=
  if count = 1 ∧ fieldtype ≠ 2 then values.headD ""
  else if count > 50 ∧ values.length > 20 then "[" ++ join ", " (values.take 20) ++ ", ... ]"
  else
    let printable := join ", " values
    if fieldtype = 2 then quote printable else printable

/-- Lines 386-404: the printable form from the table of value names. -/
def fieldsPrintable (fields : List (Int × String)) :
    List String → String → Except GoError String
  | [], printable => .ok printable
  | i :: rest, printable =>
    match atoi i with
    | (_, some err) => .error err
    | (j, none) =>
      match fields.lookup j with
      | some s => fieldsPrintable fields rest (printable ++ s)
      | none => fieldsPrintable fields rest (printable ++ i)

/-- Lines 381-405: the printable form of a tag of the dictionary. -/
def tagPrintable (tagentry : exifTag) (values : List String) (printable : String) :
    Except GoError String :=
  match tagentry.function with
  | some function => .ok (function values)
  | none =>
    match tagentry.fields with
    | some fields => fieldsPrintable fields values ""
    | none => .ok printable

/-- Lines 419-422: the stop-tag test that ends a turn of the loop. -/
def stopCheck (tagname stoptag : String) (eh : exifHeader) : LoopCtl × exifHeader :=
  if tagname = stoptag then (.stop, eh) else (.next, eh)

/-- Lines 224-234: the name of a tag, from the dictionary or made from its id. -/
def tagName (dict : List (Int × exifTag)) (tag : Int) : String :=
  match dict.lookup tag with
  | some te => te.name
  | none => "Tag 0x" ++ fmt04X tag

/-- Lines 239-416: the body of `if detailed || !ignoreTags.contains(tag)` for the entry
at `entry`.  It ends with `continue` (`some .next`), with `return err` (`some (.fail e)`),
or runs to its end (`none`), after which the stop-tag test follows. -/
def decodeEntry (quote : String → String) (ifd : Int) (ifdname : String)
    (dict : List (Int × exifTag)) (relative : Int) (entry tag : Int) (eh : exifHeader) :
    Option LoopCtl × exifHeader :=
  match s2n eh (wrap64 (entry + 2)) 2 false with
  | (.error e, eh) => (some (.fail e), eh)
  | (.ok fieldtype, eh) =>
    if !(decide (0 < fieldtype) && decide (fieldtype < (FIELD_TYPES.length : Int))) then
      if !eh.strict then (some .next, eh) else (some (.fail (.unknownType fieldtype tag)), eh)
    else
      let typelen := (FIELD_TYPES.getD fieldtype.toNat ⟨0, "", ""⟩).Size
      match s2n eh (wrap64 (entry + 4)) 4 false with
      | (.error e, eh) => (some (.fail e), eh)
      | (.ok count, eh) =>
        match valueOffset eh ifd relative count typelen (wrap64 (entry + 8)) with
        | (.error e, eh) => (some (.fail e), eh)
        | (.ok offset, eh) =>
          let fieldoffset := offset
          match readValues eh (tagName dict tag) fieldtype count typelen offset with
          | (.error e, eh) => (some (.fail e), eh)
          | (.ok values, eh) =>
            let printable := printableOf quote count fieldtype values
            match dict.lookup tag with
            | none => (none, eh)
            | some tagentry =>
              match tagPrintable tagentry values printable with
              | .error e => (some (.fail e), eh)
              | .ok printable =>
                let k := ifdname ++ " " ++ tagName dict tag
                let t : IfdTag :=
                  ⟨printable, tag, fieldtype, fieldoffset, count * (typelen : Int), values⟩
                (none, { eh with tags := eh.tags.set k t })

/-- Lines 216-422: the body of the entry loop of `dumpIfd` for entry `i`. -/
def dumpEntry (quote : String → String) (detailed : Bool) (ifd : Int) (ifdname : String)
    (dict : List (Int × exifTag)) (relative : Int) (stoptag : String) (i : Nat)
    (eh : exifHeader) : LoopCtl × exifHeader :=
  let entry := wrap64 (ifd + 2 + 12 * (i : Int))
  match s2n eh entry 2 false with
  | (.error e, eh) => (.fail e, eh)
  | (.ok tag, eh) =>
    if detailed || !ignoreTags.contains tag then
      match decodeEntry quote ifd ifdname dict relative entry tag eh with
      | (some ctl, eh) => (ctl, eh)
      | (none, eh) => stopCheck (tagName dict tag) stoptag eh
    else stopCheck (tagName dict tag) stoptag eh

/-- The entry loop of `dumpIfd`: `n` more turns, starting with entry `i`. -/
def dumpLoop (quote : String → String) (detailed : Bool) (ifd : Int) (ifdname : String)
    (dict : List (Int × exifTag)) (relative : Int) (stoptag : String) :
    Nat → Nat → exifHeader → Option GoError × exifHeader
  | 0, _, eh => (none, eh)
  | n + 1, i, eh =>
    match dumpEntry quote detailed ifd ifdname dict relative stoptag i eh with
    | (.next, eh1) => dumpLoop quote detailed ifd ifdname dict relative stoptag n (i + 1) eh1
    | (.stop, eh1) => (none, eh1)
    | (.fail e, eh1) => (some e, eh1)

/-- The method `dumpIfd`: the error returned and the header (file and tags) it
leaves.  A `nil` dictionary is `none`. -/
def dumpIfd (quote : String → String) (detailed : Bool) (eh : exifHeader) (ifd : Int)
    (ifdname : String) (dict : Option (List (Int × exifTag))) (relative : Int)
    (stoptag : String) : Option GoError × exifHeader :=
  let dict := dict.getD exifTags
  let stoptag := if stoptag.length = 0 then "UNDEF" else stoptag
  match s2n eh ifd 2 false with
  | (.error e, eh1) => (some e, eh1)
  | (.ok entries, eh1) =>
    dumpLoop quote detailed ifd ifdname dict relative stoptag entries.toNat 0 eh1

/-! ## The entry point (`exif.go`, lines 58-236) -/

/-- What a call of `ProcessFile` does: it panics (index out of range, nil
dereference, `make` with a bad length) or returns a map (`none` is the nil map)
and an error. -/
inductive Outcome
  | panicked
  | returned (tags : Option TagMap) (err : Option GoError)
  deriving DecidableEq, Repr

/-- How the envelope step of `ProcessFile` (lines 70-135) ends. -/
inductive Envelope
  | panicked
  | failed (e : GoError)
  | noExif
  | found (f : File) (endian : UInt8) (offset : Int) (fakeexif : Bool)
  deriving DecidableEq, Repr

/-- The Go run-time limit on the length of a byte slice (`maxAlloc` on `amd64`);
`make` panics above it and for negative lengths. -/
def maxAlloc : Int := 2 ^ 48

/-- The expression `string(data[a:b])`. -/
def sliceString (data : List UInt8) (a b : Nat) : String :=
  bytesToString ((data.take b).drop a)

/-- The segment-skipping loop of lines 99-117, bounded by `fuel` turns (`none` when
the bound is reached): it ends in a panic, an error, or with the file, the last
twelve `data` bytes and `fakeexif`. -/
def skipSegments : Nat → File → List UInt8 → Bool →
    Option (Option (Except GoError (File × List UInt8 × Bool)))
  | 0, _, _, _ => none
  | fuel + 1, f, data, fakeexif =>
    if data.getD 2 0 = 0xFF ∧ ["JFIF", "JFXX", "OLYM", "Phot"].contains (sliceString data 6 10)
    then
      let length : Int := (data.getD 4 0).toNat * 256 + (data.getD 5 0).toNat
      if length - 8 < 0 then some none
      else
        let f := f.seekCur (length - 8)
        match f.read 10 with
        | (.error e, _) => some (some (.error e))
        | (.ok jump, f) => skipSegments fuel f ([0xFF, 0x00] ++ jump) true
    else some (some (.ok (f, data, fakeexif)))

/-- Lines 70-135 of `ProcessFile`: classify the input and find the TIFF block. -/
def locate (fuel : Nat) (f : File) : Option Envelope :=
  match f.readAtLeast 12 with
  | (.error e, _) => some (.failed e)
  | (.ok data, f) =>
    if ["II*\x00", "MM\x00*"].contains (sliceString data 0 4) then
      let f := f.seekStart 0
      match f.readAtLeast 1 with
      | (.error e, _) => some (.failed e)
      | (.ok endian, f) =>
        match f.readAtLeast 1 with
        | (.error _, f) => some (.found f (endian.getD 0 0) 0 false)
        | (.ok again, f) => some (.found f (again.getD 0 0) 0 false)
    else if sliceString data 0 2 = "\xFF\xD8" then
      match skipSegments fuel f data false with
      | none => none
      | some none => some .panicked
      | some (some (.error e)) => some (.failed e)
      | some (some (.ok (f, data, fakeexif))) =>
        if data.getD 2 0 = 0xFF ∧ sliceString data 6 10 = "Exif" then
          let offset : Int := ((f.seekCur 0).pos : Int)
          match (f.seekCur 0).read 1 with
          | (.error e, _) => some (.failed e)
          | (.ok endian, f) => some (.found f (endian.getD 0 0) offset fakeexif)
        else some .noExif
    else some .noExif

/-- Lines 162-174 and 177-182: follow a stored offset tag `key` into a sub-IFD.
`none` is the panic of `Values[0]` on an empty slice; the flag tells whether the
sub-IFD was walked.  The error of `dumpIfd` is dropped, as in the source. -/
def followOffset (quote : String → String) (detailed : Bool) (stop_tag key ifdname : String)
    (dict : List (Int × exifTag)) (hdr : exifHeader) : Option (Bool × exifHeader) :=
  match hdr.tags.get key with
  | none => some (false, hdr)
  | some off =>
    match off.Values with
    | [] => none
    | v0 :: _ =>
      some (true, (dumpIfd quote detailed hdr (atoi v0).1 ifdname (some dict) 0 stop_tag).2)

/-- Lines 147-157: the name of the listed IFD with index `ctr`. -/
def ifdName (ctr : Nat) : String :=
  if ctr = 0 then "Image" else if ctr = 1 then "Thumbnail" else "IFD " ++ itoa ctr

/-- Lines 162-174: the EXIF sub-IFD and, inside it, the Interoperability IFD.
`none` is a panic. -/
def exifStage (quote : String → String) (detailed : Bool) (stop_tag ifdname : String)
    (hdr : exifHeader) : Option exifHeader :=
  match followOffset quote detailed stop_tag (ifdname ++ " ExifOffset") "EXIF" exifTags hdr with
  | none => none
  | some (false, hdr1) => some hdr1
  | some (true, hdr1) =>
    match followOffset quote detailed stop_tag "EXIF SubIFD InteroperabilityOffset"
        "EXIF Interoperability" interTags hdr1 with
    | none => none
    | some (_, hdr2) => some hdr2

/-- Lines 176-182: the GPS sub-IFD.  `none` is a panic. -/
def gpsStage (quote : String → String) (detailed : Bool) (stop_tag ifdname : String)
    (hdr : exifHeader) : Option exifHeader :=
  match followOffset quote detailed stop_tag (ifdname ++ " GPSInfo") "GPS" gpsTags hdr with
  | none => none
  | some (_, hdr1) => some hdr1

/-- Lines 147-184: the body of the loop over the listed IFDs, for the IFD at `i`
with index `ctr`.  `none` is a panic.  The error of `dumpIfd` is dropped. -/
def processIfd (quote : String → String) (detailed : Bool) (stop_tag : String) (ctr : Nat)
    (i : Int) (hdr : exifHeader) : Option exifHeader :=
  let hdr1 := (dumpIfd quote detailed hdr i (ifdName ctr) (some exifTags) 0 stop_tag).2
  match exifStage quote detailed stop_tag (ifdName ctr) hdr1 with
  | none => none
  | some hdr2 => gpsStage quote detailed stop_tag (ifdName ctr) hdr2

/-- The loop of lines 146-186 over `ifdlist`. -/
def processIfds (quote : String → String) (detailed : Bool) (stop_tag : String) :
    List Int → Nat → exifHeader → Option exifHeader
  | [], _, hdr => some hdr
  | i :: rest, ctr, hdr =>
    match processIfd quote detailed stop_tag ctr i hdr with
    | none => none
    | some hdr1 => processIfds quote detailed stop_tag rest (ctr + 1) hdr1

/-- Lines 196-203 and 223-229: seek to the thumbnail and read `size` bytes of it.
`none` is a panic, `some (some e)` the error of the read. -/
def readThumbnail (hdr : exifHeader) (j size : Int) : Option (Option GoError × exifHeader) :=
  let f := hdr.file.seekStart (wrap64 (hdr.offset + j))
  if size < 0 ∨ size > maxAlloc then none
  else
    match f.read size.toNat with
    | (.error e, f1) => some (some e, { hdr with file := f1 })
    | (.ok _, f1) => some (none, { hdr with file := f1 })

/-- Lines 195-206: the JPEG thumbnail of the Thumbnail IFD.  `none` is a panic (an
empty `Values`, a missing length tag, a bad `make`), otherwise the error of the read. -/
def jpegThumbnail (hdr : exifHeader) : Option (Option GoError × exifHeader) :=
  match hdr.tags.get "Thumbnail JPEGInterchangeFormat" with
  | none => some (none, hdr)
  | some thumboff =>
    match thumboff.Values with
    | [] => none
    | j0 :: _ =>
      match hdr.tags.get "Thumbnail JPEGInterchangeFormatLength" with
      | none => none
      | some len =>
        match len.Values with
        | [] => none
        | s0 :: _ => readThumbnail hdr (atoi j0).1 (atoi s0).1

/-- Lines 220-233: the JPEG thumbnail hidden in a MakerNote. -/
def makerNoteThumbnail (hdr : exifHeader) : Option (Option GoError × exifHeader) :=
  match hdr.tags.get "JPEGThumbnail" with
  | some _ => some (none, hdr)
  | none =>
    match hdr.tags.get "MakerNote JPEGThumbnail" with
    | none => some (none, hdr)
    | some thumboff =>
      match thumboff.Values with
      | [] => none
      | j0 :: _ => readThumbnail hdr (atoi j0).1 thumboff.fieldlength

/-- Lines 188-234 of `ProcessFile`: the thumbnail reads and the return. -/
def finish (hdr : exifHeader) : Outcome :=
  match jpegThumbnail hdr with
  | none => .panicked
  | some (some e, _) => .returned none (some e)
  | some (none, hdr1) =>
    match makerNoteThumbnail hdr1 with
    | none => .panicked
    | some (some e, _) => .returned none (some e)
    | some (none, hdr2) => .returned (some hdr2.tags) none

/-- The function `ProcessFile`.  `fuel` bounds the turns of the two loops that
the source leaves unbounded (the segment skipping and the IFD chain); the
result is `none` when it does not suffice. -/
def ProcessFile (quote : String → String) (fuel : Nat) (f : File) (stop_tag : String)
    (details strict : Bool) : Option Outcome :=
  let stop_tag := if stop_tag.length = 0 then "UNDEF" else stop_tag
  let detailed := details
  match locate fuel f with
  | none => none
  | some .panicked => some .panicked
  | some (.failed e) => some (.returned none (some e))
  | some .noExif => some (.returned none none)
  | some (.found f endian offset fakeexif) =>
    let hdr := newExifHeader f endian offset fakeexif strict
    match listIfds fuel hdr with
    | none => none
    | some (.error e, _) => some (.returned none (some e))
    | some (.ok ifdlist, hdr) =>
      match processIfds quote detailed stop_tag ifdlist 0 hdr with
      | none => some .panicked
      | some hdr => some (finish hdr)

/-- The function `Process`: `ProcessFile` with the default parameters. -/
def Process (quote : String → String) (fuel : Nat) (f : File) : Option Outcome :=
  ProcessFile quote fuel f "UNDEF" true false

/-! ## Definitions used in the statements -/

/-- The big-endian value of a byte sequence. -/
def beVal (bs : List UInt8) : Nat := bs.foldl (fun x c => x * 256 + c.toNat) 0

/-- The little-endian value of a byte sequence. -/
def leVal : List UInt8 → Nat
  | [] => 0
  | c :: cs => c.toNat + 256 * leVal cs

/-- A header over the bytes 01 02 03 with endian `M`. -/
def hdrM123 : exifHeader := ⟨⟨[1, 2, 3], 0⟩, 77, 0, false, false, []⟩

/-- A header over the single byte FF with endian `M`. -/
def hdrFF : exifHeader := ⟨⟨[0xFF], 0⟩, 77, 0, false, false, []⟩

/-- A header over the short 80 00 with endian `M`. -/
def hdr8000 : exifHeader := ⟨⟨[0x80, 0x00], 0⟩, 77, 0, false, false, []⟩

/-- A header over the bytes 34 12 with endian `I`. -/
def hdrI : exifHeader := ⟨⟨[0x34, 0x12], 0⟩, 73, 0, false, false, []⟩

/-- A header over the bytes 12 34 with endian `M`. -/
def hdrM : exifHeader := ⟨⟨[0x12, 0x34], 0⟩, 77, 0, false, false, []⟩

/-- The header `b` is the header `a` with the file position moved: same bytes, endian,
offset, flags and tags. -/
def posOnly (a b : exifHeader) : Prop :=
  ∃ p : Nat, b = { a with file := { a.file with pos := p } }

/-- The header `b` is the header `a` after one tag of the dictionary was stored: the
file position moved and one assignment `tags[ifdname + " " + name] = t` made, for an
entry whose tag id is in `dict` and which the ignore list lets through. -/
def storedOne (detailed : Bool) (dict : List (Int × exifTag)) (ifdname : String)
    (a b : exifHeader) : Prop :=
  ∃ (tag : Int) (te : exifTag) (t : IfdTag) (a0 : exifHeader),
    posOnly a a0 ∧ dict.lookup tag = some te ∧
    (detailed = true ∨ ignoreTags.contains tag = false) ∧
    t.tag = tag ∧ 0 < t.Fieldtype ∧ t.Fieldtype < 11 ∧
    b = { a0 with tags := a0.tags.set (ifdname ++ " " ++ te.name) t }

/-- The IFD names and dictionaries with which `ProcessFile` calls `dumpIfd`. -/
def walked (ifdname : String) (dict : List (Int × exifTag)) : Prop :=
  ((ifdname = "Image" ∨ ifdname = "Thumbnail" ∨ ∃ ctr : Nat, ifdname = "IFD " ++ itoa ctr) ∧
    dict = exifTags) ∨
  (ifdname = "EXIF" ∧ dict = exifTags) ∨
  (ifdname = "EXIF Interoperability" ∧ dict = interTags) ∨
  (ifdname = "GPS" ∧ dict = gpsTags)

/-- The binding `k ↦ t` is one that `ProcessFile` can store: `t` carries a tag id of the
dictionary the IFD was walked with, let through by the ignore list, with a field type
in `[1, 10]`, and `k` is the IFD name, a blank and the name of the tag. -/
def storedTag (detailed : Bool) (k : String) (t : IfdTag) : Prop :=
  ∃ (ifdname : String) (dict : List (Int × exifTag)) (te : exifTag),
    walked ifdname dict ∧ dict.lookup t.tag = some te ∧
    (detailed = true ∨ ignoreTags.contains t.tag = false) ∧
    0 < t.Fieldtype ∧ t.Fieldtype < 11 ∧ k = ifdname ++ " " ++ te.name

/-- The names of a dictionary have no blank, and only the ids of the ignore list carry the
names UserComment and MakerNote. -/
def dictFacts (dict : List (Int × exifTag)) : Prop :=
  ∀ p ∈ dict, ' ' ∉ p.2.name.data ∧ (p.2.name = "UserComment" → p.1 = 0x9286) ∧
    (p.2.name = "MakerNote" → p.1 = 0x927C)

/-- The headers `a` and `b` read the same file: same bytes, endian, offset and flags
(the read position and the tag map may differ). -/
def sameFile (a b : exifHeader) : Prop :=
  a.file.data = b.file.data ∧ a.endian = b.endian ∧ a.offset = b.offset ∧
    a.fakeExif = b.fakeExif ∧ a.strict = b.strict

/-- The tag id of entry `k` of the IFD at `ifd` (lines 217-218). -/
def entryTag (eh : exifHeader) (ifd : Int) (k : Nat) : Except GoError Int :=
  (s2n eh (wrap64 (ifd + 2 + 12 * (k : Int))) 2 false).1

/-- The field type of entry `k` of the IFD at `ifd` (line 239). -/
def entryType (eh : exifHeader) (ifd : Int) (k : Nat) : Except GoError Int :=
  (s2n eh (wrap64 (wrap64 (ifd + 2 + 12 * (k : Int)) + 2)) 2 false).1

/-- The IFD at `ifd` lies at a non-negative file position and its entries are far from
the end of the 64-bit range, so that every seek to one of them succeeds. -/
def ifdInRange (eh : exifHeader) (ifd : Int) : Prop :=
  0 ≤ eh.offset ∧ 0 ≤ ifd ∧ eh.offset + ifd < 2 ^ 62

/-- The tag map `m` holds under `key` a tag whose dictionary name is `nm`. -/
def holdsNamed (dict : List (Int × exifTag)) (m : TagMap) (key nm : String) : Prop :=
  ∃ t, m.get key = some t ∧ tagName dict t.tag = nm

/-- The header `h2` is the header `h1` after the IFD at `v` was decoded under the name
`ifdname` with the dictionary `dict`: it is what `dumpIfd` leaves; every binding it adds
is `ifdname` and the name of a tag of `dict`; and when the IFD is at a reachable
position and `dumpIfd` returns no error, every entry that is in `dict`, is let through by
the ignore list, has a field type in `[1, 10]` and has no entry named as the stop tag
before it, is in the map under `ifdname` and its name. -/
def subIfdDecoded (quote : String → String) (detailed : Bool) (stop : String)
    (ifdname : String) (dict : List (Int × exifTag)) (h1 : exifHeader) (v : Int)
    (h2 : exifHeader) : Prop :=
  h2 = (dumpIfd quote detailed h1 v ifdname (some dict) 0 stop).2 ∧
  (∀ k t, (k, t) ∈ h2.tags → (k, t) ∈ h1.tags ∨
    ∃ te, dict.lookup t.tag = some te ∧ k = ifdname ++ " " ++ te.name) ∧
  (∀ (n : Int) (m : Nat) (tag : Int) (te : exifTag),
    ifdInRange h1 v → (s2n h1 v 2 false).1 = .ok n → (m : Int) < n →
    (dumpIfd quote detailed h1 v ifdname (some dict) 0 stop).1 = none →
    (∀ k, k < m → ∀ tag1, entryTag h1 v k = .ok tag1 →
      tagName dict tag1 ≠ (if stop.length = 0 then "UNDEF" else stop)) →
    entryTag h1 v m = .ok tag → dict.lookup tag = some te →
    (detailed || !ignoreTags.contains tag) = true →
    (∃ ft, entryType h1 v m = .ok ft ∧ 1 ≤ ft ∧ ft ≤ 10) →
    holdsNamed dict h2.tags (ifdname ++ " " ++ te.name) te.name)

/-- A big-endian TIFF whose only entry is an ImageDescription (0x010E) of type ASCII
with count 29: the 28 letters "A description of 28 letters." and a NUL, stored at offset 26. -/
def tiffAscii29 : File :=
  ⟨[0x4D, 0x4D, 0x00, 0x2A, 0x00, 0x00, 0x00, 0x08, 0x00, 0x01, 0x01, 0x0E, 0x00, 0x02,
    0x00, 0x00, 0x00, 0x1D, 0x00, 0x00, 0x00, 0x1A, 0x00, 0x00, 0x00, 0x00, 0x41, 0x20,
    0x64, 0x65, 0x73, 0x63, 0x72, 0x69, 0x70, 0x74, 0x69, 0x6F, 0x6E, 0x20, 0x6F, 0x66,
    0x20, 0x32, 0x38, 0x20, 0x6C, 0x65, 0x74, 0x74, 0x65, 0x72, 0x73, 0x2E, 0x00], 0⟩

/-- The same file with count 13 and the 13 bytes "Hello", NUL, "garbage". -/
def tiffAscii13 : File :=
  ⟨[0x4D, 0x4D, 0x00, 0x2A, 0x00, 0x00, 0x00, 0x08, 0x00, 0x01, 0x01, 0x0E, 0x00, 0x02,
    0x00, 0x00, 0x00, 0x0D, 0x00, 0x00, 0x00, 0x1A, 0x00, 0x00, 0x00, 0x00, 0x48, 0x65,
    0x6C, 0x6C, 0x6F, 0x00, 0x67, 0x61, 0x72, 0x62, 0x61, 0x67, 0x65], 0⟩

/-- A big-endian TIFF whose only entry is a Make (0x010F) with the field type 11. -/
def tiffBadType : File :=
  ⟨[0x4D, 0x4D, 0x00, 0x2A, 0x00, 0x00, 0x00, 0x08, 0x00, 0x01, 0x01, 0x0F, 0x00, 0x0B,
    0x00, 0x00, 0x00, 0x01, 0x00, 0x00, 0x00, 0x00, 0x00, 0x00, 0x00, 0x00], 0⟩

/-- A big-endian TIFF: the Image IFD at 8 holds ExifOffset = 26, the EXIF IFD at 26 holds
InteroperabilityOffset = 44, the IFD at 44 holds InteroperabilityIndex = "R98". -/
def tiffInterop : File :=
  ⟨[0x4D, 0x4D, 0x00, 0x2A, 0x00, 0x00, 0x00, 0x08, 0x00, 0x01, 0x87, 0x69, 0x00, 0x04,
    0x00, 0x00, 0x00, 0x01, 0x00, 0x00, 0x00, 0x1A, 0x00, 0x00, 0x00, 0x00, 0x00, 0x01,
    0xA0, 0x05, 0x00, 0x04, 0x00, 0x00, 0x00, 0x01, 0x00, 0x00, 0x00, 0x2C, 0x00, 0x00,
    0x00, 0x00, 0x00, 0x01, 0x00, 0x01, 0x00, 0x02, 0x00, 0x00, 0x00, 0x04, 0x52, 0x39,
    0x38, 0x00, 0x00, 0x00, 0x00, 0x00], 0⟩

/-- A stand-in for `strconv.Quote` at the concrete evaluations: it is what `Quote` returns
on printable ASCII text without a double quote or a backslash. -/
def quoteAscii (s : String) : String := "\"" ++ s ++ "\""

/-- A big-endian TIFF whose Image IFD holds Orientation = 6, a MakerNote (0x927C) of four
bytes and a UserComment (0x9286) of two bytes. -/
def tiffIgnored : File :=
  ⟨[0x4D, 0x4D, 0x00, 0x2A, 0x00, 0x00, 0x00, 0x08, 0x00, 0x03, 0x01, 0x12, 0x00, 0x03,
    0x00, 0x00, 0x00, 0x01, 0x00, 0x06, 0x00, 0x00, 0x92, 0x7C, 0x00, 0x07, 0x00, 0x00,
    0x00, 0x04, 0x01, 0x02, 0x03, 0x04, 0x92, 0x86, 0x00, 0x07, 0x00, 0x00, 0x00, 0x02,
    0x41, 0x42, 0x00, 0x00, 0x00, 0x00, 0x00, 0x00], 0⟩

/-- The header that `ProcessFile` builds for `tiffIgnored`, in lenient mode. -/
def hdrIgnored : exifHeader := newExifHeader tiffIgnored 77 0 false false

/-- A big-endian TIFF whose Image IFD (at 8) holds, in this order, DateTime,
YCbCrPositioning = 2, ExifOffset = 82 and GPSInfo = 100; the EXIF IFD at 82 holds
ColorSpace = 1 and the GPS IFD at 100 holds GPSAltitudeRef = 0. -/
def tiffSorted : File :=
  ⟨[0x4D, 0x4D, 0x00, 0x2A, 0x00, 0x00, 0x00, 0x08, 0x00, 0x04, 0x01, 0x32, 0x00, 0x02,
    0x00, 0x00, 0x00, 0x14, 0x00, 0x00, 0x00, 0x3E, 0x02, 0x13, 0x00, 0x03, 0x00, 0x00,
    0x00, 0x01, 0x00, 0x02, 0x00, 0x00, 0x87, 0x69, 0x00, 0x04, 0x00, 0x00, 0x00, 0x01,
    0x00, 0x00, 0x00, 0x52, 0x88, 0x25, 0x00, 0x04, 0x00, 0x00, 0x00, 0x01, 0x00, 0x00,
    0x00, 0x64, 0x00, 0x00, 0x00, 0x00, 0x32, 0x30, 0x31, 0x30, 0x3A, 0x31, 0x31, 0x3A,
    0x32, 0x38, 0x20, 0x31, 0x36, 0x3A, 0x34, 0x32, 0x3A, 0x31, 0x38, 0x00, 0x00, 0x01,
    0xA0, 0x01, 0x00, 0x03, 0x00, 0x00, 0x00, 0x01, 0x00, 0x01, 0x00, 0x00, 0x00, 0x00,
    0x00, 0x00, 0x00, 0x01, 0x00, 0x05, 0x00, 0x01, 0x00, 0x00, 0x00, 0x01, 0x00, 0x00,
    0x00, 0x00, 0x00, 0x00, 0x00, 0x00], 0⟩

/-- The file `tiffSorted` with the entries of the Image IFD in the order ExifOffset,
GPSInfo, DateTime, YCbCrPositioning. -/
def tiffUnsorted : File :=
  ⟨[0x4D, 0x4D, 0x00, 0x2A, 0x00, 0x00, 0x00, 0x08, 0x00, 0x04, 0x87, 0x69, 0x00, 0x04,
    0x00, 0x00, 0x00, 0x01, 0x00, 0x00, 0x00, 0x52, 0x88, 0x25, 0x00, 0x04, 0x00, 0x00,
    0x00, 0x01, 0x00, 0x00, 0x00, 0x64, 0x01, 0x32, 0x00, 0x02, 0x00, 0x00, 0x00, 0x14,
    0x00, 0x00, 0x00, 0x3E, 0x02, 0x13, 0x00, 0x03, 0x00, 0x00, 0x00, 0x01, 0x00, 0x02,
    0x00, 0x00, 0x00, 0x00, 0x00, 0x00, 0x32, 0x30, 0x31, 0x30, 0x3A, 0x31, 0x31, 0x3A,
    0x32, 0x38, 0x20, 0x31, 0x36, 0x3A, 0x34, 0x32, 0x3A, 0x31, 0x38, 0x00, 0x00, 0x01,
    0xA0, 0x01, 0x00, 0x03, 0x00, 0x00, 0x00, 0x01, 0x00, 0x01, 0x00, 0x00, 0x00, 0x00,
    0x00, 0x00, 0x00, 0x01, 0x00, 0x05, 0x00, 0x01, 0x00, 0x00, 0x00, 0x01, 0x00, 0x00,
    0x00, 0x00, 0x00, 0x00, 0x00, 0x00], 0⟩

/-- The header that `ProcessFile` hands to the loop over the IFDs of `tiffSorted`. -/
def hdrSorted : exifHeader := ⟨⟨tiffSorted.data, 62⟩, 77, 0, false, false, []⟩

/-- The header that `ProcessFile` hands to the loop over the IFDs of `tiffUnsorted`. -/
def hdrUnsorted : exifHeader := ⟨⟨tiffUnsorted.data, 62⟩, 77, 0, false, false, []⟩

/-- The header after the dump of the Image IFD of `tiffSorted` (no stop tag). -/
def hdrSortedImage : exifHeader :=
  (dumpIfd quoteAscii true hdrSorted 8 "Image" (some exifTags) 0 "UNDEF").2

/-- The header after the dump of the EXIF sub-IFD of `tiffSorted`. -/
def hdrSortedExif : exifHeader :=
  (dumpIfd quoteAscii true hdrSortedImage 82 "EXIF" (some exifTags) 0 "UNDEF").2

/-- The header after the dump of the Image IFD of `tiffUnsorted` with the stop tag
"DateTime". -/
def hdrUnsortedImage : exifHeader :=
  (dumpIfd quoteAscii true hdrUnsorted 8 "Image" (some exifTags) 0 "DateTime").2

/-! ## Further files and definitions used in the statements -/

/-- A big-endian TIFF: the Image IFD at 8 holds ExifOffset = 26, the EXIF IFD at 26 holds
an ExposureBiasValue (0x9204) of type 10 (signed ratio), count 1, stored at offset 44 as
the numerator -2 and the denominator 6. -/
def tiffSignedRatio : File :=
  ⟨[0x4D, 0x4D, 0x00, 0x2A, 0x00, 0x00, 0x00, 0x08, 0x00, 0x01, 0x87, 0x69, 0x00, 0x04,
    0x00, 0x00, 0x00, 0x01, 0x00, 0x00, 0x00, 0x1A, 0x00, 0x00, 0x00, 0x00, 0x00, 0x01,
    0x92, 0x04, 0x00, 0x0A, 0x00, 0x00, 0x00, 0x01, 0x00, 0x00, 0x00, 0x2C, 0x00, 0x00,
    0x00, 0x00, 0xFF, 0xFF, 0xFF, 0xFE, 0x00, 0x00, 0x00, 0x06], 0⟩

/-- A big-endian TIFF: the Image IFD at 8 holds ExifOffset = 26, the EXIF IFD at 26 holds a
UserComment (0x9286) of type 7, count 10, stored at offset 44 as the character-set code
"ASCII" with three NUL bytes followed by the text "Hi". -/
def tiffUserComment : File :=
  ⟨[0x4D, 0x4D, 0x00, 0x2A, 0x00, 0x00, 0x00, 0x08, 0x00, 0x01, 0x87, 0x69, 0x00, 0x04,
    0x00, 0x00, 0x00, 0x01, 0x00, 0x00, 0x00, 0x1A, 0x00, 0x00, 0x00, 0x00, 0x00, 0x01,
    0x92, 0x86, 0x00, 0x07, 0x00, 0x00, 0x00, 0x0A, 0x00, 0x00, 0x00, 0x2C, 0x00, 0x00,
    0x00, 0x00, 0x41, 0x53, 0x43, 0x49, 0x49, 0x00, 0x00, 0x00, 0x48, 0x69], 0⟩

/-- A marker segment of a JPEG file: the marker byte after 0xFF, the two bytes of the
declared length, the four bytes of the signature and the bytes after them. -/
structure Segment where
  marker : UInt8
  hi : UInt8
  lo : UInt8
  sig : List UInt8
  body : List UInt8
  deriving DecidableEq, Repr

/-- The declared length of a segment, as line 102 computes it. -/
def Segment.declared (s : Segment) : Nat := s.hi.toNat * 256 + s.lo.toNat

/-- The bytes of a segment in the file. -/
def Segment.bytes (s : Segment) : List UInt8 :=
  [0xFF, s.marker, s.hi, s.lo] ++ s.sig ++ s.body

/-- A complete segment that the loop of lines 99-117 skips: one of the four signatures,
a declared length of at least 8 that counts the two length bytes, the signature and the
bytes after it. -/
def Segment.skippable (s : Segment) : Prop :=
  s.sig.length = 4 ∧ bytesToString s.sig ∈ ["JFIF", "JFXX", "OLYM", "Phot"] ∧
  8 ≤ s.declared ∧ s.body.length + 6 = s.declared

instance (s : Segment) : Decidable s.skippable := by
  unfold Segment.skippable
  infer_instance

/-- The bytes of consecutive segments. -/
def segsBytes : List Segment → List UInt8
  | [] => []
  | s :: rest => s.bytes ++ segsBytes rest

/-- The bytes that consecutive segments occupy according to their declared lengths:
the two marker bytes and the declared length of each. -/
def skippedLength : List Segment → Nat
  | [] => 0
  | s :: rest => (s.declared + 2) + skippedLength rest

/-- The ten bytes that a `Read` into a buffer of length 10 finds at the head of `cur`. -/
def window (cur : List UInt8) : List UInt8 := (File.mk cur 0).buffer 10

/-- The condition of the loop of line 99 on the twelve bytes `data`. -/
def skipHeader (data : List UInt8) : Prop :=
  data.getD 2 0 = 0xFF ∧ ["JFIF", "JFXX", "OLYM", "Phot"].contains (sliceString data 6 10) = true

/-- The condition of line 119 on the twelve bytes `data`. -/
def exifMarked (data : List UInt8) : Prop :=
  data.getD 2 0 = 0xFF ∧ sliceString data 6 10 = "Exif"

instance (data : List UInt8) : Decidable (skipHeader data) := by
  unfold skipHeader
  infer_instance

instance (data : List UInt8) : Decidable (exifMarked data) := by
  unfold exifMarked
  infer_instance

/-- A JPEG file: the start-of-image marker, `segs` and the bytes `rest`. -/
def jpegFile (segs : List Segment) (rest : List UInt8) : List UInt8 :=
  [0xFF, 0xD8] ++ (segsBytes segs ++ rest)

/-- The ten bytes at the head of a segment with the signature "Exif": the marker, the
two length bytes, the signature and two more bytes. -/
def exifHead (m hi lo p1 p2 : UInt8) : List UInt8 :=
  [0xFF, m, hi, lo, 0x45, 0x78, 0x69, 0x66, p1, p2]

/-- Line 137 of `ProcessFile`: the header built from what the envelope step found;
`none` when the function returns or panics before that line, or the fuel runs out. -/
def builtHeader (fuel : Nat) (f : File) (strict : Bool) : Option exifHeader :=
  match locate fuel f with
  | some (.found f endian offset fakeexif) => some (newExifHeader f endian offset fakeexif strict)
  | _ => none

/-- A JFIF segment of declared length 16. -/
def jfifSegment : Segment :=
  ⟨0xE0, 0x00, 0x10, [0x4A, 0x46, 0x49, 0x46],
    [0x00, 0x01, 0x01, 0x01, 0x00, 0x48, 0x00, 0x48, 0x00, 0x00]⟩

/-- A big-endian TIFF block whose only IFD, at 8, has no entry. -/
def tiffEmpty : List UInt8 :=
  [0x4D, 0x4D, 0x00, 0x2A, 0x00, 0x00, 0x00, 0x08, 0x00, 0x00, 0x00, 0x00, 0x00, 0x00]

/-- A JPEG file that ends with its JFIF segment: the start-of-image marker and the 18
bytes of `jfifSegment`. -/
def jpegJfifOnly : File := ⟨jpegFile [jfifSegment] [], 0⟩

/-- A JPEG file whose JFIF segment declares the length 4: FF D8, FF E0 00 04, "JFIF" and
two more bytes. -/
def jpegShortSegment : File :=
  ⟨[0xFF, 0xD8, 0xFF, 0xE0, 0x00, 0x04, 0x4A, 0x46, 0x49, 0x46, 0x00, 0x00], 0⟩

/-- The tag `t` is what lines 239-413 of `dumpIfd` build for an entry whose dictionary
entry is `te`: for the count `0 ≤ count < 2^32` of the entry and the size of the field
type in `FIELD_TYPES`, the field type is in `[1, 10]`, the values are those that
`readValues` returns at the field offset, the field length is the count times the size,
and the printable is what `tagPrintable` makes of the values. -/
def decoded (quote : String → String) (dict : List (Int × exifTag)) (te : exifTag)
    (t : IfdTag) : Prop :=
  ∃ (count : Int) (eh eh1 : exifHeader),
    0 ≤ count ∧ count < 2 ^ 32 ∧ 0 < t.Fieldtype ∧ t.Fieldtype < 11 ∧
    readValues eh (tagName dict t.tag) t.Fieldtype count
      (FIELD_TYPES.getD t.Fieldtype.toNat ⟨0, "", ""⟩).Size t.fieldoffset = (.ok t.Values, eh1) ∧
    t.fieldlength = count * ((FIELD_TYPES.getD t.Fieldtype.toNat ⟨0, "", ""⟩).Size : Int) ∧
    tagPrintable te t.Values (printableOf quote count t.Fieldtype t.Values) = .ok t.Printable

/-- The binding `k ↦ t` is one that `ProcessFile` stores: `k` is the IFD name, a blank and
the name of the tag in the dictionary the IFD was walked with, and `t` is what `dumpIfd`
builds for an entry with that tag id. -/
def storedAs (quote : String → String) (k : String) (t : IfdTag) (ifdname : String)
    (dict : List (Int × exifTag)) (te : exifTag) : Prop :=
  walked ifdname dict ∧ dict.lookup t.tag = some te ∧ k = ifdname ++ " " ++ te.name ∧
    decoded quote dict te t

/-- The printable that lines 386-404 build from the table `fields`: for each value, in
order, the name that the table gives to its number when it is a key, the value itself
otherwise, without separator. -/
def enumPrintable (fields : List (Int × String)) : List String → String
  | [] => ""
  | v :: rest =>
    (match fields.lookup (atoi v).1 with
      | some s => s
      | none => v) ++ enumPrintable fields rest

/-- The binding `k ↦ t` is one that `ProcessFile` stores, for some IFD name, dictionary
and dictionary entry. -/
def storedBy (quote : String → String) (k : String) (t : IfdTag) : Prop :=
  ∃ (ifdname : String) (dict : List (Int × exifTag)) (te : exifTag),
    storedAs quote k t ifdname dict te

/-- The map that `ProcessFile` returns for `tiffIgnored` with `details = true`. -/
def tagsIgnored : TagMap :=
  [("Image UserComment", ⟨"", 0x9286, 7, 42, 2, ["65", "66"]⟩),
   ("Image MakerNote", ⟨"1, 2, 3, 4", 0x927C, 7, 30, 4, ["1", "2", "3", "4"]⟩),
   ("Image Orientation", ⟨"Rotated 90 CW", 0x0112, 3, 18, 2, ["6"]⟩)]

/-- A big-endian TIFF whose Image IFD holds an entry with the tag id 0xC612, which is not
in `exifTags`, of type 3 with the value 1, and then Orientation = 6. -/
def tiffUnknown : File :=
  ⟨[0x4D, 0x4D, 0x00, 0x2A, 0x00, 0x00, 0x00, 0x08, 0x00, 0x02, 0xC6, 0x12, 0x00, 0x03,
    0x00, 0x00, 0x00, 0x01, 0x00, 0x01, 0x00, 0x00, 0x01, 0x12, 0x00, 0x03, 0x00, 0x00,
    0x00, 0x01, 0x00, 0x06, 0x00, 0x00, 0x00, 0x00, 0x00, 0x00], 0⟩

/-- The header that `ProcessFile` hands to the loop over the IFDs of `tiffUnknown`. -/
def hdrUnknown : exifHeader := ⟨⟨tiffUnknown.data, 38⟩, 77, 0, false, false, []⟩

/-! ## Files and definitions for the last claims -/

/-- A big-endian TIFF whose Image IFD holds one entry, ExifOffset (0x8769) of type 4 with
the count 0. -/
def tiffExifEmpty : File :=
  ⟨[0x4D, 0x4D, 0x00, 0x2A, 0x00, 0x00, 0x00, 0x08, 0x00, 0x01, 0x87, 0x69, 0x00, 0x04,
    0x00, 0x00, 0x00, 0x00, 0x00, 0x00, 0x00, 0x00, 0x00, 0x00, 0x00, 0x00], 0⟩

/-- A big-endian TIFF whose Image IFD holds one entry, GPSInfo (0x8825) of type 4 with the
count 1000 and the value pointer 0. -/
def tiffGpsLarge : File :=
  ⟨[0x4D, 0x4D, 0x00, 0x2A, 0x00, 0x00, 0x00, 0x08, 0x00, 0x01, 0x88, 0x25, 0x00, 0x04,
    0x00, 0x00, 0x03, 0xE8, 0x00, 0x00, 0x00, 0x00, 0x00, 0x00, 0x00, 0x00], 0⟩

/-- A big-endian TIFF with two IFDs: the Image IFD at 8 has no entry, the Thumbnail IFD at
14 holds a JPEGInterchangeFormat (0x0201) = 32 and no JPEGInterchangeFormatLength. -/
def tiffThumbNoLength : File :=
  ⟨[0x4D, 0x4D, 0x00, 0x2A, 0x00, 0x00, 0x00, 0x08, 0x00, 0x00, 0x00, 0x00, 0x00, 0x0E,
    0x00, 0x01, 0x02, 0x01, 0x00, 0x04, 0x00, 0x00, 0x00, 0x01, 0x00, 0x00, 0x00, 0x20,
    0x00, 0x00, 0x00, 0x00], 0⟩

/-- The link that follows the IFD at `o`: the unsigned four-byte integer behind its
entries, at `o + 2 + 12 * n` for the entry count `n` read at `o`. -/
def linkAfter (eh : exifHeader) (o : Int) : Except GoError Int :=
  match (s2n eh o 2 false).1 with
  | .error e => .error e
  | .ok n => (s2n eh (wrap64 (o + 2 + 12 * n)) 4 false).1

/-- The offsets `l` are the IFD chain that starts with the link `o`: each is non-zero,
each is followed by the link of the next one, and the link after the last is zero. -/
def ifdChain (eh : exifHeader) : Int → List Int → Prop
  | o, [] => o = 0
  | o, o1 :: rest => o = o1 ∧ o1 ≠ 0 ∧ ∃ nxt, linkAfter eh o1 = .ok nxt ∧ ifdChain eh nxt rest

/-- Lines 290-422 of `dumpIfd` for an entry whose tag id has the dictionary entry `te` and
whose field type `ft` is valid, from the result `r` of the value-offset step on: the
values, the printable, the assignment to the tag map and the stop-tag test. -/
def decodeTail (quote : String → String) (ifdname stoptag : String) (te : exifTag)
    (tag ft count : Int) (size : Nat) (r : Except GoError Int × exifHeader) :
    LoopCtl × exifHeader :=
  match r with
  | (.error e, eh) => (.fail e, eh)
  | (.ok offset, eh) =>
    match readValues eh te.name ft count size offset with
    | (.error e, eh) => (.fail e, eh)
    | (.ok values, eh) =>
      match tagPrintable te values (printableOf quote count ft values) with
      | .error e => (.fail e, eh)
      | .ok printable =>
        let t : IfdTag := ⟨printable, tag, ft, offset, count * (size : Int), values⟩
        stopCheck te.name stoptag { eh with tags := eh.tags.set (ifdname ++ " " ++ te.name) t }

/-- The header over `tiffSorted` with the file position `p` and no tag stored. -/
def hdrSortedAt (p : Nat) : exifHeader := ⟨⟨tiffSorted.data, p⟩, 77, 0, false, false, []⟩

/-- A big-endian TIFF whose Image IFD holds a MakerNote (0x927C) entry with the field
type 0 and then Orientation = 6. -/
def tiffBadTypeStop : File :=
  ⟨[0x4D, 0x4D, 0x00, 0x2A, 0x00, 0x00, 0x00, 0x08, 0x00, 0x02, 0x92, 0x7C, 0x00, 0x00,
    0x00, 0x00, 0x00, 0x01, 0x00, 0x00, 0x00, 0x00, 0x01, 0x12, 0x00, 0x03, 0x00, 0x00,
    0x00, 0x01, 0x00, 0x06, 0x00, 0x00, 0x00, 0x00, 0x00, 0x00], 0⟩

/-- The header over `tiffBadTypeStop` with the file position `p`, in lenient mode, with no
tag stored. -/
def hdrBadTypeAt (p : Nat) : exifHeader := ⟨⟨tiffBadTypeStop.data, p⟩, 77, 0, false, false, []⟩

/-- The `n` bytes that a read finds at `offset` from the start of the TIFF block, followed
by zeroes when the file ends before `n` bytes. -/
def bytesAt (eh : exifHeader) (offset : Int) (n : Nat) : List UInt8 :=
  (File.mk eh.file.data (eh.offset + offset).toNat).buffer n

/-- The string `v` is the value that lines 317-357 of `dumpIfd` decode from the field at
`offset`: with `ratios` set and a field type 5 or 10, the ratio of the two four-byte
integers at `offset` and `offset + 4`; otherwise the decimal rendering of the integer of
`size` bytes at `offset`; the integers are signed for the field types 6, 8, 9 and 10. -/
def decodesAt (eh : exifHeader) (ratios : Bool) (ft : Int) (size : Nat) (offset : Int)
    (v : String) : Prop :=
  if ratios = true ∧ (ft = 5 ∨ ft = 10) then
    ∃ num den, (s2n eh offset 4 ([6, 8, 9, 10].contains ft)).1 = .ok num ∧
      (s2n eh (offset + 4) 4 ([6, 8, 9, 10].contains ft)).1 = .ok den ∧
      v = (newRatio num den).String.2
  else ∃ n, (s2n eh offset size ([6, 8, 9, 10].contains ft)).1 = .ok n ∧ v = itoa n

/-- The values `values` are decoded from the bytes at `offset`, for a field of type `ft`
with `count` elements of `size` bytes in a tag named `name`: an ASCII field with
`0 < count < 29` has as its single value the `count` bytes at `offset` up to the first
NUL, an ASCII field with the count 0 the single value ""; a field of another type with
`count < 1000`, or in a tag named MakerNote, has `count` values, the `k`-th decoded from
the field at `offset + k * size`; with a larger count it has no value. -/
def valuesAt (eh : exifHeader) (name : String) (ft count : Int) (size : Nat) (offset : Int)
    (values : List String) : Prop :=
  if ft = 2 then
    (count = 0 → values = [""]) ∧
    (0 < count ∧ count < 29 →
      values = [bytesToString ((bytesAt eh offset count.toNat).takeWhile (fun b => b != 0))])
  else if count < 1000 ∨ name = "MakerNote" then
    values.length = count.toNat ∧
    ∀ k, k < count.toNat →
      ∃ v, values.get? k = some v ∧
        decodesAt eh (decide (count < 1000)) ft size (offset + (k : Int) * (size : Int)) v
  else values = []

/-! ## Byte primitives: values and bounds (C8, C9, C10) -/

theorem byte_lt (c : UInt8) : c.toNat < 256 := UInt8.toNat_lt c

theorem motorola_step (x : Nat) (c : UInt8) (hx : x * 256 < 2 ^ 64) :
    ((x <<< 8) % 2 ^ 64) ||| c.toNat = x * 256 + c.toNat := by
  have hc := byte_lt c
  rw [Nat.shiftLeft_eq, Nat.mod_eq_of_lt (by simpa using hx)]
  have := Nat.mul_add_lt_is_or (i := 8) (b := c.toNat) (by simpa using hc) x
  rw [Nat.mul_comm x (2 ^ 8), ← this]

theorem motorola_fold (bs : List UInt8) : ∀ (m x : Nat), m + bs.length ≤ 8 → x < 256 ^ m →
    bs.foldl (fun x c => ((x <<< 8) % 2 ^ 64) ||| c.toNat) x
      = bs.foldl (fun x c => x * 256 + c.toNat) x ∧
    bs.foldl (fun x c => x * 256 + c.toNat) x < 256 ^ (m + bs.length) := by
  induction bs with
  | nil => intro m x _ hx; simpa using hx
  | cons c cs ih =>
    intro m x hm hx
    simp only [List.length_cons] at hm
    have hc := byte_lt c
    have h1 : x * 256 + c.toNat < 256 ^ (m + 1) := by
      rw [pow_succ]; nlinarith
    have h2 : x * 256 < 2 ^ 64 := by
      have : (256 : Nat) ^ (m + 1) ≤ 256 ^ 8 := Nat.pow_le_pow_right (by norm_num) (by omega)
      have h3 : (256 : Nat) ^ 8 = 2 ^ 64 := by norm_num
      omega
    simp only [List.foldl_cons, List.length_cons]
    rw [motorola_step x c h2]
    have := ih (m + 1) (x * 256 + c.toNat) (by omega) h1
    rw [show m + (cs.length + 1) = m + 1 + cs.length by omega]
    exact this

theorem s2n_motorola_eq (bs : List UInt8) (h : bs.length ≤ 8) :
    s2n_motorola bs = beVal bs ∧ beVal bs < 256 ^ bs.length := by
  have := motorola_fold bs 0 0 (by omega) (by norm_num)
  simpa [s2n_motorola, beVal] using this

theorem intel_step (x m : Nat) (c : UInt8) (hm : m + 1 ≤ 8) (hx : x < 2 ^ (8 * m)) :
    x ||| ((c.toNat <<< (8 * m)) % 2 ^ 64) = x + 2 ^ (8 * m) * c.toNat := by
  have hc := byte_lt c
  have h1 : c.toNat * 2 ^ (8 * m) < 2 ^ 64 := by
    have : (2 : Nat) ^ (8 * m) * 256 ≤ 2 ^ 64 := by
      rw [show (256 : Nat) = 2 ^ 8 by norm_num, ← pow_add]
      exact Nat.pow_le_pow_right (by norm_num) (by omega)
    nlinarith
  rw [Nat.shiftLeft_eq, Nat.mod_eq_of_lt h1]
  have := Nat.mul_add_lt_is_or hx c.toNat
  rw [Nat.lor_comm, Nat.mul_comm c.toNat, ← this]; omega

theorem intel_loop_eq (bs : List UInt8) : ∀ (m x : Nat), m + bs.length ≤ 8 → x < 2 ^ (8 * m) →
    s2n_intel_loop bs x (8 * m) = x + 2 ^ (8 * m) * leVal bs ∧
    x + 2 ^ (8 * m) * leVal bs < 2 ^ (8 * (m + bs.length)) := by
  induction bs with
  | nil => intro m x _ hx; simpa [s2n_intel_loop, leVal] using hx
  | cons c cs ih =>
    intro m x hm hx
    simp only [List.length_cons] at hm
    have hc := byte_lt c
    have hx1 : x + 2 ^ (8 * m) * c.toNat < 2 ^ (8 * (m + 1)) := by
      rw [show 8 * (m + 1) = 8 * m + 8 by ring, pow_add]
      nlinarith
    have hy : (8 * m + 8) % 256 = 8 * (m + 1) := by omega
    simp only [s2n_intel_loop, leVal, List.length_cons]
    rw [intel_step x m c (by omega) hx, hy]
    have := ih (m + 1) _ (by omega) hx1
    rw [show m + (cs.length + 1) = m + 1 + cs.length by omega]
    refine ⟨?_, ?_⟩
    · rw [this.1, show 8 * (m + 1) = 8 * m + 8 by ring, pow_add]; ring
    · have h2 := this.2
      rw [show 8 * (m + 1) = 8 * m + 8 by ring, pow_add] at h2
      rw [show 8 * (m + 1 + cs.length) = 8 * m + 8 + 8 * cs.length by ring] at h2 ⊢
      calc x + 2 ^ (8 * m) * (c.toNat + 256 * leVal cs)
          = x + 2 ^ (8 * m) * c.toNat + 2 ^ (8 * m) * 2 ^ 8 * leVal cs := by ring
        _ < _ := h2

theorem s2n_intel_eq (bs : List UInt8) (h : bs.length ≤ 8) :
    s2n_intel bs = leVal bs ∧ leVal bs < 256 ^ bs.length := by
  have := intel_loop_eq bs 0 0 (by omega) (by norm_num)
  simp only [Nat.mul_zero, pow_zero, Nat.zero_add, Nat.one_mul] at this
  refine ⟨this.1, ?_⟩
  rw [show (256 : Nat) = 2 ^ 8 by norm_num, ← pow_mul]
  exact this.2

theorem beVal_append (bs : List UInt8) (c : UInt8) : beVal (bs ++ [c]) = beVal bs * 256 + c.toNat := by
  simp [beVal, List.foldl_append]

theorem leVal_append (bs : List UInt8) (c : UInt8) :
    leVal (bs ++ [c]) = leVal bs + 256 ^ bs.length * c.toNat := by
  induction bs with
  | nil => simp [leVal]
  | cons b bs ih =>
    rw [List.cons_append, leVal, ih, leVal, List.length_cons, pow_succ]; ring

theorem beVal_reverse (bs : List UInt8) : beVal bs.reverse = leVal bs := by
  induction bs with
  | nil => rfl
  | cons b bs ih => rw [List.reverse_cons, beVal_append, ih, leVal]; ring

theorem leVal_reverse (bs : List UInt8) : leVal bs.reverse = beVal bs := by
  rw [← beVal_reverse, List.reverse_reverse]

theorem leVal_eq_sum (b : List UInt8) :
    leVal b = ∑ i in Finset.range b.length, (b.getD i 0).toNat * 256 ^ i := by
  induction b using List.reverseRecOn with
  | nil => simp [leVal]
  | append_singleton bs c ih =>
    rw [leVal_append, List.length_append, List.length_singleton, Finset.sum_range_succ, ih]
    congr 1
    · apply Finset.sum_congr rfl
      intro i hi
      rw [Finset.mem_range] at hi
      rw [List.getD_append _ _ _ _ hi]
    · rw [List.getD_append_right _ _ _ _ (le_refl _)]
      simp [Nat.mul_comm]

theorem beVal_eq_sum (b : List UInt8) :
    beVal b = ∑ i in Finset.range b.length, (b.getD i 0).toNat * 256 ^ (b.length - 1 - i) := by
  induction b using List.reverseRecOn with
  | nil => simp [beVal]
  | append_singleton bs c ih =>
    rw [beVal_append, List.length_append, List.length_singleton, Finset.sum_range_succ, ih,
      Finset.sum_mul]
    congr 1
    · apply Finset.sum_congr rfl
      intro i hi
      rw [Finset.mem_range] at hi
      rw [List.getD_append _ _ _ _ hi, Nat.mul_assoc, ← pow_succ]
      congr 2
      omega
    · rw [List.getD_append_right _ _ _ _ (le_refl _)]
      simp

theorem buffer_length (f : File) (n : Nat) : (f.buffer n).length = n := by
  simp only [File.buffer, List.length_append, List.length_replicate, List.length_take]
  omega

theorem read_length {f f1 : File} {n : Nat} {s : List UInt8}
    (h : f.read n = (.ok s, f1)) : s.length = n := by
  unfold File.read at h
  split at h
  · simp only [Prod.mk.injEq, Except.ok.injEq] at h
    rw [← h.1]; simp; omega
  · split at h
    · simp at h
    · simp only [Prod.mk.injEq, Except.ok.injEq] at h
      rw [← h.1]; exact buffer_length f n

theorem ofBits_small (v : Nat) (h : v < 2 ^ 63) : ofBits v = v := by
  unfold ofBits wrap64
  omega

theorem s2n_of_read (eh : exifHeader) (offset : Int) (n : Nat) (signed : Bool)
    (s : List UInt8) (f1 : File)
    (h : (eh.file.seekStart (wrap64 (eh.offset + offset))).read n = (.ok s, f1)) :
    s2n eh offset n signed =
      (.ok (ofBits
        (if signed then signExtend n (if eh.endian = 73 then s2n_intel s else s2n_motorola s)
          else (if eh.endian = 73 then s2n_intel s else s2n_motorola s))),
        { eh with file := f1 }) := by
  simp only [s2n, h]

theorem pow256_le (n m : Nat) (h : n ≤ m) : (256 : Nat) ^ n ≤ 2 ^ (8 * m) := by
  rw [show (256 : Nat) = 2 ^ 8 by norm_num, ← pow_mul]
  exact Nat.pow_le_pow_right (by norm_num) (by omega)

/-- C9: an unsigned read of at most four bytes `b` yields the sum of `b[i] * 256^i`
under endian `I` and the sum of `b[i] * 256^(n-1-i)` under endian `M`; the result lies
in `[0, 2^(8n))`. -/
theorem s2n_unsigned_value (eh : exifHeader) (offset : Int) (b : List UInt8) (f1 : File)
    (hlen : b.length ≤ 4)
    (hread : (eh.file.seekStart (wrap64 (eh.offset + offset))).read b.length = (.ok b, f1)) :
    (eh.endian = 73 → (s2n eh offset b.length false).1 =
      .ok ((∑ i in Finset.range b.length, (b.getD i 0).toNat * 256 ^ i : Nat) : Int)) ∧
    (eh.endian = 77 → (s2n eh offset b.length false).1 =
      .ok ((∑ i in Finset.range b.length,
        (b.getD i 0).toNat * 256 ^ (b.length - 1 - i) : Nat) : Int)) ∧
    ∃ v, (s2n eh offset b.length false).1 = .ok v ∧ 0 ≤ v ∧ v < 2 ^ (8 * b.length) := by
  have hI := s2n_intel_eq b (by omega)
  have hM := s2n_motorola_eq b (by omega)
  have h32 : (256 : Nat) ^ b.length ≤ 2 ^ (8 * 4) := pow256_le _ _ hlen
  have hb : (256 : Nat) ^ b.length = 2 ^ (8 * b.length) := by
    rw [show (256 : Nat) = 2 ^ 8 by norm_num, ← pow_mul]
  rw [s2n_of_read eh offset b.length false b f1 hread]
  refine ⟨?_, ?_, ?_⟩
  · intro hE
    simp only [hE, if_true, Bool.false_eq_true, if_false]
    rw [hI.1, ofBits_small _ (by omega), leVal_eq_sum]
  · intro hE
    simp only [hE, Bool.false_eq_true, if_false]
    rw [if_neg (by decide), hM.1, ofBits_small _ (by omega), beVal_eq_sum]
  · simp only [Bool.false_eq_true, if_false]
    refine ⟨_, rfl, ?_, ?_⟩
    · split
      · rw [hI.1, ofBits_small _ (by omega)]; exact Int.natCast_nonneg _
      · rw [hM.1, ofBits_small _ (by omega)]; exact Int.natCast_nonneg _
    · split
      · rw [hI.1, ofBits_small _ (by omega)]
        have h := hI.2
        rw [hb] at h
        exact_mod_cast h
      · rw [hM.1, ofBits_small _ (by omega)]
        have h := hM.2
        rw [hb] at h
        exact_mod_cast h

/-- C9 at a concrete read: the bytes 01 02 03 under endian `M` at offset 0. -/
theorem s2n_unsigned_value_witness :
    (([1, 2, 3] : List UInt8).length ≤ 4 ∧
      (hdrM123.file.seekStart (wrap64 (hdrM123.offset + 0))).read ([1, 2, 3] : List UInt8).length =
        (.ok [1, 2, 3], ⟨[1, 2, 3], 3⟩)) ∧
    (s2n hdrM123 0 3 false).1 = .ok 0x010203 ∧
    (hdrM123.endian = 77 →
      (s2n hdrM123 0 ([1, 2, 3] : List UInt8).length false).1 =
        .ok ((∑ i in Finset.range ([1, 2, 3] : List UInt8).length,
          (([1, 2, 3] : List UInt8).getD i 0).toNat *
            256 ^ (([1, 2, 3] : List UInt8).length - 1 - i) : Nat) : Int)) :=
  ⟨⟨by decide, by decide⟩, by decide,
    (s2n_unsigned_value hdrM123 0 [1, 2, 3] ⟨[1, 2, 3], 3⟩ (by decide) (by decide)).2.1⟩

theorem and_msb (raw k : Nat) (h : raw < 2 ^ (k + 1)) :
    raw &&& 2 ^ k = if 2 ^ k ≤ raw then 2 ^ k else 0 := by
  rw [Nat.and_two_pow, Nat.testBit_to_div_mod]
  have hpos : 0 < 2 ^ k := Nat.pos_pow_of_pos _ (by norm_num)
  have hlt : raw / 2 ^ k < 2 := by
    rw [Nat.div_lt_iff_lt_mul hpos, ← pow_succ']
    exact h
  by_cases hge : 2 ^ k ≤ raw
  · have : 1 ≤ raw / 2 ^ k := (Nat.le_div_iff_mul_le hpos).2 (by simpa using hge)
    have h1 : raw / 2 ^ k % 2 = 1 := by omega
    simp [h1, hge]
  · have : raw / 2 ^ k = 0 := Nat.div_eq_of_lt (by omega)
    simp [this, hge]

theorem signExtend_eq (n raw : Nat) (hn : n = 1 ∨ n = 2 ∨ n = 4) (hraw : raw < 2 ^ (8 * n)) :
    ofBits (signExtend n raw) =
      if (2 : Int) ^ (8 * n - 1) ≤ raw then (raw : Int) - 2 ^ (8 * n) else raw := by
  rcases hn with rfl | rfl | rfl
  · have h := and_msb raw 7 (by simpa using hraw)
    norm_num at hraw h ⊢
    simp only [signExtend, Nat.shiftLeft_eq]
    norm_num
    rw [h]
    unfold ofBits wrap64
    split_ifs <;> omega
  · have h := and_msb raw 15 (by simpa using hraw)
    norm_num at hraw h ⊢
    simp only [signExtend, Nat.shiftLeft_eq]
    norm_num
    rw [h]
    unfold ofBits wrap64
    split_ifs <;> omega
  · have h := and_msb raw 31 (by simpa using hraw)
    norm_num at hraw h ⊢
    simp only [signExtend, Nat.shiftLeft_eq]
    norm_num
    rw [h]
    unfold ofBits wrap64
    split_ifs <;> omega

theorem s2n_ok_read {eh : exifHeader} {offset : Int} {n : Nat} {signed : Bool} {u : Int}
    (h : (s2n eh offset n signed).1 = .ok u) :
    ∃ s f1, (eh.file.seekStart (wrap64 (eh.offset + offset))).read n = (.ok s, f1) := by
  unfold s2n at h
  rcases hr : (eh.file.seekStart (wrap64 (eh.offset + offset))).read n with ⟨r, f1⟩
  cases r with
  | error e => simp [hr] at h
  | ok s => exact ⟨s, f1, rfl⟩

theorem raw_lt (eh : exifHeader) (s : List UInt8) (h : s.length ≤ 8) :
    (if eh.endian = 73 then s2n_intel s else s2n_motorola s) < 256 ^ s.length := by
  split
  · rw [(s2n_intel_eq s h).1]; exact (s2n_intel_eq s h).2
  · rw [(s2n_motorola_eq s h).1]; exact (s2n_motorola_eq s h).2

/-- C8: for `n` in `{1, 2, 4}`, when the unsigned read yields `u` the signed read yields
`u - 2^(8n)` if the top bit is set (`u ≥ 2^(8n-1)`) and `u` otherwise, a value of
`[-2^(8n-1), 2^(8n-1))`. -/
theorem s2n_signed_value (eh : exifHeader) (offset : Int) (n : Nat) (u : Int)
    (hn : n = 1 ∨ n = 2 ∨ n = 4) (hu : (s2n eh offset n false).1 = .ok u) :
    (s2n eh offset n true).1 = .ok (if (2 : Int) ^ (8 * n - 1) ≤ u then u - 2 ^ (8 * n) else u) ∧
    -(2 : Int) ^ (8 * n - 1) ≤ (if (2 : Int) ^ (8 * n - 1) ≤ u then u - 2 ^ (8 * n) else u) ∧
    (if (2 : Int) ^ (8 * n - 1) ≤ u then u - 2 ^ (8 * n) else u) < 2 ^ (8 * n - 1) := by
  obtain ⟨s, f1, hr⟩ := s2n_ok_read hu
  have hlen := read_length hr
  have hraw := raw_lt eh s (by rcases hn with h | h | h <;> omega)
  rw [hlen, show (256 : Nat) = 2 ^ 8 by norm_num, ← pow_mul] at hraw
  have hsmall : (if eh.endian = 73 then s2n_intel s else s2n_motorola s) < 2 ^ 63 := by
    have : (2 : Nat) ^ (8 * n) ≤ 2 ^ 63 :=
      Nat.pow_le_pow_right (by norm_num) (by rcases hn with h | h | h <;> omega)
    omega
  rw [s2n_of_read eh offset n false s f1 hr] at hu
  simp only [Bool.false_eq_true, if_false, Except.ok.injEq] at hu
  rw [ofBits_small _ hsmall] at hu
  rw [s2n_of_read eh offset n true s f1 hr]
  simp only [if_true]
  rw [signExtend_eq n _ hn hraw, hu]
  refine ⟨rfl, ?_, ?_⟩
  · have h0 : (0 : Int) ≤ u := by rw [← hu]; exact Int.natCast_nonneg _
    have h1 : u < 2 ^ (8 * n) := by rw [← hu]; exact_mod_cast hraw
    rcases hn with rfl | rfl | rfl <;> norm_num at h1 ⊢ <;> split_ifs <;> omega
  · have h1 : u < 2 ^ (8 * n) := by rw [← hu]; exact_mod_cast hraw
    rcases hn with rfl | rfl | rfl <;> norm_num at h1 ⊢ <;> split_ifs <;> omega

/-- C8 at the byte 0xFF, which reads as -1, and the short 0x8000, which reads as -32768. -/
theorem s2n_signed_value_witness :
    ((s2n hdrFF 0 1 false).1 = .ok 255 ∧ (s2n hdrFF 0 1 true).1 = .ok (-1)) ∧
    ((s2n hdr8000 0 2 false).1 = .ok 32768 ∧ (s2n hdr8000 0 2 true).1 = .ok (-32768)) :=
  ⟨⟨by decide, (s2n_signed_value hdrFF 0 1 255 (by decide) (by decide)).1⟩,
    ⟨by decide, (s2n_signed_value hdr8000 0 2 32768 (by decide) (by decide)).1⟩⟩

/-- C10: decoding `b` (at most four bytes) under endian `I` gives the same integer as
decoding the reversed sequence under endian `M`, for unsigned and for signed reads. -/
theorem s2n_endian_symmetry (eh1 eh2 : exifHeader) (o1 o2 : Int) (b : List UInt8)
    (f1 f2 : File) (signed : Bool) (hlen : b.length ≤ 4)
    (hI : eh1.endian = 73) (hM : eh2.endian = 77)
    (h1 : (eh1.file.seekStart (wrap64 (eh1.offset + o1))).read b.length = (.ok b, f1))
    (h2 : (eh2.file.seekStart (wrap64 (eh2.offset + o2))).read b.length =
      (.ok b.reverse, f2)) :
    s2n_intel b = s2n_motorola b.reverse ∧
    (s2n eh1 o1 b.length signed).1 = (s2n eh2 o2 b.length signed).1 := by
  have hraw : s2n_intel b = s2n_motorola b.reverse := by
    rw [(s2n_intel_eq b (by omega)).1,
      (s2n_motorola_eq b.reverse (by rw [List.length_reverse]; omega)).1, beVal_reverse]
  refine ⟨hraw, ?_⟩
  rw [s2n_of_read eh1 o1 b.length signed b f1 h1,
    s2n_of_read eh2 o2 b.length signed b.reverse f2 h2]
  simp only [hI, hM, if_true, hraw]
  rw [if_neg (by decide : ¬ (77 : UInt8) = 73)]

/-- C10 at the short 0x1234 stored as 34 12 under `I` and as 12 34 under `M`. -/
theorem s2n_endian_symmetry_witness :
    (s2n hdrI 0 2 true).1 = .ok 0x1234 ∧
    s2n_intel [0x34, 0x12] = s2n_motorola ([0x34, 0x12] : List UInt8).reverse ∧
    (s2n hdrI 0 ([0x34, 0x12] : List UInt8).length true).1 =
      (s2n hdrM 0 ([0x34, 0x12] : List UInt8).length true).1 :=
  ⟨by decide,
    s2n_endian_symmetry hdrI hdrM 0 0 [0x34, 0x12] ⟨[0x34, 0x12], 2⟩ ⟨[0x12, 0x34], 2⟩ true
      (by decide) (by decide) (by decide) (by decide) (by decide)⟩

/-! ## Rationals: the recursion of `gcd` ends -/

theorem natAbs_tmod (a b : Int) : (Int.tmod a b).natAbs = a.natAbs % b.natAbs := by
  cases a <;> cases b <;> simp [Int.tmod, Int.natAbs_neg] <;> rfl

theorem gcdFuel_of_lt : ∀ (fuel : Nat) (a b : Int), b.natAbs < fuel →
    (gcdFuel fuel a b).isSome = true := by
  intro fuel
  induction fuel with
  | zero => intro a b h; omega
  | succ n ih =>
    intro a b h
    rw [gcdFuel]
    split
    · rfl
    · next hb =>
      apply ih
      rw [natAbs_tmod]
      have hpos : 0 < b.natAbs := Int.natAbs_pos.2 hb
      have := Nat.mod_lt a.natAbs hpos
      omega

theorem gcdFuel_isSome (a b : Int) : (gcdFuel (b.natAbs + 1) a b).isSome = true :=
  gcdFuel_of_lt _ a b (by omega)

/-! ## Evaluations at concrete files (C1, C2, C4) -/

/-- C1: the ASCII bound of `dumpIfd` is the source's `2^31`, which is 29 in Go.  The 13
bytes "Hello", NUL, "garbage" decode to the single value "Hello", but an ASCII entry of
count 29 whose bytes are readable decodes to the single value "" and not to its 28
letters. -/
theorem ascii_count_29_dropped :
    ((2 ^^^ 31 : Nat) = 29) ∧
    ProcessFile quoteAscii 10 tiffAscii13 "" true false =
      some (.returned (some [("Image ImageDescription",
        ⟨"\"Hello\"", 0x010E, 2, 26, 13, ["Hello"]⟩)]) none) ∧
    ((tiffAscii29.seekStart 26).read 29).1 =
      .ok ("A description of 28 letters.".data.map (fun c => c.toNat.toUInt8) ++ [0]) ∧
    ProcessFile quoteAscii 10 tiffAscii29 "" true false =
      some (.returned (some [("Image ImageDescription",
        ⟨"\"\"", 0x010E, 2, 26, 29, [""]⟩)]) none) := by
  refine ⟨by decide, by decide, by decide, by decide⟩

/-- C2: with `strict = true`, `dumpIfd` returns the unknown-type error for an entry of
field type 11, but `ProcessFile` drops that return value and returns the (empty) tag
map with a nil error. -/
theorem strict_error_dropped :
    (dumpIfd quoteAscii true (newExifHeader tiffBadType 77 0 false true) 8 "Image"
      (some exifTags) 0 "UNDEF").1 = some (.unknownType 11 0x010F) ∧
    ProcessFile quoteAscii 10 tiffBadType "" true true = some (.returned (some []) none) := by
  refine ⟨by decide, by decide⟩

/-- C4: the IFD at 44 is readable and `dumpIfd` with the Interoperability dictionary
would store its InteroperabilityIndex, but `ProcessFile` looks for the key
"EXIF SubIFD InteroperabilityOffset" while the entry is stored under
"EXIF InteroperabilityOffset": the IFD is not walked and the result has no key that
begins with "EXIF Interoperability ". -/
theorem interoperability_not_followed :
    (dumpIfd quoteAscii true (newExifHeader tiffInterop 77 0 false false) 44
      "EXIF Interoperability" (some interTags) 0 "UNDEF").2.tags =
        [("EXIF Interoperability InteroperabilityIndex", ⟨"\"R98\"", 1, 2, 54, 4, ["R98"]⟩)] ∧
    ProcessFile quoteAscii 10 tiffInterop "" true false =
      some (.returned (some
        [("EXIF InteroperabilityOffset", ⟨"44", 0xA005, 4, 36, 4, ["44"]⟩),
         ("Image ExifOffset", ⟨"26", 0x8769, 4, 18, 4, ["26"]⟩)]) none) := by
  refine ⟨by decide, by decide⟩

/-! ## What the decoder does to the header: reads move the file position only -/

theorem posOnly_refl (eh : exifHeader) : posOnly eh eh := ⟨eh.file.pos, rfl⟩

theorem posOnly_trans {a b c : exifHeader} (h1 : posOnly a b) (h2 : posOnly b c) :
    posOnly a c := by
  obtain ⟨p, rfl⟩ := h1
  obtain ⟨q, rfl⟩ := h2
  exact ⟨q, rfl⟩

theorem posOnly_tags {a b : exifHeader} (h : posOnly a b) : b.tags = a.tags := by
  obtain ⟨p, rfl⟩ := h; rfl

theorem seekStart_data (f : File) (off : Int) : (f.seekStart off).data = f.data := by
  unfold File.seekStart; split <;> rfl

theorem read_data (f : File) (n : Nat) : (f.read n).2.data = f.data := by
  unfold File.read; split
  · rfl
  · split <;> rfl

theorem posOnly_of_file (eh : exifHeader) (f1 : File) (h : f1.data = eh.file.data) :
    posOnly eh { eh with file := f1 } := by
  refine ⟨f1.pos, ?_⟩
  cases f1; simp only at h; subst h; rfl

theorem seek_read_posOnly (eh : exifHeader) (off : Int) (n : Nat) :
    posOnly eh { eh with file := ((eh.file.seekStart off).read n).2 } :=
  posOnly_of_file eh _ (by rw [read_data, seekStart_data])

theorem s2n_posOnly {eh eh1 : exifHeader} {o : Int} {n : Nat} {s : Bool}
    {r : Except GoError Int} (h : s2n eh o n s = (r, eh1)) : posOnly eh eh1 := by
  have key := seek_read_posOnly eh (wrap64 (eh.offset + o)) n
  unfold s2n at h
  dsimp only at h
  rcases hr : (eh.file.seekStart (wrap64 (eh.offset + o))).read n with ⟨rr, f1⟩
  rw [hr] at h key
  cases rr <;> (simp only [Prod.mk.injEq] at h; rw [← h.2]; exact key)

theorem valueOffset_posOnly {eh eh1 : exifHeader} {ifd relative count : Int} {typelen : Nat}
    {offset : Int} {r : Except GoError Int}
    (h : valueOffset eh ifd relative count typelen offset = (r, eh1)) : posOnly eh eh1 := by
  unfold valueOffset at h
  split at h
  · split at h
    · rcases hs : s2n eh offset 4 false with ⟨rr, e1⟩
      rw [hs] at h
      cases rr <;> (simp only [Prod.mk.injEq] at h; rw [← h.2]; exact s2n_posOnly hs)
    · exact s2n_posOnly h
  · simp only [Prod.mk.injEq] at h; rw [← h.2]; exact posOnly_refl _

theorem readValue_posOnly {eh eh1 : exifHeader} {ratios : Bool} {fieldtype : Int}
    {typelen : Nat} {signed : Bool} {offset : Int} {r : Except GoError String}
    (h : readValue eh ratios fieldtype typelen signed offset = (r, eh1)) :
    posOnly eh eh1 := by
  unfold readValue at h
  split at h
  · rcases hs : s2n eh offset 4 signed with ⟨rr, e1⟩
    rw [hs] at h
    cases rr with
    | error e => simp only [Prod.mk.injEq] at h; rw [← h.2]; exact s2n_posOnly hs
    | ok num =>
      simp only at h
      rcases hs2 : s2n e1 (wrap64 (offset + 4)) 4 signed with ⟨rr2, e2⟩
      rw [hs2] at h
      have h12 := posOnly_trans (s2n_posOnly hs) (s2n_posOnly hs2)
      cases rr2 <;> (simp only [Prod.mk.injEq] at h; rw [← h.2]; exact h12)
  · rcases hs : s2n eh offset typelen signed with ⟨rr, e1⟩
    rw [hs] at h
    cases rr <;> (simp only [Prod.mk.injEq] at h; rw [← h.2]; exact s2n_posOnly hs)

theorem readValuesLoop_posOnly (ratios : Bool) (fieldtype : Int) (typelen : Nat)
    (signed : Bool) :
    ∀ (count : Nat) (offset : Int) (values : List String) (eh eh1 : exifHeader)
      (r : Except GoError (List String)),
      readValuesLoop ratios fieldtype typelen signed count offset values eh = (r, eh1) →
      posOnly eh eh1 := by
  intro count
  induction count with
  | zero =>
    intro offset values eh eh1 r h
    simp only [readValuesLoop, Prod.mk.injEq] at h
    rw [← h.2]; exact posOnly_refl _
  | succ n ih =>
    intro offset values eh eh1 r h
    simp only [readValuesLoop] at h
    rcases hs : readValue eh ratios fieldtype typelen signed offset with ⟨rr, e1⟩
    rw [hs] at h
    cases rr with
    | error e => simp only [Prod.mk.injEq] at h; rw [← h.2]; exact readValue_posOnly hs
    | ok v => exact posOnly_trans (readValue_posOnly hs) (ih _ _ _ _ _ h)

theorem readValues_posOnly {eh eh1 : exifHeader} {tagname : String} {fieldtype count : Int}
    {typelen : Nat} {offset : Int} {r : Except GoError (List String)}
    (h : readValues eh tagname fieldtype count typelen offset = (r, eh1)) :
    posOnly eh eh1 := by
  unfold readValues at h
  split at h
  · split at h
    · have key := seek_read_posOnly eh (wrap64 (eh.offset + offset)) count.toNat
      dsimp only at h
      rcases hr : (eh.file.seekStart (wrap64 (eh.offset + offset))).read count.toNat
        with ⟨rr, f1⟩
      rw [hr] at h key
      cases rr <;> (simp only [Prod.mk.injEq] at h; rw [← h.2]; exact key)
    · simp only [Prod.mk.injEq] at h; rw [← h.2]; exact posOnly_refl _
  · simp only at h
    split at h
    · exact readValuesLoop_posOnly _ _ _ _ _ _ _ _ _ _ h
    · split at h
      · exact readValuesLoop_posOnly _ _ _ _ _ _ _ _ _ _ h
      · simp only [Prod.mk.injEq] at h; rw [← h.2]; exact posOnly_refl _

theorem stopCheck_snd (tagname stoptag : String) (eh : exifHeader) :
    (stopCheck tagname stoptag eh).2 = eh := by
  unfold stopCheck; split <;> rfl

theorem decodeEntry_effect (quote : String → String) (detailed : Bool) (ifd : Int)
    (ifdname : String) (dict : List (Int × exifTag)) (relative : Int) (entry tag : Int)
    (eh : exifHeader) (hign : (detailed || !ignoreTags.contains tag) = true) :
    posOnly eh (decodeEntry quote ifd ifdname dict relative entry tag eh).2 ∨
    storedOne detailed dict ifdname eh
      (decodeEntry quote ifd ifdname dict relative entry tag eh).2 := by
  unfold decodeEntry
  rcases h2 : s2n eh (wrap64 (entry + 2)) 2 false with ⟨r2, e2⟩
  have p2 := s2n_posOnly h2
  cases r2 with
  | error e => exact Or.inl p2
  | ok fieldtype =>
    dsimp only
    split
    · split <;> exact Or.inl p2
    · next hft =>
      rcases h3 : s2n e2 (wrap64 (entry + 4)) 4 false with ⟨r3, e3⟩
      have p3 := posOnly_trans p2 (s2n_posOnly h3)
      cases r3 with
      | error e => exact Or.inl p3
      | ok count =>
        dsimp only
        rcases h4 : valueOffset e3 ifd relative count
          (FIELD_TYPES.getD fieldtype.toNat ⟨0, "", ""⟩).Size (wrap64 (entry + 8))
          with ⟨r4, e4⟩
        have p4 := posOnly_trans p3 (valueOffset_posOnly h4)
        cases r4 with
        | error e => exact Or.inl p4
        | ok offset =>
          dsimp only
          rcases h5 : readValues e4 (tagName dict tag) fieldtype count
            (FIELD_TYPES.getD fieldtype.toNat ⟨0, "", ""⟩).Size offset with ⟨r5, e5⟩
          have p5 := posOnly_trans p4 (readValues_posOnly h5)
          cases r5 with
          | error e => exact Or.inl p5
          | ok values =>
            dsimp only
            rcases hd : dict.lookup tag with _ | te
            · exact Or.inl p5
            · dsimp only
              split
              · exact Or.inl p5
              · have hname : tagName dict tag = te.name := by
                  unfold tagName; rw [hd]
                rw [hname]
                refine Or.inr ⟨tag, te, _, e5, p5, hd, ?_, rfl, ?_, ?_, rfl⟩
                · cases detailed
                  · right; simpa using hign
                  · left; rfl
                · simp only [Bool.not_eq_true', Bool.not_eq_false, Bool.and_eq_true,
                    decide_eq_true_eq] at hft
                  exact hft.1
                · simp only [Bool.not_eq_true', Bool.not_eq_false, Bool.and_eq_true,
                    decide_eq_true_eq] at hft
                  have := hft.2
                  simpa [FIELD_TYPES] using this

theorem storedOne_of_posOnly {detailed : Bool} {dict : List (Int × exifTag)}
    {ifdname : String} {a b c : exifHeader} (h1 : posOnly a b)
    (h2 : storedOne detailed dict ifdname b c) : storedOne detailed dict ifdname a c := by
  obtain ⟨tag, te, t, a0, hp, rest⟩ := h2
  exact ⟨tag, te, t, a0, posOnly_trans h1 hp, rest⟩

theorem dumpEntry_effect (quote : String → String) (detailed : Bool) (ifd : Int)
    (ifdname : String) (dict : List (Int × exifTag)) (relative : Int) (stoptag : String)
    (i : Nat) (eh : exifHeader) :
    posOnly eh (dumpEntry quote detailed ifd ifdname dict relative stoptag i eh).2 ∨
    storedOne detailed dict ifdname eh
      (dumpEntry quote detailed ifd ifdname dict relative stoptag i eh).2 := by
  unfold dumpEntry
  dsimp only
  rcases h1 : s2n eh (wrap64 (ifd + 2 + 12 * (i : Int))) 2 false with ⟨r1, e1⟩
  have p1 := s2n_posOnly h1
  cases r1 with
  | error e => exact Or.inl p1
  | ok tag =>
    dsimp only
    split
    · next hign =>
      have hd := decodeEntry_effect quote detailed ifd ifdname dict relative
        (wrap64 (ifd + 2 + 12 * (i : Int))) tag e1 hign
      rcases hr : decodeEntry quote ifd ifdname dict relative
        (wrap64 (ifd + 2 + 12 * (i : Int))) tag e1 with ⟨c, e2⟩
      rw [hr] at hd
      have hd2 : posOnly eh e2 ∨ storedOne detailed dict ifdname eh e2 := by
        rcases hd with h | h
        · exact Or.inl (posOnly_trans p1 h)
        · exact Or.inr (storedOne_of_posOnly p1 h)
      cases c with
      | none => dsimp only; rw [stopCheck_snd]; exact hd2
      | some ctl => exact hd2
    · rw [stopCheck_snd]; exact Or.inl p1

theorem set_mem {m : TagMap} {k k1 : String} {t t1 : IfdTag}
    (h : (k1, t1) ∈ m.set k t) : (k1, t1) = (k, t) ∨ (k1, t1) ∈ m := by
  unfold TagMap.set at h
  rcases List.mem_cons.1 h with h | h
  · exact Or.inl h
  · exact Or.inr (List.mem_of_mem_filter h)

theorem dumpEntry_inv (P : String → IfdTag → Prop) (quote : String → String)
    (detailed : Bool) (ifd : Int) (ifdname : String) (dict : List (Int × exifTag))
    (relative : Int) (stoptag : String) (i : Nat) (eh : exifHeader)
    (hP : ∀ (te : exifTag) (t : IfdTag), dict.lookup t.tag = some te →
      (detailed = true ∨ ignoreTags.contains t.tag = false) →
      0 < t.Fieldtype → t.Fieldtype < 11 → P (ifdname ++ " " ++ te.name) t)
    (h0 : ∀ k t, (k, t) ∈ eh.tags → P k t) :
    ∀ k t, (k, t) ∈ (dumpEntry quote detailed ifd ifdname dict relative stoptag i eh).2.tags →
      P k t := by
  intro k t hk
  rcases dumpEntry_effect quote detailed ifd ifdname dict relative stoptag i eh with h | h
  · rw [posOnly_tags h] at hk; exact h0 k t hk
  · obtain ⟨tag, te, t1, a0, hp, hd, hign, htag, hf1, hf2, heq⟩ := h
    rw [heq] at hk
    simp only at hk
    rcases set_mem hk with h1 | h1
    · simp only [Prod.mk.injEq] at h1
      rw [h1.1, h1.2]
      subst htag
      exact hP te t1 hd hign hf1 hf2
    · rw [posOnly_tags hp] at h1; exact h0 k t h1

theorem dumpLoop_inv (P : String → IfdTag → Prop) (quote : String → String)
    (detailed : Bool) (ifd : Int) (ifdname : String) (dict : List (Int × exifTag))
    (relative : Int) (stoptag : String)
    (hP : ∀ (te : exifTag) (t : IfdTag), dict.lookup t.tag = some te →
      (detailed = true ∨ ignoreTags.contains t.tag = false) →
      0 < t.Fieldtype → t.Fieldtype < 11 → P (ifdname ++ " " ++ te.name) t) :
    ∀ (n i : Nat) (eh : exifHeader), (∀ k t, (k, t) ∈ eh.tags → P k t) →
      ∀ k t, (k, t) ∈ (dumpLoop quote detailed ifd ifdname dict relative stoptag n i eh).2.tags →
        P k t := by
  intro n
  induction n with
  | zero => intro i eh h0 k t hk; exact h0 k t hk
  | succ n ih =>
    intro i eh h0 k t hk
    have hstep := dumpEntry_inv P quote detailed ifd ifdname dict relative stoptag i eh hP h0
    simp only [dumpLoop] at hk
    rcases hd : dumpEntry quote detailed ifd ifdname dict relative stoptag i eh with ⟨ctl, e1⟩
    rw [hd] at hk hstep
    cases ctl with
    | next => exact ih (i + 1) e1 hstep k t hk
    | stop => exact hstep k t hk
    | fail e => exact hstep k t hk

theorem dumpIfd_inv (P : String → IfdTag → Prop) (quote : String → String)
    (detailed : Bool) (eh : exifHeader) (ifd : Int) (ifdname : String)
    (dict : List (Int × exifTag)) (relative : Int) (stoptag : String)
    (hP : ∀ (te : exifTag) (t : IfdTag), dict.lookup t.tag = some te →
      (detailed = true ∨ ignoreTags.contains t.tag = false) →
      0 < t.Fieldtype → t.Fieldtype < 11 → P (ifdname ++ " " ++ te.name) t)
    (h0 : ∀ k t, (k, t) ∈ eh.tags → P k t) :
    ∀ k t, (k, t) ∈ (dumpIfd quote detailed eh ifd ifdname (some dict) relative stoptag).2.tags →
      P k t := by
  intro k t hk
  unfold dumpIfd at hk
  dsimp only at hk
  rcases h1 : s2n eh ifd 2 false with ⟨r1, e1⟩
  rw [h1] at hk
  have p1 := s2n_posOnly h1
  cases r1 with
  | error e => rw [posOnly_tags p1] at hk; exact h0 k t hk
  | ok entries =>
    refine dumpLoop_inv P quote detailed ifd ifdname dict relative _ hP _ _ e1 ?_ k t hk
    intro k t hk; rw [posOnly_tags p1] at hk; exact h0 k t hk

theorem dumpIfd_storedTag (quote : String → String) (detailed : Bool) (eh : exifHeader)
    (ifd : Int) (ifdname : String) (dict : List (Int × exifTag)) (stoptag : String)
    (hw : walked ifdname dict) (h0 : ∀ k t, (k, t) ∈ eh.tags → storedTag detailed k t) :
    ∀ k t, (k, t) ∈ (dumpIfd quote detailed eh ifd ifdname (some dict) 0 stoptag).2.tags →
      storedTag detailed k t :=
  dumpIfd_inv (storedTag detailed) quote detailed eh ifd ifdname dict 0 stoptag
    (fun te _ hd hign hf1 hf2 => ⟨ifdname, dict, te, hw, hd, hign, hf1, hf2, rfl⟩) h0

theorem followOffset_storedTag (quote : String → String) (detailed : Bool)
    (stop_tag key ifdname : String) (dict : List (Int × exifTag)) (hdr hdr1 : exifHeader)
    (b : Bool) (hw : walked ifdname dict)
    (h : followOffset quote detailed stop_tag key ifdname dict hdr = some (b, hdr1))
    (h0 : ∀ k t, (k, t) ∈ hdr.tags → storedTag detailed k t) :
    ∀ k t, (k, t) ∈ hdr1.tags → storedTag detailed k t := by
  unfold followOffset at h
  split at h
  · simp only [Option.some.injEq, Prod.mk.injEq] at h
    rw [← h.2]; exact h0
  · split at h
    · simp at h
    · simp only [Option.some.injEq, Prod.mk.injEq] at h
      rw [← h.2]
      exact dumpIfd_storedTag quote detailed hdr _ ifdname dict stop_tag hw h0

theorem walked_listed (ctr : Nat) : walked (ifdName ctr) exifTags := by
  left
  refine ⟨?_, rfl⟩
  unfold ifdName
  split
  · left; rfl
  · split
    · right; left; rfl
    · right; right; exact ⟨ctr, rfl⟩

theorem exifStage_storedTag (quote : String → String) (detailed : Bool)
    (stop_tag ifdname : String) (hdr hdr1 : exifHeader)
    (h : exifStage quote detailed stop_tag ifdname hdr = some hdr1)
    (h0 : ∀ k t, (k, t) ∈ hdr.tags → storedTag detailed k t) :
    ∀ k t, (k, t) ∈ hdr1.tags → storedTag detailed k t := by
  unfold exifStage at h
  rcases hE : followOffset quote detailed stop_tag (ifdname ++ " ExifOffset") "EXIF" exifTags
    hdr with _ | ⟨b, hB1⟩
  · rw [hE] at h; simp at h
  · rw [hE] at h
    have hB := followOffset_storedTag quote detailed stop_tag _ "EXIF" exifTags hdr hB1 b
      (Or.inr (Or.inl ⟨rfl, rfl⟩)) hE h0
    cases b with
    | false => simp only [Option.some.injEq] at h; rw [← h]; exact hB
    | true =>
      dsimp only at h
      rcases hI : followOffset quote detailed stop_tag "EXIF SubIFD InteroperabilityOffset"
        "EXIF Interoperability" interTags hB1 with _ | ⟨b2, hI1⟩
      · rw [hI] at h; simp at h
      · rw [hI] at h
        simp only [Option.some.injEq] at h
        rw [← h]
        exact followOffset_storedTag quote detailed stop_tag _ "EXIF Interoperability"
          interTags hB1 hI1 b2 (Or.inr (Or.inr (Or.inl ⟨rfl, rfl⟩))) hI hB

theorem gpsStage_storedTag (quote : String → String) (detailed : Bool)
    (stop_tag ifdname : String) (hdr hdr1 : exifHeader)
    (h : gpsStage quote detailed stop_tag ifdname hdr = some hdr1)
    (h0 : ∀ k t, (k, t) ∈ hdr.tags → storedTag detailed k t) :
    ∀ k t, (k, t) ∈ hdr1.tags → storedTag detailed k t := by
  unfold gpsStage at h
  rcases hE : followOffset quote detailed stop_tag (ifdname ++ " GPSInfo") "GPS" gpsTags
    hdr with _ | ⟨b, hB1⟩
  · rw [hE] at h; simp at h
  · rw [hE] at h
    simp only [Option.some.injEq] at h
    rw [← h]
    exact followOffset_storedTag quote detailed stop_tag _ "GPS" gpsTags hdr hB1 b
      (Or.inr (Or.inr (Or.inr ⟨rfl, rfl⟩))) hE h0

theorem processIfd_storedTag (quote : String → String) (detailed : Bool) (stop_tag : String)
    (ctr : Nat) (i : Int) (hdr hdr1 : exifHeader)
    (h : processIfd quote detailed stop_tag ctr i hdr = some hdr1)
    (h0 : ∀ k t, (k, t) ∈ hdr.tags → storedTag detailed k t) :
    ∀ k t, (k, t) ∈ hdr1.tags → storedTag detailed k t := by
  unfold processIfd at h
  dsimp only at h
  have hA := dumpIfd_storedTag quote detailed hdr i _ exifTags stop_tag (walked_listed ctr) h0
  rcases hE : exifStage quote detailed stop_tag (ifdName ctr)
    (dumpIfd quote detailed hdr i (ifdName ctr) (some exifTags) 0 stop_tag).2 with _ | hB1
  · rw [hE] at h; simp at h
  · rw [hE] at h
    exact gpsStage_storedTag quote detailed stop_tag _ hB1 hdr1 h
      (exifStage_storedTag quote detailed stop_tag _ _ hB1 hE hA)

theorem processIfds_nil (quote : String → String) (detailed : Bool) (stop_tag : String)
    (ctr : Nat) (hdr : exifHeader) :
    processIfds quote detailed stop_tag [] ctr hdr = some hdr := rfl

theorem processIfds_cons (quote : String → String) (detailed : Bool) (stop_tag : String)
    (i : Int) (rest : List Int) (ctr : Nat) (hdr : exifHeader) :
    processIfds quote detailed stop_tag (i :: rest) ctr hdr =
      match processIfd quote detailed stop_tag ctr i hdr with
      | none => none
      | some hdr1 => processIfds quote detailed stop_tag rest (ctr + 1) hdr1 := rfl

theorem processIfds_storedTag (quote : String → String) (detailed : Bool) (stop_tag : String) :
    ∀ (l : List Int) (ctr : Nat) (hdr hdr1 : exifHeader),
      processIfds quote detailed stop_tag l ctr hdr = some hdr1 →
      (∀ k t, (k, t) ∈ hdr.tags → storedTag detailed k t) →
      ∀ k t, (k, t) ∈ hdr1.tags → storedTag detailed k t := by
  intro l
  induction l with
  | nil =>
    intro ctr hdr hdr1 h h0
    rw [processIfds_nil] at h
    cases h
    exact h0
  | cons i rest ih =>
    intro ctr hdr hdr1 h h0
    rw [processIfds_cons] at h
    rcases hp : processIfd quote detailed stop_tag ctr i hdr with _ | hA1
    · rw [hp] at h; simp at h
    · rw [hp] at h
      exact ih (ctr + 1) hA1 hdr1 h (processIfd_storedTag quote detailed stop_tag ctr i hdr hA1 hp h0)

theorem nextIfd_posOnly {eh eh1 : exifHeader} {ifd : Int} {r : Except GoError Int}
    (h : nextIfd eh ifd = (r, eh1)) : posOnly eh eh1 := by
  unfold nextIfd at h
  rcases hs : s2n eh ifd 2 false with ⟨rr, e1⟩
  rw [hs] at h
  cases rr with
  | error e => simp only [Prod.mk.injEq] at h; rw [← h.2]; exact s2n_posOnly hs
  | ok entries => exact posOnly_trans (s2n_posOnly hs) (s2n_posOnly h)

theorem listIfdsLoop_posOnly :
    ∀ (fuel : Nat) (i : Int) (a : List Int) (eh eh1 : exifHeader)
      (r : Except GoError (List Int)),
      listIfdsLoop fuel i a eh = some (r, eh1) → posOnly eh eh1 := by
  intro fuel
  induction fuel with
  | zero => intro i a eh eh1 r h; simp [listIfdsLoop] at h
  | succ n ih =>
    intro i a eh eh1 r h
    rw [listIfdsLoop] at h
    split at h
    · rcases hs : nextIfd eh i with ⟨rr, e1⟩
      rw [hs] at h
      cases rr with
      | error e =>
        simp only [Option.some.injEq, Prod.mk.injEq] at h
        rw [← h.2]; exact nextIfd_posOnly hs
      | ok i1 => exact posOnly_trans (nextIfd_posOnly hs) (ih _ _ _ _ _ h)
    · simp only [Option.some.injEq, Prod.mk.injEq] at h
      rw [← h.2]; exact posOnly_refl _

theorem listIfds_posOnly {fuel : Nat} {eh eh1 : exifHeader} {r : Except GoError (List Int)}
    (h : listIfds fuel eh = some (r, eh1)) : posOnly eh eh1 := by
  unfold listIfds firstIfd at h
  rcases hs : s2n eh 4 4 false with ⟨rr, e1⟩
  rw [hs] at h
  cases rr with
  | error e =>
    simp only [Option.some.injEq, Prod.mk.injEq] at h
    rw [← h.2]; exact s2n_posOnly hs
  | ok i => exact posOnly_trans (s2n_posOnly hs) (listIfdsLoop_posOnly _ _ _ _ _ _ h)

theorem readThumbnail_tags {hdr hdr1 : exifHeader} {j size : Int} {e : Option GoError}
    (h : readThumbnail hdr j size = some (e, hdr1)) : hdr1.tags = hdr.tags := by
  unfold readThumbnail at h
  dsimp only at h
  split at h
  · simp at h
  · rcases hr : (hdr.file.seekStart (wrap64 (hdr.offset + j))).read size.toNat with ⟨rr, f1⟩
    rw [hr] at h
    cases rr <;> (simp only [Option.some.injEq, Prod.mk.injEq] at h; rw [← h.2])

theorem jpegThumbnail_tags {hdr hdr1 : exifHeader} {e : Option GoError}
    (h : jpegThumbnail hdr = some (e, hdr1)) : hdr1.tags = hdr.tags := by
  unfold jpegThumbnail at h
  split at h
  · simp only [Option.some.injEq, Prod.mk.injEq] at h; rw [← h.2]
  · split at h
    · simp at h
    · split at h
      · simp at h
      · split at h
        · simp at h
        · exact readThumbnail_tags h

theorem makerNoteThumbnail_tags {hdr hdr1 : exifHeader} {e : Option GoError}
    (h : makerNoteThumbnail hdr = some (e, hdr1)) : hdr1.tags = hdr.tags := by
  unfold makerNoteThumbnail at h
  split at h
  · simp only [Option.some.injEq, Prod.mk.injEq] at h; rw [← h.2]
  · split at h
    · simp only [Option.some.injEq, Prod.mk.injEq] at h; rw [← h.2]
    · split at h
      · simp at h
      · exact readThumbnail_tags h

theorem finish_tags {hdr : exifHeader} {m : TagMap} {err : Option GoError}
    (h : finish hdr = .returned (some m) err) : m = hdr.tags ∧ err = none := by
  unfold finish at h
  rcases hj : jpegThumbnail hdr with _ | ⟨e1, h1⟩
  · rw [hj] at h; simp at h
  · rw [hj] at h
    cases e1 with
    | some e => simp at h
    | none =>
      dsimp only at h
      rcases hm : makerNoteThumbnail h1 with _ | ⟨e2, h2⟩
      · rw [hm] at h; simp at h
      · rw [hm] at h
        cases e2 with
        | some e => simp at h
        | none =>
          simp only [Outcome.returned.injEq, Option.some.injEq] at h
          rw [← h.1, makerNoteThumbnail_tags hm, jpegThumbnail_tags hj]
          exact ⟨rfl, h.2.symm⟩

theorem ProcessFile_storedTag (quote : String → String) (fuel : Nat) (f : File)
    (stop_tag : String) (details strict : Bool) (m : TagMap) (err : Option GoError)
    (h : ProcessFile quote fuel f stop_tag details strict = some (.returned (some m) err)) :
    ∀ k t, (k, t) ∈ m → storedTag details k t := by
  unfold ProcessFile at h
  dsimp only at h
  rcases hl : locate fuel f with _ | env
  · rw [hl] at h; simp at h
  · rw [hl] at h
    cases env with
    | panicked => simp at h
    | failed e => simp at h
    | noExif => simp at h
    | found f1 endian offset fakeexif =>
      dsimp only at h
      rcases hi : listIfds fuel (newExifHeader f1 endian offset fakeexif strict)
        with _ | ⟨r, hdr⟩
      · rw [hi] at h; simp at h
      · rw [hi] at h
        cases r with
        | error e => simp at h
        | ok ifdlist =>
          dsimp only at h
          have htags : hdr.tags = [] := posOnly_tags (listIfds_posOnly hi)
          rcases hp : processIfds quote details
            (if stop_tag.length = 0 then "UNDEF" else stop_tag) ifdlist 0 hdr with _ | hdr1
          · rw [hp] at h; simp at h
          · rw [hp] at h
            simp only [Option.some.injEq] at h
            have hm := (finish_tags h).1
            rw [hm]
            refine processIfds_storedTag quote details _ ifdlist 0 hdr hdr1 hp ?_
            intro k t hk
            rw [htags] at hk
            simp at hk


/-! ## The ignore list (C7) -/

theorem lookup_mem {β : Type} (k : Int) (v : β) :
    ∀ (l : List (Int × β)), l.lookup k = some v → (k, v) ∈ l := by
  intro l
  induction l with
  | nil => intro h; simp at h
  | cons p rest ih =>
    intro h
    obtain ⟨k1, v1⟩ := p
    rw [List.lookup_cons] at h
    by_cases hk : k = k1
    · subst hk
      simp only [beq_self_eq_true, Option.some.injEq] at h
      subst h
      exact List.mem_cons_self _ _
    · have : (k == k1) = false := by simpa using hk
      rw [this] at h
      exact List.mem_cons_of_mem _ (ih h)

theorem first_word_eq (c : Char) : ∀ (x₁ x₂ z₁ z₂ : List Char), c ∉ x₁ → c ∉ x₂ →
    x₁ ++ c :: z₁ = x₂ ++ c :: z₂ → x₁ = x₂ := by
  intro x₁
  induction x₁ with
  | nil =>
    intro x₂ z₁ z₂ _ h2 h
    cases x₂ with
    | nil => rfl
    | cons a x =>
      simp only [List.nil_append, List.cons_append, List.cons.injEq] at h
      exact absurd (h.1 ▸ List.mem_cons_self _ _) h2
  | cons a x ih =>
    intro x₂ z₁ z₂ h1 h2 h
    cases x₂ with
    | nil =>
      simp only [List.nil_append, List.cons_append, List.cons.injEq] at h
      exact absurd (h.1 ▸ List.mem_cons_self _ _) h1
    | cons b y =>
      simp only [List.cons_append, List.cons.injEq] at h
      rw [h.1, ih y z₁ z₂ (fun hc => h1 (List.mem_cons_of_mem _ hc))
        (fun hc => h2 (List.mem_cons_of_mem _ hc)) h.2]

theorem last_word_eq (a b n u : List Char) (hn : ' ' ∉ n) (hu : ' ' ∉ u)
    (h : a ++ ' ' :: n = b ++ ' ' :: u) : n = u := by
  have h1 := congrArg List.reverse h
  simp only [List.reverse_append, List.reverse_cons, List.append_assoc, List.singleton_append]
    at h1
  have h2 := first_word_eq ' ' n.reverse u.reverse a.reverse b.reverse
    (by simpa using hn) (by simpa using hu) h1
  simpa using h2

theorem key_name_eq (a b name u : String) (hn : ' ' ∉ name.data) (hu : ' ' ∉ u.data)
    (h : a ++ " " ++ name = b ++ " " ++ u) : name = u := by
  have h1 := congrArg String.data h
  simp only [String.data_append] at h1
  have h2 : a.data ++ ' ' :: name.data = b.data ++ ' ' :: u.data := by
    simpa [List.append_assoc] using h1
  exact String.ext (last_word_eq _ _ _ _ hn hu h2)

theorem exifTags_facts : dictFacts exifTags := by
  unfold dictFacts; decide

theorem interTags_facts : dictFacts interTags := by
  unfold dictFacts; decide

theorem gpsTags_facts : dictFacts gpsTags := by
  unfold dictFacts; decide

theorem walked_facts {ifdname : String} {dict : List (Int × exifTag)}
    (h : walked ifdname dict) : dictFacts dict := by
  rcases h with ⟨_, h⟩ | ⟨_, h⟩ | ⟨_, h⟩ | ⟨_, h⟩ <;> rw [h]
  · exact exifTags_facts
  · exact exifTags_facts
  · exact interTags_facts
  · exact gpsTags_facts

/-- C7: with `details = false` no binding of the map returned by `ProcessFile` is a
UserComment or a MakerNote: its tag id is neither 0x9286 nor 0x927C and its key is not
of the form `<ifd_name> UserComment` or `<ifd_name> MakerNote`. -/
theorem ignored_tags_absent (quote : String → String) (fuel : Nat) (f : File)
    (stop_tag : String) (strict : Bool) (m : TagMap) (err : Option GoError)
    (h : ProcessFile quote fuel f stop_tag false strict = some (.returned (some m) err))
    (k : String) (t : IfdTag) (hk : (k, t) ∈ m) :
    t.tag ≠ 0x9286 ∧ t.tag ≠ 0x927C ∧
    ∀ ifd_name : String, k ≠ ifd_name ++ " UserComment" ∧ k ≠ ifd_name ++ " MakerNote" := by
  obtain ⟨ifdname, dict, te, hw, hd, hign, _, _, hkey⟩ :=
    ProcessFile_storedTag quote fuel f stop_tag false strict m err h k t hk
  have hign' : ignoreTags.contains t.tag = false := by
    rcases hign with h1 | h1
    · exact absurd h1 (by decide)
    · exact h1
  have h1 : t.tag ≠ 0x9286 := by
    intro hc; rw [hc] at hign'; exact absurd hign' (by decide)
  have h2 : t.tag ≠ 0x927C := by
    intro hc; rw [hc] at hign'; exact absurd hign' (by decide)
  have hf := walked_facts hw (t.tag, te) (lookup_mem _ _ _ hd)
  refine ⟨h1, h2, fun n => ⟨?_, ?_⟩⟩
  · intro hc
    rw [hkey] at hc
    have : te.name = "UserComment" :=
      key_name_eq ifdname n te.name "UserComment" hf.1 (by decide)
        (by rw [hc, String.append_assoc]; rfl)
    exact h1 (hf.2.1 this)
  · intro hc
    rw [hkey] at hc
    have : te.name = "MakerNote" :=
      key_name_eq ifdname n te.name "MakerNote" hf.1 (by decide)
        (by rw [hc, String.append_assoc]; rfl)
    exact h2 (hf.2.2 this)

/-- C7 at a file whose Image IFD holds an Orientation, a MakerNote and a UserComment:
with `details = false` only the Orientation is returned. -/
theorem ignored_tags_absent_witness :
    ProcessFile quoteAscii 10 tiffIgnored "" false false =
      some (.returned (some [("Image Orientation", ⟨"Rotated 90 CW", 0x0112, 3, 18, 2, ["6"]⟩)])
        none) ∧
    ((0x0112 : Int) ≠ 0x9286 ∧ (0x0112 : Int) ≠ 0x927C ∧
      ∀ ifd_name : String, "Image Orientation" ≠ ifd_name ++ " UserComment" ∧
        "Image Orientation" ≠ ifd_name ++ " MakerNote") :=
  ⟨by decide,
    ignored_tags_absent quoteAscii 10 tiffIgnored "" false
      [("Image Orientation", ⟨"Rotated 90 CW", 0x0112, 3, 18, 2, ["6"]⟩)] none (by decide)
      "Image Orientation" ⟨"Rotated 90 CW", 0x0112, 3, 18, 2, ["6"]⟩
      (List.mem_cons_self _ _)⟩

/-! ## The entry loop: what a turn does, by its outcome -/

theorem sameFile_refl (a : exifHeader) : sameFile a a := ⟨rfl, rfl, rfl, rfl, rfl⟩

theorem sameFile_trans {a b c : exifHeader} (h1 : sameFile a b) (h2 : sameFile b c) :
    sameFile a c :=
  ⟨h1.1.trans h2.1, h1.2.1.trans h2.2.1, h1.2.2.1.trans h2.2.2.1,
    h1.2.2.2.1.trans h2.2.2.2.1, h1.2.2.2.2.trans h2.2.2.2.2⟩

theorem sameFile_symm {a b : exifHeader} (h : sameFile a b) : sameFile b a :=
  ⟨h.1.symm, h.2.1.symm, h.2.2.1.symm, h.2.2.2.1.symm, h.2.2.2.2.symm⟩

theorem posOnly_sameFile {a b : exifHeader} (h : posOnly a b) : sameFile a b := by
  obtain ⟨p, rfl⟩ := h
  exact ⟨rfl, rfl, rfl, rfl, rfl⟩

theorem sameFile_set (a : exifHeader) (m : TagMap) : sameFile a { a with tags := m } :=
  ⟨rfl, rfl, rfl, rfl, rfl⟩

theorem storedOne_sameFile {detailed : Bool} {dict : List (Int × exifTag)} {ifdname : String}
    {a b : exifHeader} (h : storedOne detailed dict ifdname a b) : sameFile a b := by
  obtain ⟨tag, te, t, a0, hp, _, _, _, _, _, rfl⟩ := h
  exact sameFile_trans (posOnly_sameFile hp) (sameFile_set _ _)

theorem dumpEntry_sameFile (quote : String → String) (detailed : Bool) (ifd : Int)
    (ifdname : String) (dict : List (Int × exifTag)) (relative : Int) (stoptag : String)
    (i : Nat) (eh : exifHeader) :
    sameFile eh (dumpEntry quote detailed ifd ifdname dict relative stoptag i eh).2 := by
  rcases dumpEntry_effect quote detailed ifd ifdname dict relative stoptag i eh with h | h
  · exact posOnly_sameFile h
  · exact storedOne_sameFile h

theorem seekStart_nonneg (f : File) (t : Int) (h : 0 ≤ t) :
    f.seekStart t = ⟨f.data, t.toNat⟩ := by
  unfold File.seekStart
  rw [if_neg (by omega)]

theorem s2n_fst_congr {a b : exifHeader} (h : sameFile a b) (off : Int) (n : Nat) (s : Bool)
    (hpos : 0 ≤ wrap64 (a.offset + off)) : (s2n a off n s).1 = (s2n b off n s).1 := by
  obtain ⟨hd, he, ho, _, _⟩ := h
  unfold s2n
  dsimp only
  rw [← ho, seekStart_nonneg _ _ hpos, seekStart_nonneg _ _ hpos, ← hd, ← he]
  rcases (File.read ⟨a.file.data, (wrap64 (a.offset + off)).toNat⟩ n) with ⟨r, f1⟩
  cases r <;> rfl

theorem wrap64_id (x : Int) (h1 : -2 ^ 63 ≤ x) (h2 : x < 2 ^ 63) : wrap64 x = x := by
  unfold wrap64
  rw [Int.emod_eq_of_lt (by omega) (by omega)]
  omega

theorem entry_seek_ok {eh : exifHeader} {ifd : Int} (h : ifdInRange eh ifd) (k : Nat)
    (hk : k < 65536) (d : Int) (hd0 : 0 ≤ d) (hd : d ≤ 8) :
    0 ≤ wrap64 (eh.offset + wrap64 (wrap64 (ifd + 2 + 12 * (k : Int)) + d)) := by
  obtain ⟨h1, h2, h3⟩ := h
  rw [wrap64_id (ifd + 2 + 12 * (k : Int)) (by omega) (by omega),
    wrap64_id (ifd + 2 + 12 * (k : Int) + d) (by omega) (by omega),
    wrap64_id _ (by omega) (by omega)]
  omega

theorem entry_seek_ok0 {eh : exifHeader} {ifd : Int} (h : ifdInRange eh ifd) (k : Nat)
    (hk : k < 65536) :
    0 ≤ wrap64 (eh.offset + wrap64 (ifd + 2 + 12 * (k : Int))) := by
  obtain ⟨h1, h2, h3⟩ := h
  rw [wrap64_id (ifd + 2 + 12 * (k : Int)) (by omega) (by omega),
    wrap64_id _ (by omega) (by omega)]
  omega

theorem ifdInRange_congr {a b : exifHeader} (h : sameFile a b) {ifd : Int}
    (hr : ifdInRange a ifd) : ifdInRange b ifd := by
  unfold ifdInRange at hr ⊢
  rw [← h.2.2.1]; exact hr

theorem entryTag_congr {a b : exifHeader} (h : sameFile a b) {ifd : Int}
    (hr : ifdInRange a ifd) (k : Nat) (hk : k < 65536) :
    entryTag a ifd k = entryTag b ifd k :=
  s2n_fst_congr h _ _ _ (entry_seek_ok0 hr k hk)

theorem entryType_congr {a b : exifHeader} (h : sameFile a b) {ifd : Int}
    (hr : ifdInRange a ifd) (k : Nat) (hk : k < 65536) :
    entryType a ifd k = entryType b ifd k :=
  s2n_fst_congr h _ _ _ (entry_seek_ok hr k hk 2 (by norm_num) (by norm_num))

theorem decodeEntry_spec (quote : String → String) (ifd : Int) (ifdname : String)
    (dict : List (Int × exifTag)) (relative : Int) (entry tag : Int) (eh : exifHeader) :
    (decodeEntry quote ifd ifdname dict relative entry tag eh).1 ≠ some .stop ∧
    ((decodeEntry quote ifd ifdname dict relative entry tag eh).1 = some .next →
      ∃ ft, (s2n eh (wrap64 (entry + 2)) 2 false).1 = .ok ft ∧ ¬ (0 < ft ∧ ft < 11)) ∧
    ((decodeEntry quote ifd ifdname dict relative entry tag eh).1 = none →
      ∀ te, dict.lookup tag = some te → ∃ t a0, posOnly eh a0 ∧ t.tag = tag ∧
        (decodeEntry quote ifd ifdname dict relative entry tag eh).2 =
          { a0 with tags := a0.tags.set (ifdname ++ " " ++ te.name) t }) ∧
    (((decodeEntry quote ifd ifdname dict relative entry tag eh).1 ≠ none ∨
        dict.lookup tag = none) →
      posOnly eh (decodeEntry quote ifd ifdname dict relative entry tag eh).2) := by
  unfold decodeEntry
  rcases h2 : s2n eh (wrap64 (entry + 2)) 2 false with ⟨r2, e2⟩
  have p2 := s2n_posOnly h2
  cases r2 with
  | error e => exact ⟨by simp, by simp, by simp, fun _ => p2⟩
  | ok fieldtype =>
    dsimp only
    split
    · next hft =>
      have hbad : ¬ (0 < fieldtype ∧ fieldtype < 11) := by
        have h' : fieldtype ≤ 0 ∨ 11 ≤ fieldtype := by simpa [FIELD_TYPES] using hft
        omega
      split
      · exact ⟨by simp, fun _ => ⟨fieldtype, rfl, hbad⟩, by simp, fun _ => p2⟩
      · exact ⟨by simp, by simp, by simp, fun _ => p2⟩
    · next hft =>
      rcases h3 : s2n e2 (wrap64 (entry + 4)) 4 false with ⟨r3, e3⟩
      have p3 := posOnly_trans p2 (s2n_posOnly h3)
      cases r3 with
      | error e => exact ⟨by simp, by simp, by simp, fun _ => p3⟩
      | ok count =>
        dsimp only
        rcases h4 : valueOffset e3 ifd relative count
          (FIELD_TYPES.getD fieldtype.toNat ⟨0, "", ""⟩).Size (wrap64 (entry + 8))
          with ⟨r4, e4⟩
        have p4 := posOnly_trans p3 (valueOffset_posOnly h4)
        cases r4 with
        | error e => exact ⟨by simp, by simp, by simp, fun _ => p4⟩
        | ok offset =>
          dsimp only
          rcases h5 : readValues e4 (tagName dict tag) fieldtype count
            (FIELD_TYPES.getD fieldtype.toNat ⟨0, "", ""⟩).Size offset with ⟨r5, e5⟩
          have p5 := posOnly_trans p4 (readValues_posOnly h5)
          cases r5 with
          | error e => exact ⟨by simp, by simp, by simp, fun _ => p5⟩
          | ok values =>
            dsimp only
            rcases hd : dict.lookup tag with _ | te
            · exact ⟨by simp, by simp, by simp, fun _ => p5⟩
            · dsimp only
              split
              · exact ⟨by simp, by simp, by simp, fun _ => p5⟩
              · have hname : tagName dict tag = te.name := by
                  unfold tagName; rw [hd]
                rw [hname]
                refine ⟨by simp, by simp, ?_, by simp⟩
                intro _ te1 hte1
                simp only [Option.some.injEq] at hte1
                subst hte1
                exact ⟨_, e5, p5, rfl, rfl⟩

theorem get_set_self (m : TagMap) (k : String) (v : IfdTag) : (m.set k v).get k = some v := by
  simp [TagMap.set, TagMap.get, List.lookup_cons]

theorem get_filter_ne (k k1 : String) (h : k1 ≠ k) :
    ∀ m : TagMap, List.lookup k1 (m.filter (fun p => p.1 != k)) = List.lookup k1 m := by
  intro m
  induction m with
  | nil => rfl
  | cons p rest ih =>
    obtain ⟨a, b⟩ := p
    by_cases ha : a = k
    · subst ha
      have h1 : (k1 == a) = false := by simpa using h
      simp only [List.filter_cons, bne_self_eq_false, Bool.false_eq_true, if_false,
        List.lookup_cons, h1, ih]
    · have h2 : (a != k) = true := by simpa using ha
      simp only [List.filter_cons, h2, if_true, List.lookup_cons, ih]

theorem get_set_ne (m : TagMap) (k k1 : String) (v : IfdTag) (h : k1 ≠ k) :
    (m.set k v).get k1 = m.get k1 := by
  have h1 : (k1 == k) = false := by simpa using h
  simp only [TagMap.set, TagMap.get, List.lookup_cons, h1]
  exact get_filter_ne k k1 h m

theorem dumpEntry_fail (quote : String → String) (detailed : Bool) (ifd : Int)
    (ifdname : String) (dict : List (Int × exifTag)) (relative : Int) (stoptag : String)
    (i : Nat) (eh0 : exifHeader) (e : GoError)
    (h1 : (s2n eh0 (wrap64 (ifd + 2 + 12 * (i : Int))) 2 false).1 = .error e) :
    (dumpEntry quote detailed ifd ifdname dict relative stoptag i eh0).1 = .fail e ∧
    posOnly eh0 (dumpEntry quote detailed ifd ifdname dict relative stoptag i eh0).2 := by
  unfold dumpEntry
  dsimp only
  rcases hs : s2n eh0 (wrap64 (ifd + 2 + 12 * (i : Int))) 2 false with ⟨r, e1⟩
  rw [hs] at h1
  simp only at h1
  subst h1
  exact ⟨rfl, s2n_posOnly hs⟩

theorem dumpEntry_cases (quote : String → String) (detailed : Bool) (ifd : Int)
    (ifdname : String) (dict : List (Int × exifTag)) (relative : Int) (stoptag : String)
    (i : Nat) (eh0 e1 : exifHeader) (tag : Int)
    (h1 : s2n eh0 (wrap64 (ifd + 2 + 12 * (i : Int))) 2 false = (.ok tag, e1)) :
    ((dumpEntry quote detailed ifd ifdname dict relative stoptag i eh0).1 = .stop →
      tagName dict tag = stoptag) ∧
    ((dumpEntry quote detailed ifd ifdname dict relative stoptag i eh0).1 = .next →
      tagName dict tag ≠ stoptag ∨
      ((detailed || !ignoreTags.contains tag) = true ∧
        ∃ ft, (s2n e1 (wrap64 (wrap64 (ifd + 2 + 12 * (i : Int)) + 2)) 2 false).1 = .ok ft ∧
          ¬ (0 < ft ∧ ft < 11))) ∧
    ((∀ e, (dumpEntry quote detailed ifd ifdname dict relative stoptag i eh0).1 ≠ .fail e) →
      (detailed || !ignoreTags.contains tag) = true →
      (∃ ft, (s2n e1 (wrap64 (wrap64 (ifd + 2 + 12 * (i : Int)) + 2)) 2 false).1 = .ok ft ∧
          0 < ft ∧ ft < 11) →
      ∀ te, dict.lookup tag = some te →
        ∃ t, (dumpEntry quote detailed ifd ifdname dict relative stoptag i eh0).2.tags.get
          (ifdname ++ " " ++ te.name) = some t ∧ t.tag = tag) ∧
    ((dumpEntry quote detailed ifd ifdname dict relative stoptag i eh0).2.tags = eh0.tags ∨
      ∃ te t, dict.lookup tag = some te ∧ t.tag = tag ∧
        (dumpEntry quote detailed ifd ifdname dict relative stoptag i eh0).2.tags =
          eh0.tags.set (ifdname ++ " " ++ te.name) t) := by
  have p1 := s2n_posOnly h1
  unfold dumpEntry
  dsimp only
  rw [h1]
  dsimp only
  split
  · next hign =>
    obtain ⟨hA, hB, hC, hD⟩ := decodeEntry_spec quote ifd ifdname dict relative
      (wrap64 (ifd + 2 + 12 * (i : Int))) tag e1
    rcases hr : decodeEntry quote ifd ifdname dict relative
      (wrap64 (ifd + 2 + 12 * (i : Int))) tag e1 with ⟨c, e2⟩
    rw [hr] at hA hB hC hD
    simp only at hA hB hC hD
    cases c with
    | some ctl =>
      dsimp only
      have hp : posOnly eh0 e2 := posOnly_trans p1 (hD (Or.inl (by simp)))
      refine ⟨?_, ?_, ?_, Or.inl (posOnly_tags hp)⟩
      · intro hc; subst hc; exact absurd rfl hA
      · intro hc; subst hc; exact Or.inr ⟨hign, hB rfl⟩
      · intro hnf _ hft te hte
        cases ctl with
        | next =>
          obtain ⟨ft, hft1, hft2⟩ := hB rfl
          obtain ⟨ft', hft3, hft4⟩ := hft
          rw [hft1] at hft3
          simp only [Except.ok.injEq] at hft3
          subst hft3
          exact absurd hft4 hft2
        | stop => exact absurd rfl hA
        | fail e => exact absurd rfl (hnf e)
    | none =>
      dsimp only
      unfold stopCheck
      refine ⟨?_, ?_, ?_, ?_⟩
      · intro hc
        by_contra hne
        rw [if_neg hne] at hc
        simp at hc
      · intro hc
        left
        intro heq
        rw [if_pos heq] at hc
        simp at hc
      · intro _ _ _ te hte
        obtain ⟨t, a0, hp, htag, heq⟩ := hC rfl te hte
        refine ⟨t, ?_, htag⟩
        have : (if tagName dict tag = stoptag then (LoopCtl.stop, e2)
            else (LoopCtl.next, e2)).2 = e2 := by split <;> rfl
        rw [this, heq]
        exact get_set_self _ _ _
      · have h2 : (if tagName dict tag = stoptag then (LoopCtl.stop, e2)
            else (LoopCtl.next, e2)).2 = e2 := by split <;> rfl
        rw [h2]
        rcases hd : dict.lookup tag with _ | te
        · left
          exact posOnly_tags (posOnly_trans p1 (hD (Or.inr hd)))
        · right
          obtain ⟨t, a0, hp, htag, heq⟩ := hC rfl te hd
          refine ⟨te, t, rfl, htag, ?_⟩
          rw [heq]
          simp only
          rw [posOnly_tags hp, posOnly_tags p1]
  · next hign =>
    unfold stopCheck
    refine ⟨?_, ?_, ?_, ?_⟩
    · intro hc
      by_contra hne
      rw [if_neg hne] at hc
      simp at hc
    · intro hc
      left
      intro heq
      rw [if_pos heq] at hc
      simp at hc
    · intro _ h2; exact absurd h2 hign
    · left
      have h2 : (if tagName dict tag = stoptag then (LoopCtl.stop, e1)
          else (LoopCtl.next, e1)).2 = e1 := by split <;> rfl
      rw [h2]
      exact posOnly_tags p1

theorem dumpEntry_at (quote : String → String) (detailed : Bool) (ifd : Int)
    (ifdname : String) (dict : List (Int × exifTag)) (relative : Int) (stoptag : String)
    (i : Nat) (eh eh0 : exifHeader) (tag : Int) (hs : sameFile eh eh0)
    (hr : ifdInRange eh ifd) (hi : i < 65536) (ht : entryTag eh ifd i = .ok tag) :
    ((dumpEntry quote detailed ifd ifdname dict relative stoptag i eh0).1 = .stop →
      tagName dict tag = stoptag) ∧
    ((dumpEntry quote detailed ifd ifdname dict relative stoptag i eh0).1 = .next →
      tagName dict tag ≠ stoptag ∨
      ((detailed || !ignoreTags.contains tag) = true ∧
        ∃ ft, entryType eh ifd i = .ok ft ∧ ¬ (0 < ft ∧ ft < 11))) ∧
    ((∀ e, (dumpEntry quote detailed ifd ifdname dict relative stoptag i eh0).1 ≠ .fail e) →
      (detailed || !ignoreTags.contains tag) = true →
      (∃ ft, entryType eh ifd i = .ok ft ∧ 0 < ft ∧ ft < 11) →
      ∀ te, dict.lookup tag = some te →
        ∃ t, (dumpEntry quote detailed ifd ifdname dict relative stoptag i eh0).2.tags.get
          (ifdname ++ " " ++ te.name) = some t ∧ t.tag = tag) ∧
    ((dumpEntry quote detailed ifd ifdname dict relative stoptag i eh0).2.tags = eh0.tags ∨
      ∃ te t, dict.lookup tag = some te ∧ t.tag = tag ∧
        (dumpEntry quote detailed ifd ifdname dict relative stoptag i eh0).2.tags =
          eh0.tags.set (ifdname ++ " " ++ te.name) t) := by
  have ht0 : (s2n eh0 (wrap64 (ifd + 2 + 12 * (i : Int))) 2 false).1 = .ok tag := by
    have := entryTag_congr hs hr i hi
    unfold entryTag at this ht
    rw [← this]; exact ht
  rcases h1 : s2n eh0 (wrap64 (ifd + 2 + 12 * (i : Int))) 2 false with ⟨r, e1⟩
  rw [h1] at ht0
  simp only at ht0
  subst ht0
  have hs1 : sameFile eh e1 := sameFile_trans hs (posOnly_sameFile (s2n_posOnly h1))
  have hty : entryType eh ifd i =
      (s2n e1 (wrap64 (wrap64 (ifd + 2 + 12 * (i : Int)) + 2)) 2 false).1 :=
    entryType_congr hs1 hr i hi
  rw [hty]
  exact dumpEntry_cases quote detailed ifd ifdname dict relative stoptag i eh0 e1 tag h1

theorem dumpEntry_fail_at (quote : String → String) (detailed : Bool) (ifd : Int)
    (ifdname : String) (dict : List (Int × exifTag)) (relative : Int) (stoptag : String)
    (i : Nat) (eh eh0 : exifHeader) (e : GoError) (hs : sameFile eh eh0)
    (hr : ifdInRange eh ifd) (hi : i < 65536) (ht : entryTag eh ifd i = .error e) :
    (dumpEntry quote detailed ifd ifdname dict relative stoptag i eh0).1 = .fail e ∧
    posOnly eh0 (dumpEntry quote detailed ifd ifdname dict relative stoptag i eh0).2 := by
  apply dumpEntry_fail
  have := entryTag_congr hs hr i hi
  unfold entryTag at this ht
  rw [← this]; exact ht

/-- Truncation: when entry `i + m` is the first from `i` on whose name is the stop tag,
and that entry is skipped by the ignore list or carries a known field type, the loop
over `n > m` entries does what the loop over `m + 1` entries does. -/
theorem dumpLoop_trunc (quote : String → String) (detailed : Bool) (ifd : Int)
    (ifdname : String) (dict : List (Int × exifTag)) (relative : Int) (stoptag : String)
    (eh : exifHeader) (hr : ifdInRange eh ifd) :
    ∀ (m i n : Nat) (eh0 : exifHeader), sameFile eh eh0 → i + m < 65536 → m < n →
      (∀ k, i ≤ k → k < i + m → ∀ tag, entryTag eh ifd k = .ok tag → tagName dict tag ≠ stoptag) →
      (∀ tag, entryTag eh ifd (i + m) = .ok tag → tagName dict tag = stoptag ∧
        ((detailed || !ignoreTags.contains tag) = false ∨
          ∃ ft, entryType eh ifd (i + m) = .ok ft ∧ 0 < ft ∧ ft < 11)) →
      dumpLoop quote detailed ifd ifdname dict relative stoptag n i eh0 =
        dumpLoop quote detailed ifd ifdname dict relative stoptag (m + 1) i eh0 := by
  intro m
  induction m with
  | zero =>
    intro i n eh0 hs hi hn _ hj
    obtain ⟨n', rfl⟩ : ∃ n', n = n' + 1 := ⟨n - 1, by omega⟩
    simp only [dumpLoop]
    rcases hd : dumpEntry quote detailed ifd ifdname dict relative stoptag i eh0 with ⟨ctl, e1⟩
    cases ctl with
    | stop => rfl
    | fail e => rfl
    | next =>
      exfalso
      rcases hte : entryTag eh ifd i with e | tag
      · have := (dumpEntry_fail_at quote detailed ifd ifdname dict relative stoptag i eh eh0 e
          hs hr (by omega) hte).1
        rw [hd] at this; simp at this
      · obtain ⟨_, hB, _, _⟩ := dumpEntry_at quote detailed ifd ifdname dict relative stoptag
          i eh eh0 tag hs hr (by omega) hte
        rw [hd] at hB
        obtain ⟨hname, hok⟩ := hj tag (by simpa using hte)
        rcases hB rfl with h | ⟨hign, ft, hft, hbad⟩
        · exact h hname
        · rcases hok with h | ⟨ft', hft', hgood⟩
          · rw [hign] at h; simp at h
          · simp only [Nat.add_zero] at hft'
            rw [hft] at hft'
            simp only [Except.ok.injEq] at hft'
            subst hft'
            exact hbad hgood
  | succ m ih =>
    intro i n eh0 hs hi hn hbefore hj
    obtain ⟨n', rfl⟩ : ∃ n', n = n' + 1 := ⟨n - 1, by omega⟩
    rw [dumpLoop, dumpLoop]
    have hsf := dumpEntry_sameFile quote detailed ifd ifdname dict relative stoptag i eh0
    rcases hd : dumpEntry quote detailed ifd ifdname dict relative stoptag i eh0 with ⟨ctl, e1⟩
    rw [hd] at hsf
    cases ctl with
    | stop => rfl
    | fail e => rfl
    | next =>
      dsimp only
      refine ih (i + 1) n' e1 (sameFile_trans hs hsf) (by omega) (by omega) ?_ ?_
      · intro k hk1 hk2 tag htag
        exact hbefore k (by omega) (by omega) tag htag
      · intro tag htag
        rw [show i + 1 + m = i + (m + 1) by omega] at htag ⊢
        exact hj tag htag

theorem key_cancel (ifdname a b : String) (h : ifdname ++ " " ++ a = ifdname ++ " " ++ b) :
    a = b := by
  have h1 := congrArg String.data h
  simp only [String.data_append, List.append_assoc] at h1
  exact String.ext (List.append_cancel_left (List.append_cancel_left h1))

theorem tagName_of_lookup {dict : List (Int × exifTag)} {tag : Int} {te : exifTag}
    (h : dict.lookup tag = some te) : tagName dict tag = te.name := by
  unfold tagName; rw [h]

theorem dumpEntry_keeps (quote : String → String) (detailed : Bool) (ifd : Int)
    (ifdname : String) (dict : List (Int × exifTag)) (relative : Int) (stoptag : String)
    (nm : String) (i : Nat) (eh0 : exifHeader)
    (h : holdsNamed dict eh0.tags (ifdname ++ " " ++ nm) nm) :
    holdsNamed dict (dumpEntry quote detailed ifd ifdname dict relative stoptag i eh0).2.tags
      (ifdname ++ " " ++ nm) nm := by
  rcases dumpEntry_effect quote detailed ifd ifdname dict relative stoptag i eh0 with hp | hst
  · rw [posOnly_tags hp]; exact h
  · obtain ⟨tag, te, t, a0, hp, hd, _, htag, _, _, heq⟩ := hst
    rw [heq]
    simp only
    by_cases hk : ifdname ++ " " ++ nm = ifdname ++ " " ++ te.name
    · have hnm : nm = te.name := key_cancel _ _ _ hk
      unfold holdsNamed
      rw [hk, get_set_self]
      refine ⟨t, rfl, ?_⟩
      rw [htag, tagName_of_lookup hd, hnm]
    · unfold holdsNamed
      rw [get_set_ne _ _ _ _ hk, posOnly_tags hp]
      exact h

theorem dumpLoop_keeps (quote : String → String) (detailed : Bool) (ifd : Int)
    (ifdname : String) (dict : List (Int × exifTag)) (relative : Int) (stoptag : String)
    (nm : String) :
    ∀ (n i : Nat) (eh0 : exifHeader), holdsNamed dict eh0.tags (ifdname ++ " " ++ nm) nm →
      holdsNamed dict (dumpLoop quote detailed ifd ifdname dict relative stoptag n i eh0).2.tags
        (ifdname ++ " " ++ nm) nm := by
  intro n
  induction n with
  | zero => intro i eh0 h; exact h
  | succ n ih =>
    intro i eh0 h
    have hstep := dumpEntry_keeps quote detailed ifd ifdname dict relative stoptag nm i eh0 h
    rw [dumpLoop]
    rcases hd : dumpEntry quote detailed ifd ifdname dict relative stoptag i eh0 with ⟨ctl, e1⟩
    rw [hd] at hstep
    cases ctl with
    | next => exact ih (i + 1) e1 hstep
    | stop => exact hstep
    | fail e => exact hstep

/-- Reach and store: when no entry from `i` up to `i + m` is named as the stop tag and the
loop ends without an error, entry `i + m` (known, not ignored, of a valid type) is in the
map under its key. -/
theorem dumpLoop_stores (quote : String → String) (detailed : Bool) (ifd : Int)
    (ifdname : String) (dict : List (Int × exifTag)) (relative : Int) (stoptag : String)
    (eh : exifHeader) (hr : ifdInRange eh ifd) (tag : Int) (te : exifTag)
    (hd : dict.lookup tag = some te)
    (hign : (detailed || !ignoreTags.contains tag) = true) :
    ∀ (m i n : Nat) (eh0 : exifHeader), sameFile eh eh0 → i + m < 65536 → m < n →
      (∀ k, i ≤ k → k < i + m → ∀ tag1, entryTag eh ifd k = .ok tag1 →
        tagName dict tag1 ≠ stoptag) →
      entryTag eh ifd (i + m) = .ok tag →
      (∃ ft, entryType eh ifd (i + m) = .ok ft ∧ 0 < ft ∧ ft < 11) →
      (dumpLoop quote detailed ifd ifdname dict relative stoptag n i eh0).1 = none →
      holdsNamed dict (dumpLoop quote detailed ifd ifdname dict relative stoptag n i eh0).2.tags
        (ifdname ++ " " ++ te.name) te.name := by
  intro m
  induction m with
  | zero =>
    intro i n eh0 hs hi hn _ htag hft hok
    obtain ⟨n', rfl⟩ : ∃ n', n = n' + 1 := ⟨n - 1, by omega⟩
    simp only [Nat.add_zero] at htag hft
    obtain ⟨_, _, hC, _⟩ := dumpEntry_at quote detailed ifd ifdname dict relative stoptag
      i eh eh0 tag hs hr (by omega) htag
    rw [dumpLoop] at hok ⊢
    rcases hde : dumpEntry quote detailed ifd ifdname dict relative stoptag i eh0 with ⟨ctl, e1⟩
    rw [hde] at hok hC
    have hstored : holdsNamed dict e1.tags (ifdname ++ " " ++ te.name) te.name := by
      have hnf : ∀ e, ctl ≠ LoopCtl.fail e := by
        intro e hc; subst hc; simp at hok
      obtain ⟨t, ht1, ht2⟩ := hC hnf hign hft te hd
      exact ⟨t, ht1, by rw [ht2, tagName_of_lookup hd]⟩
    cases ctl with
    | next =>
      exact dumpLoop_keeps quote detailed ifd ifdname dict relative stoptag te.name
        n' (i + 1) e1 hstored
    | stop => exact hstored
    | fail e => simp at hok
  | succ m ih =>
    intro i n eh0 hs hi hn hbefore htag hft hok
    obtain ⟨n', rfl⟩ : ∃ n', n = n' + 1 := ⟨n - 1, by omega⟩
    rw [dumpLoop] at hok ⊢
    have hsf := dumpEntry_sameFile quote detailed ifd ifdname dict relative stoptag i eh0
    rcases hde : dumpEntry quote detailed ifd ifdname dict relative stoptag i eh0 with ⟨ctl, e1⟩
    rw [hde] at hok hsf
    cases ctl with
    | fail e => simp at hok
    | stop =>
      exfalso
      rcases hte : entryTag eh ifd i with e | tag1
      · have := (dumpEntry_fail_at quote detailed ifd ifdname dict relative stoptag i eh eh0 e
          hs hr (by omega) hte).1
        rw [hde] at this; simp at this
      · obtain ⟨hA, _, _, _⟩ := dumpEntry_at quote detailed ifd ifdname dict relative stoptag
          i eh eh0 tag1 hs hr (by omega) hte
        rw [hde] at hA
        exact hbefore i (le_refl _) (by omega) tag1 hte (hA rfl)
    | next =>
      dsimp only at hok ⊢
      refine ih (i + 1) n' e1 (sameFile_trans hs hsf) (by omega) (by omega) ?_ ?_ ?_ hok
      · intro k hk1 hk2 tag1 htag1
        exact hbefore k (by omega) (by omega) tag1 htag1
      · rw [show i + 1 + m = i + (m + 1) by omega]; exact htag
      · rw [show i + 1 + m = i + (m + 1) by omega]; exact hft

/-- Absence: when no entry from `i` on is named `nm`, a key `ifdname nm` that the map
lacks before the loop is lacking after it. -/
theorem dumpLoop_absent (quote : String → String) (detailed : Bool) (ifd : Int)
    (ifdname : String) (dict : List (Int × exifTag)) (relative : Int) (stoptag : String)
    (eh : exifHeader) (hr : ifdInRange eh ifd) (nm : String) :
    ∀ (n i : Nat) (eh0 : exifHeader), sameFile eh eh0 → i + n ≤ 65536 →
      (∀ k, i ≤ k → k < i + n → ∀ tag, entryTag eh ifd k = .ok tag → tagName dict tag ≠ nm) →
      eh0.tags.get (ifdname ++ " " ++ nm) = none →
      (dumpLoop quote detailed ifd ifdname dict relative stoptag n i eh0).2.tags.get
        (ifdname ++ " " ++ nm) = none := by
  intro n
  induction n with
  | zero => intro i eh0 _ _ _ h; exact h
  | succ n ih =>
    intro i eh0 hs hi hnames h0
    rw [dumpLoop]
    have hsf := dumpEntry_sameFile quote detailed ifd ifdname dict relative stoptag i eh0
    have hstep : (dumpEntry quote detailed ifd ifdname dict relative stoptag i eh0).2.tags.get
        (ifdname ++ " " ++ nm) = none := by
      rcases hte : entryTag eh ifd i with e | tag
      · have hp := (dumpEntry_fail_at quote detailed ifd ifdname dict relative stoptag i eh
          eh0 e hs hr (by omega) hte).2
        rw [posOnly_tags hp]; exact h0
      · obtain ⟨_, _, _, hD⟩ := dumpEntry_at quote detailed ifd ifdname dict relative stoptag
          i eh eh0 tag hs hr (by omega) hte
        rcases hD with h1 | ⟨te, t, hd, _, h1⟩
        · rw [h1]; exact h0
        · rw [h1, get_set_ne]
          · exact h0
          · intro hc
            have := key_cancel _ _ _ hc
            exact hnames i (le_refl _) (by omega) tag hte (by rw [tagName_of_lookup hd, this])
    rcases hde : dumpEntry quote detailed ifd ifdname dict relative stoptag i eh0 with ⟨ctl, e1⟩
    rw [hde] at hstep hsf
    cases ctl with
    | next =>
      refine ih (i + 1) e1 (sameFile_trans hs hsf) (by omega) ?_ hstep
      intro k hk1 hk2 tag htag
      exact hnames k (by omega) (by omega) tag htag
    | stop => exact hstep
    | fail e => exact hstep


theorem s2n_unsigned_bound {eh : exifHeader} {offset : Int} {n : Nat} {v : Int}
    (hn : n ≤ 4) (h : (s2n eh offset n false).1 = .ok v) : 0 ≤ v ∧ v < 2 ^ (8 * n) := by
  obtain ⟨s, f1, hr⟩ := s2n_ok_read h
  have hlen := read_length hr
  have hraw := raw_lt eh s (by omega)
  rw [hlen, show (256 : Nat) = 2 ^ 8 by norm_num, ← pow_mul] at hraw
  have h32 : (2 : Nat) ^ (8 * n) ≤ 2 ^ 32 := Nat.pow_le_pow_right (by norm_num) (by omega)
  rw [s2n_of_read eh offset n false s f1 hr] at h
  simp only [Bool.false_eq_true, if_false, Except.ok.injEq] at h
  rw [ofBits_small _ (by omega)] at h
  rw [← h]
  exact ⟨Int.natCast_nonneg _, by exact_mod_cast hraw⟩

/-- Reach and store, for the last turn: after `m + 1` turns without an error, none of the
first `m` at an entry named as the stop tag, entry `i + m` is in the map with its own id. -/
theorem dumpLoop_stores_last (quote : String → String) (detailed : Bool) (ifd : Int)
    (ifdname : String) (dict : List (Int × exifTag)) (relative : Int) (stoptag : String)
    (eh : exifHeader) (hr : ifdInRange eh ifd) (tag : Int) (te : exifTag)
    (hd : dict.lookup tag = some te)
    (hign : (detailed || !ignoreTags.contains tag) = true) :
    ∀ (m i : Nat) (eh0 : exifHeader), sameFile eh eh0 → i + m < 65536 →
      (∀ k, i ≤ k → k < i + m → ∀ tag1, entryTag eh ifd k = .ok tag1 →
        tagName dict tag1 ≠ stoptag) →
      entryTag eh ifd (i + m) = .ok tag →
      (∃ ft, entryType eh ifd (i + m) = .ok ft ∧ 0 < ft ∧ ft < 11) →
      (dumpLoop quote detailed ifd ifdname dict relative stoptag (m + 1) i eh0).1 = none →
      ∃ t, (dumpLoop quote detailed ifd ifdname dict relative stoptag (m + 1) i eh0).2.tags.get
        (ifdname ++ " " ++ te.name) = some t ∧ t.tag = tag := by
  intro m
  induction m with
  | zero =>
    intro i eh0 hs hi _ htag hft hok
    simp only [Nat.add_zero] at htag hft
    obtain ⟨_, _, hC, _⟩ := dumpEntry_at quote detailed ifd ifdname dict relative stoptag
      i eh eh0 tag hs hr (by omega) htag
    rw [dumpLoop] at hok ⊢
    rcases hde : dumpEntry quote detailed ifd ifdname dict relative stoptag i eh0 with ⟨ctl, e1⟩
    rw [hde] at hok hC
    have hnf : ∀ e, ctl ≠ LoopCtl.fail e := by
      intro e hc; subst hc; simp at hok
    have hstored := hC hnf hign hft te hd
    cases ctl with
    | next => exact hstored
    | stop => exact hstored
    | fail e => simp at hok
  | succ m ih =>
    intro i eh0 hs hi hbefore htag hft hok
    rw [dumpLoop] at hok ⊢
    have hsf := dumpEntry_sameFile quote detailed ifd ifdname dict relative stoptag i eh0
    rcases hde : dumpEntry quote detailed ifd ifdname dict relative stoptag i eh0 with ⟨ctl, e1⟩
    rw [hde] at hok hsf
    cases ctl with
    | fail e => simp at hok
    | stop =>
      exfalso
      rcases hte : entryTag eh ifd i with e | tag1
      · have := (dumpEntry_fail_at quote detailed ifd ifdname dict relative stoptag i eh eh0 e
          hs hr (by omega) hte).1
        rw [hde] at this; simp at this
      · obtain ⟨hA, _, _, _⟩ := dumpEntry_at quote detailed ifd ifdname dict relative stoptag
          i eh eh0 tag1 hs hr (by omega) hte
        rw [hde] at hA
        exact hbefore i (le_refl _) (by omega) tag1 hte (hA rfl)
    | next =>
      dsimp only at hok ⊢
      refine ih (i + 1) e1 (sameFile_trans hs hsf) (by omega) ?_ ?_ ?_ hok
      · intro k hk1 hk2 tag1 htag1
        exact hbefore k (by omega) (by omega) tag1 htag1
      · rw [show i + 1 + m = i + (m + 1) by omega]; exact htag
      · rw [show i + 1 + m = i + (m + 1) by omega]; exact hft

theorem dumpIfd_eq_loop (quote : String → String) (detailed : Bool) (eh eh1 : exifHeader)
    (ifd : Int) (ifdname : String) (dict : List (Int × exifTag)) (relative : Int)
    (S : String) (n : Int) (hS : S.length ≠ 0) (hn : s2n eh ifd 2 false = (.ok n, eh1)) :
    dumpIfd quote detailed eh ifd ifdname (some dict) relative S =
      dumpLoop quote detailed ifd ifdname dict relative S n.toNat 0 eh1 := by
  unfold dumpIfd
  dsimp only
  rw [hn, if_neg hS]
  rfl

/-- C5 (amended): for an IFD whose entries lie at reachable file positions and a
non-empty stop tag `S`, if entry `j` is the first entry whose resolved name is `S` and
the entries `0..j` carry field types in `[1, 10]`, then `dumpIfd` does exactly what the
entry loop does on the entries `0..j` (no later entry is decoded or contributes a key);
and when it returns no error, entry `j` is stored under `ifdname S` if it is in the
dictionary and not skipped by the ignore list. -/
theorem stop_tag_truncates (quote : String → String) (detailed : Bool) (eh : exifHeader)
    (ifd : Int) (ifdname : String) (dict : List (Int × exifTag)) (relative : Int)
    (S : String) (n : Int) (j : Nat) (hS : S.length ≠ 0) (hr : ifdInRange eh ifd)
    (hn : (s2n eh ifd 2 false).1 = .ok n) (hj : (j : Int) < n)
    (hfirst : ∀ k, k ≤ j → ∃ tag, entryTag eh ifd k = .ok tag ∧ (tagName dict tag = S ↔ k = j))
    (htypes : ∀ k, k ≤ j → ∃ ft, entryType eh ifd k = .ok ft ∧ 1 ≤ ft ∧ ft ≤ 10) :
    dumpIfd quote detailed eh ifd ifdname (some dict) relative S =
      dumpLoop quote detailed ifd ifdname dict relative S (j + 1) 0 (s2n eh ifd 2 false).2 ∧
    ((dumpIfd quote detailed eh ifd ifdname (some dict) relative S).1 = none →
      ∀ tag te, entryTag eh ifd j = .ok tag → dict.lookup tag = some te →
        (detailed || !ignoreTags.contains tag) = true →
        ∃ t, (dumpIfd quote detailed eh ifd ifdname (some dict) relative S).2.tags.get
          (ifdname ++ " " ++ S) = some t ∧ t.tag = tag) := by
  rcases hs : s2n eh ifd 2 false with ⟨r, eh1⟩
  rw [hs] at hn
  simp only at hn
  subst hn
  have hbound := s2n_unsigned_bound (by norm_num) (show (s2n eh ifd 2 false).1 = .ok n by rw [hs])
  have hj1 : j < n.toNat := by omega
  have hj2 : j < 65536 := by
    have : n < 65536 := by simpa using hbound.2
    omega
  have hsf : sameFile eh eh1 := posOnly_sameFile (s2n_posOnly hs)
  have hbefore : ∀ k, 0 ≤ k → k < 0 + j → ∀ tag1, entryTag eh ifd k = .ok tag1 →
      tagName dict tag1 ≠ S := by
    intro k _ hk tag1 htag1 hname
    obtain ⟨tag, ht, hiff⟩ := hfirst k (by omega)
    rw [htag1] at ht
    simp only [Except.ok.injEq] at ht
    subst ht
    have := hiff.1 hname
    omega
  have htyj : ∃ ft, entryType eh ifd (0 + j) = .ok ft ∧ 0 < ft ∧ ft < 11 := by
    obtain ⟨ft, h1, h2, h3⟩ := htypes j (le_refl _)
    exact ⟨ft, by simpa using h1, by omega, by omega⟩
  have hatj : ∀ tag, entryTag eh ifd (0 + j) = .ok tag → tagName dict tag = S ∧
      ((detailed || !ignoreTags.contains tag) = false ∨
        ∃ ft, entryType eh ifd (0 + j) = .ok ft ∧ 0 < ft ∧ ft < 11) := by
    intro tag htag
    obtain ⟨tag', ht, hiff⟩ := hfirst j (le_refl _)
    simp only [Nat.zero_add] at htag
    rw [htag] at ht
    simp only [Except.ok.injEq] at ht
    subst ht
    exact ⟨hiff.2 rfl, Or.inr htyj⟩
  have htrunc := dumpLoop_trunc quote detailed ifd ifdname dict relative S eh hr j 0 n.toNat eh1
    hsf (by omega) hj1 hbefore hatj
  have heq := dumpIfd_eq_loop quote detailed eh eh1 ifd ifdname dict relative S n hS hs
  rw [heq, htrunc]
  refine ⟨rfl, ?_⟩
  intro hok tag te htag hd hign
  have hname : te.name = S := by
    obtain ⟨hnm, _⟩ := hatj tag (by simpa using htag)
    rw [← hnm, tagName_of_lookup hd]
  have hst := dumpLoop_stores_last quote detailed ifd ifdname dict relative S eh hr tag te hd
    hign j 0 eh1 hsf (by omega) hbefore (by simpa using htag) htyj hok
  rw [hname] at hst
  exact hst

/-- C5, counterexample: in `tiffIgnored`, read with `detailed = false` and the stop tag
"MakerNote", entry 1 is the first entry named MakerNote, the entries 0 and 1 carry the
field types 3 and 7, and 0x927C is in the dictionary; `dumpIfd` stops at entry 1 without
an error but does not store it. -/
theorem stop_tag_ignored_not_stored :
    (entryTag hdrIgnored 8 0 = .ok 0x0112 ∧ tagName exifTags 0x0112 ≠ "MakerNote" ∧
      entryTag hdrIgnored 8 1 = .ok 0x927C ∧ tagName exifTags 0x927C = "MakerNote" ∧
      entryType hdrIgnored 8 0 = .ok 3 ∧ entryType hdrIgnored 8 1 = .ok 7 ∧
      (exifTags.lookup 0x927C).isSome = true) ∧
    (dumpIfd quoteAscii false hdrIgnored 8 "Image" (some exifTags) 0 "MakerNote").1 = none ∧
    (dumpIfd quoteAscii false hdrIgnored 8 "Image" (some exifTags) 0 "MakerNote").2.tags =
      [("Image Orientation", ⟨"Rotated 90 CW", 0x0112, 3, 18, 2, ["6"]⟩)] ∧
    (dumpIfd quoteAscii false hdrIgnored 8 "Image" (some exifTags) 0
      "MakerNote").2.tags.get "Image MakerNote" = none := by
  refine ⟨⟨by decide, by decide, by decide, by decide, by decide, by decide, by decide⟩,
    by decide, by decide, by decide⟩

/-- C5 (amended) at `tiffIgnored` with `detailed = true` and the stop tag "MakerNote":
the dump is the dump of the entries 0 and 1, and the MakerNote is stored. -/
theorem stop_tag_truncates_witness :
    (s2n hdrIgnored 8 2 false).1 = .ok 3 ∧
    (dumpIfd quoteAscii true hdrIgnored 8 "Image" (some exifTags) 0 "MakerNote").2.tags.get
      "Image MakerNote" = some ⟨"1, 2, 3, 4", 0x927C, 7, 30, 4, ["1", "2", "3", "4"]⟩ ∧
    (dumpIfd quoteAscii true hdrIgnored 8 "Image" (some exifTags) 0 "MakerNote" =
      dumpLoop quoteAscii true 8 "Image" exifTags 0 "MakerNote" (1 + 1) 0
        (s2n hdrIgnored 8 2 false).2 ∧
    ((dumpIfd quoteAscii true hdrIgnored 8 "Image" (some exifTags) 0 "MakerNote").1 = none →
      ∀ tag te, entryTag hdrIgnored 8 1 = .ok tag → exifTags.lookup tag = some te →
        (true || !ignoreTags.contains tag) = true →
        ∃ t, (dumpIfd quoteAscii true hdrIgnored 8 "Image" (some exifTags) 0
          "MakerNote").2.tags.get ("Image" ++ " " ++ "MakerNote") = some t ∧ t.tag = tag)) :=
  ⟨by decide, by decide,
    stop_tag_truncates quoteAscii true hdrIgnored 8 "Image" exifTags 0 "MakerNote" 3 1
      (by decide) (by unfold ifdInRange; decide) (by decide) (by decide)
      (by
        intro k hk
        interval_cases k
        · exact ⟨0x0112, by decide, by decide⟩
        · exact ⟨0x927C, by decide, by decide⟩)
      (by
        intro k hk
        interval_cases k
        · exact ⟨3, by decide, by decide, by decide⟩
        · exact ⟨7, by decide, by decide, by decide⟩)⟩

/-! ## Sub-IFDs (C3, C6) -/

theorem dumpIfd_loop (quote : String → String) (detailed : Bool) (eh eh1 : exifHeader)
    (ifd : Int) (ifdname : String) (dict : List (Int × exifTag)) (relative : Int)
    (S : String) (n : Int) (hn : s2n eh ifd 2 false = (.ok n, eh1)) :
    dumpIfd quote detailed eh ifd ifdname (some dict) relative S =
      dumpLoop quote detailed ifd ifdname dict relative
        (if S.length = 0 then "UNDEF" else S) n.toNat 0 eh1 := by
  unfold dumpIfd
  dsimp only
  rw [hn]
  rfl

theorem get_some_mem {k : String} {t : IfdTag} :
    ∀ (m : TagMap), m.get k = some t → (k, t) ∈ m := by
  intro m
  induction m with
  | nil => intro h; simp [TagMap.get] at h
  | cons p rest ih =>
    intro h
    obtain ⟨k1, v1⟩ := p
    unfold TagMap.get at h ih
    rw [List.lookup_cons] at h
    by_cases hk : k = k1
    · subst hk
      simp only [beq_self_eq_true, Option.some.injEq] at h
      subst h
      exact List.mem_cons_self _ _
    · have : (k == k1) = false := by simpa using hk
      rw [this] at h
      exact List.mem_cons_of_mem _ (ih h)

theorem get_none_of_not_mem {k : String} (m : TagMap) (h : ∀ t, (k, t) ∉ m) :
    m.get k = none := by
  rcases hg : m.get k with _ | t
  · rfl
  · exact absurd (get_some_mem m hg) (h t)

/-- Provenance: a binding that the loop adds comes from one of its entries. -/
theorem dumpLoop_from (quote : String → String) (detailed : Bool) (ifd : Int)
    (ifdname : String) (dict : List (Int × exifTag)) (relative : Int) (stoptag : String)
    (eh : exifHeader) (hr : ifdInRange eh ifd) :
    ∀ (n i : Nat) (eh0 : exifHeader), sameFile eh eh0 → i + n ≤ 65536 →
      ∀ k t, (k, t) ∈ (dumpLoop quote detailed ifd ifdname dict relative stoptag n i eh0).2.tags →
        (k, t) ∈ eh0.tags ∨
        ∃ m, i ≤ m ∧ m < i + n ∧ ∃ tag te, entryTag eh ifd m = .ok tag ∧
          dict.lookup tag = some te ∧ k = ifdname ++ " " ++ te.name ∧ t.tag = tag := by
  intro n
  induction n with
  | zero => intro i eh0 _ _ k t h; exact Or.inl h
  | succ n ih =>
    intro i eh0 hs hi k t hk
    rw [dumpLoop] at hk
    have hsf := dumpEntry_sameFile quote detailed ifd ifdname dict relative stoptag i eh0
    have hstep : ∀ k t,
        (k, t) ∈ (dumpEntry quote detailed ifd ifdname dict relative stoptag i eh0).2.tags →
        (k, t) ∈ eh0.tags ∨
        ∃ tag te, entryTag eh ifd i = .ok tag ∧
          dict.lookup tag = some te ∧ k = ifdname ++ " " ++ te.name ∧ t.tag = tag := by
      intro k t hk
      rcases hte : entryTag eh ifd i with e | tag
      · have hp := (dumpEntry_fail_at quote detailed ifd ifdname dict relative stoptag i eh
          eh0 e hs hr (by omega) hte).2
        rw [posOnly_tags hp] at hk; exact Or.inl hk
      · obtain ⟨_, _, _, hD⟩ := dumpEntry_at quote detailed ifd ifdname dict relative stoptag
          i eh eh0 tag hs hr (by omega) hte
        rcases hD with h1 | ⟨te, t1, hd, ht1, h1⟩
        · rw [h1] at hk; exact Or.inl hk
        · rw [h1] at hk
          rcases set_mem hk with h2 | h2
          · simp only [Prod.mk.injEq] at h2
            right
            exact ⟨tag, te, rfl, hd, h2.1, by rw [h2.2]; exact ht1⟩
          · exact Or.inl h2
    rcases hde : dumpEntry quote detailed ifd ifdname dict relative stoptag i eh0 with ⟨ctl, e1⟩
    rw [hde] at hk hstep hsf
    have hfin : (k, t) ∈ e1.tags → (k, t) ∈ eh0.tags ∨
        ∃ m, i ≤ m ∧ m < i + (n + 1) ∧ ∃ tag te, entryTag eh ifd m = .ok tag ∧
          dict.lookup tag = some te ∧ k = ifdname ++ " " ++ te.name ∧ t.tag = tag := by
      intro h
      rcases hstep k t h with h1 | ⟨tag, te, h1⟩
      · exact Or.inl h1
      · exact Or.inr ⟨i, le_refl _, by omega, tag, te, h1⟩
    cases ctl with
    | next =>
      rcases ih (i + 1) e1 (sameFile_trans hs hsf) (by omega) k t hk with h1 | ⟨m, hm1, hm2, h1⟩
      · exact hfin h1
      · exact Or.inr ⟨m, by omega, by omega, h1⟩
    | stop => exact hfin hk
    | fail e => exact hfin hk

theorem subIfd_decoded (quote : String → String) (detailed : Bool) (stop : String)
    (ifdname : String) (dict : List (Int × exifTag)) (h1 : exifHeader) (v : Int) :
    subIfdDecoded quote detailed stop ifdname dict h1 v
      (dumpIfd quote detailed h1 v ifdname (some dict) 0 stop).2 := by
  refine ⟨rfl, ?_, ?_⟩
  · exact dumpIfd_inv
      (fun k t => (k, t) ∈ h1.tags ∨ ∃ te, dict.lookup t.tag = some te ∧
        k = ifdname ++ " " ++ te.name)
      quote detailed h1 v ifdname dict 0 stop
      (fun te t hd _ _ _ => Or.inr ⟨te, hd, rfl⟩) (fun k t h => Or.inl h)
  · intro n m tag te hr hn hm hok hbefore htag hd hign hft
    rcases hs : s2n h1 v 2 false with ⟨r, eh1⟩
    rw [hs] at hn
    simp only at hn
    subst hn
    have hbound := s2n_unsigned_bound (by norm_num)
      (show (s2n h1 v 2 false).1 = .ok n by rw [hs])
    have hn2 : n < 65536 := by simpa using hbound.2
    have hsf : sameFile h1 eh1 := posOnly_sameFile (s2n_posOnly hs)
    rw [dumpIfd_loop quote detailed h1 eh1 v ifdname dict 0 stop n hs] at hok ⊢
    obtain ⟨ft, hft1, hft2, hft3⟩ := hft
    exact dumpLoop_stores quote detailed v ifdname dict 0 _ h1 hr tag te hd hign m 0 n.toNat
      eh1 hsf (by omega) (by omega)
      (fun k _ hk tag1 htag1 => hbefore k (by omega) tag1 htag1)
      (by simpa using htag) ⟨ft, by simpa using hft1, by omega, by omega⟩ hok

theorem followOffset_walk (quote : String → String) (detailed : Bool)
    (stop_tag key ifdname : String) (dict : List (Int × exifTag)) (hdr : exifHeader)
    (t : IfdTag) (v0 : String) (rest : List String)
    (hk : hdr.tags.get key = some t) (hv : t.Values = v0 :: rest) :
    followOffset quote detailed stop_tag key ifdname dict hdr =
      some (true, (dumpIfd quote detailed hdr (atoi v0).1 ifdname (some dict) 0 stop_tag).2) := by
  unfold followOffset
  rw [hk]
  dsimp only
  rw [hv]

theorem followOffset_skip (quote : String → String) (detailed : Bool)
    (stop_tag key ifdname : String) (dict : List (Int × exifTag)) (hdr : exifHeader)
    (hk : hdr.tags.get key = none) :
    followOffset quote detailed stop_tag key ifdname dict hdr = some (false, hdr) := by
  unfold followOffset
  rw [hk]

/-- C3: when the map, after the dump of a listed IFD named `N`, holds under
`N ExifOffset` a tag whose first value is the decimal integer `v`, `ProcessFile` decodes
the IFD at `v` with the main EXIF dictionary under the name EXIF; likewise, a tag held
under `N GPSInfo` when the GPS step is reached makes it decode the IFD at `v` with the GPS
dictionary under the name GPS.  In both cases the bindings added are `EXIF <TagName>`
(`GPS <TagName>`) for tags of the dictionary, and the known entries of a readable
sub-IFD are stored (`subIfdDecoded`). -/
theorem sub_ifds_followed (quote : String → String) (detailed : Bool) (stop_tag : String)
    (ctr : Nat) (i : Int) (hdr hdr1 : exifHeader)
    (h1 : hdr1 = (dumpIfd quote detailed hdr i (ifdName ctr) (some exifTags) 0 stop_tag).2) :
    (∀ (t : IfdTag) (v0 : String) (rest : List String) (v : Int),
      hdr1.tags.get (ifdName ctr ++ " ExifOffset") = some t → t.Values = v0 :: rest →
      atoi v0 = (v, none) →
      ∃ h2, followOffset quote detailed stop_tag (ifdName ctr ++ " ExifOffset") "EXIF" exifTags
          hdr1 = some (true, h2) ∧
        subIfdDecoded quote detailed stop_tag "EXIF" exifTags hdr1 v h2 ∧
        exifStage quote detailed stop_tag (ifdName ctr) hdr1 =
          (followOffset quote detailed stop_tag "EXIF SubIFD InteroperabilityOffset"
            "EXIF Interoperability" interTags h2).map Prod.snd) ∧
    (∀ (hX : exifHeader) (t : IfdTag) (v0 : String) (rest : List String) (v : Int),
      exifStage quote detailed stop_tag (ifdName ctr) hdr1 = some hX →
      hX.tags.get (ifdName ctr ++ " GPSInfo") = some t → t.Values = v0 :: rest →
      atoi v0 = (v, none) →
      ∃ h2, processIfd quote detailed stop_tag ctr i hdr = some h2 ∧
        subIfdDecoded quote detailed stop_tag "GPS" gpsTags hX v h2) := by
  refine ⟨?_, ?_⟩
  · intro t v0 rest v hk hv ha
    have hw := followOffset_walk quote detailed stop_tag (ifdName ctr ++ " ExifOffset") "EXIF"
      exifTags hdr1 t v0 rest hk hv
    rw [ha] at hw
    dsimp only at hw
    refine ⟨_, hw, subIfd_decoded quote detailed stop_tag "EXIF" exifTags hdr1 v, ?_⟩
    unfold exifStage
    rw [hw]
    dsimp only
    rcases followOffset quote detailed stop_tag "EXIF SubIFD InteroperabilityOffset"
      "EXIF Interoperability" interTags
      (dumpIfd quote detailed hdr1 v "EXIF" (some exifTags) 0 stop_tag).2 with _ | ⟨b, h3⟩
    · rfl
    · rfl
  · intro hX t v0 rest v hE hk hv ha
    have hw := followOffset_walk quote detailed stop_tag (ifdName ctr ++ " GPSInfo") "GPS"
      gpsTags hX t v0 rest hk hv
    rw [ha] at hw
    dsimp only at hw
    refine ⟨_, ?_, subIfd_decoded quote detailed stop_tag "GPS" gpsTags hX v⟩
    unfold processIfd
    dsimp only
    rw [← h1, hE]
    dsimp only
    unfold gpsStage
    rw [hw]

/-- C3 at `tiffSorted`: the Image IFD stores ExifOffset = 82 and GPSInfo = 100; the IFD at
82 is decoded under EXIF and the IFD at 100 under GPS. -/
theorem sub_ifds_followed_witness :
    (hdrSortedImage.tags.get "Image ExifOffset" = some ⟨"82", 0x8769, 4, 42, 4, ["82"]⟩ ∧
      atoi "82" = (82, none) ∧
      hdrSortedExif.tags.get "Image GPSInfo" = some ⟨"100", 0x8825, 4, 54, 4, ["100"]⟩ ∧
      atoi "100" = (100, none)) ∧
    (∃ h2, followOffset quoteAscii true "UNDEF" (ifdName 0 ++ " ExifOffset") "EXIF" exifTags
        hdrSortedImage = some (true, h2) ∧
      subIfdDecoded quoteAscii true "UNDEF" "EXIF" exifTags hdrSortedImage 82 h2 ∧
      exifStage quoteAscii true "UNDEF" (ifdName 0) hdrSortedImage =
        (followOffset quoteAscii true "UNDEF" "EXIF SubIFD InteroperabilityOffset"
          "EXIF Interoperability" interTags h2).map Prod.snd) ∧
    (∃ h2, processIfd quoteAscii true "UNDEF" 0 8 hdrSorted = some h2 ∧
      subIfdDecoded quoteAscii true "UNDEF" "GPS" gpsTags hdrSortedExif 100 h2) ∧
    (processIfd quoteAscii true "UNDEF" 0 8 hdrSorted).map (fun h => h.tags.map Prod.fst) =
      some ["GPS GPSAltitudeRef", "EXIF ColorSpace", "Image GPSInfo", "Image ExifOffset",
        "Image YCbCrPositioning", "Image DateTime"] :=
  ⟨⟨by decide, by decide, by decide, by decide⟩,
    (sub_ifds_followed quoteAscii true "UNDEF" 0 8 hdrSorted hdrSortedImage rfl).1
      ⟨"82", 0x8769, 4, 42, 4, ["82"]⟩ "82" [] 82 (by decide) rfl (by decide),
    (sub_ifds_followed quoteAscii true "UNDEF" 0 8 hdrSorted hdrSortedImage rfl).2
      hdrSortedExif ⟨"100", 0x8825, 4, 54, 4, ["100"]⟩ "100" [] 100 (by decide) (by decide) rfl
      (by decide),
    by decide⟩


theorem followOffset_inv (P : String → IfdTag → Prop) (quote : String → String)
    (detailed : Bool) (stop_tag key ifdname : String) (dict : List (Int × exifTag))
    (hdr hdr1 : exifHeader) (b : Bool)
    (hP : ∀ (te : exifTag) (t : IfdTag), dict.lookup t.tag = some te →
      (detailed = true ∨ ignoreTags.contains t.tag = false) →
      0 < t.Fieldtype → t.Fieldtype < 11 → P (ifdname ++ " " ++ te.name) t)
    (h : followOffset quote detailed stop_tag key ifdname dict hdr = some (b, hdr1))
    (h0 : ∀ k t, (k, t) ∈ hdr.tags → P k t) :
    ∀ k t, (k, t) ∈ hdr1.tags → P k t := by
  unfold followOffset at h
  split at h
  · simp only [Option.some.injEq, Prod.mk.injEq] at h
    rw [← h.2]; exact h0
  · split at h
    · simp at h
    · simp only [Option.some.injEq, Prod.mk.injEq] at h
      rw [← h.2]
      exact dumpIfd_inv P quote detailed hdr _ ifdname dict 0 stop_tag hP h0

theorem exifStage_inv (P : String → IfdTag → Prop) (quote : String → String)
    (detailed : Bool) (stop_tag ifdname : String) (hdr hdr1 : exifHeader)
    (hP1 : ∀ (te : exifTag) (t : IfdTag), P ("EXIF" ++ " " ++ te.name) t)
    (hP2 : ∀ (te : exifTag) (t : IfdTag), P ("EXIF Interoperability" ++ " " ++ te.name) t)
    (h : exifStage quote detailed stop_tag ifdname hdr = some hdr1)
    (h0 : ∀ k t, (k, t) ∈ hdr.tags → P k t) :
    ∀ k t, (k, t) ∈ hdr1.tags → P k t := by
  unfold exifStage at h
  rcases hE : followOffset quote detailed stop_tag (ifdname ++ " ExifOffset") "EXIF" exifTags
    hdr with _ | ⟨b, hB1⟩
  · rw [hE] at h; simp at h
  · rw [hE] at h
    have hB := followOffset_inv P quote detailed stop_tag _ "EXIF" exifTags hdr hB1 b
      (fun te t _ _ _ _ => hP1 te t) hE h0
    cases b with
    | false => simp only [Option.some.injEq] at h; rw [← h]; exact hB
    | true =>
      dsimp only at h
      rcases hI : followOffset quote detailed stop_tag "EXIF SubIFD InteroperabilityOffset"
        "EXIF Interoperability" interTags hB1 with _ | ⟨b2, hI1⟩
      · rw [hI] at h; simp at h
      · rw [hI] at h
        simp only [Option.some.injEq] at h
        rw [← h]
        exact followOffset_inv P quote detailed stop_tag _ "EXIF Interoperability"
          interTags hB1 hI1 b2 (fun te t _ _ _ _ => hP2 te t) hI hB

theorem exif_key_ne_image (x y : String) : "EXIF" ++ x ≠ "Image" ++ y := by
  intro h
  have h1 := congrArg String.data h
  simp only [String.data_append] at h1
  have h2 := congrArg List.head? h1
  simp at h2

theorem get_some_of_mem {k : String} {t : IfdTag} :
    ∀ (m : TagMap), (k, t) ∈ m → ∃ t1, m.get k = some t1 := by
  intro m
  induction m with
  | nil => intro h; simp at h
  | cons p rest ih =>
    intro h
    obtain ⟨k1, v1⟩ := p
    unfold TagMap.get at ih ⊢
    rw [List.lookup_cons]
    by_cases hk : k = k1
    · subst hk
      exact ⟨v1, by simp⟩
    · have hb : (k == k1) = false := by simpa using hk
      rw [hb]
      rcases List.mem_cons.1 h with h1 | h1
      · simp only [Prod.mk.injEq] at h1
        exact absurd h1.1 hk
      · exact ih h1

theorem exifStage_keeps_absent (quote : String → String) (detailed : Bool)
    (stop_tag ifdname : String) (hdr hdr1 : exifHeader) (nm : String)
    (h : exifStage quote detailed stop_tag ifdname hdr = some hdr1)
    (h0 : hdr.tags.get ("Image" ++ " " ++ nm) = none) :
    hdr1.tags.get ("Image" ++ " " ++ nm) = none := by
  apply get_none_of_not_mem
  intro t ht
  have := exifStage_inv (fun k _ => k ≠ "Image" ++ " " ++ nm) quote detailed stop_tag ifdname
    hdr hdr1
    (fun te _ => by
      rw [String.append_assoc, String.append_assoc]
      exact exif_key_ne_image _ _)
    (fun te _ => by
      rw [show "EXIF Interoperability" = "EXIF" ++ " Interoperability" by rfl,
        String.append_assoc, String.append_assoc, String.append_assoc]
      exact exif_key_ne_image _ _)
    h
    (fun k t hk hc => by
      rw [hc] at hk
      obtain ⟨t1, ht1⟩ := get_some_of_mem hdr.tags hk
      rw [h0] at ht1
      simp at ht1)
    _ t ht
  exact this rfl

/-- C6 (amended): let the Image IFD, dumped first with the stop tag "DateTime", have
`DateTime` as entry `j` (the first of that name) and field types in `[1, 10]` up to it.
Then every binding in the map after the dump comes from an entry `m ≤ j`: no Image entry
after DateTime is stored.  The EXIF (GPS) sub-IFD is walked when the key
`Image ExifOffset` (`Image GPSInfo`) is held, which takes an entry of that name among the
entries `0..j`; when no such entry precedes DateTime the step leaves the header as it
is. -/
theorem stop_tag_sub_ifds (quote : String → String) (detailed : Bool) (i : Int)
    (hdr hdr1 : exifHeader) (n : Int) (j : Nat)
    (hfresh : hdr.tags = []) (hr : ifdInRange hdr i)
    (hn : (s2n hdr i 2 false).1 = .ok n) (hj : (j : Int) < n)
    (hfirst : ∀ k, k ≤ j →
      ∃ tag, entryTag hdr i k = .ok tag ∧ (tagName exifTags tag = "DateTime" ↔ k = j))
    (htypes : ∀ k, k ≤ j → ∃ ft, entryType hdr i k = .ok ft ∧ 1 ≤ ft ∧ ft ≤ 10)
    (h1 : hdr1 = (dumpIfd quote detailed hdr i "Image" (some exifTags) 0 "DateTime").2) :
    (∀ k t, (k, t) ∈ hdr1.tags → ∃ m, m ≤ j ∧ ∃ tag te, entryTag hdr i m = .ok tag ∧
      exifTags.lookup tag = some te ∧ k = "Image" ++ " " ++ te.name ∧ t.tag = tag) ∧
    ((∀ k, k ≤ j → ∀ tag, entryTag hdr i k = .ok tag → tagName exifTags tag ≠ "ExifOffset") →
      exifStage quote detailed "DateTime" "Image" hdr1 = some hdr1) ∧
    (∀ (t : IfdTag) (v0 : String) (rest : List String),
      hdr1.tags.get "Image ExifOffset" = some t → t.Values = v0 :: rest →
      ∃ h2, followOffset quote detailed "DateTime" "Image ExifOffset" "EXIF" exifTags hdr1 =
          some (true, h2) ∧
        subIfdDecoded quote detailed "DateTime" "EXIF" exifTags hdr1 (atoi v0).1 h2) ∧
    (∀ hX : exifHeader, exifStage quote detailed "DateTime" "Image" hdr1 = some hX →
      (∀ k, k ≤ j → ∀ tag, entryTag hdr i k = .ok tag → tagName exifTags tag ≠ "GPSInfo") →
      processIfd quote detailed "DateTime" 0 i hdr = some hX) ∧
    (∀ (hX : exifHeader) (t : IfdTag) (v0 : String) (rest : List String),
      exifStage quote detailed "DateTime" "Image" hdr1 = some hX →
      hX.tags.get "Image GPSInfo" = some t → t.Values = v0 :: rest →
      ∃ h2, processIfd quote detailed "DateTime" 0 i hdr = some h2 ∧
        subIfdDecoded quote detailed "DateTime" "GPS" gpsTags hX (atoi v0).1 h2) := by
  have hS : ("DateTime" : String).length ≠ 0 := by decide
  rcases hs : s2n hdr i 2 false with ⟨r, eh1⟩
  rw [hs] at hn
  simp only at hn
  subst hn
  have hbound := s2n_unsigned_bound (by norm_num)
    (show (s2n hdr i 2 false).1 = .ok n by rw [hs])
  have hn2 : n < 65536 := by simpa using hbound.2
  have hj1 : j < n.toNat := by omega
  have hsf : sameFile hdr eh1 := posOnly_sameFile (s2n_posOnly hs)
  have htags1 : eh1.tags = [] := by rw [posOnly_tags (s2n_posOnly hs)]; exact hfresh
  have hbefore : ∀ k, 0 ≤ k → k < 0 + j → ∀ tag1, entryTag hdr i k = .ok tag1 →
      tagName exifTags tag1 ≠ "DateTime" := by
    intro k _ hk tag1 htag1 hname
    obtain ⟨tag, ht, hiff⟩ := hfirst k (by omega)
    rw [htag1] at ht
    simp only [Except.ok.injEq] at ht
    subst ht
    have := hiff.1 hname
    omega
  have hatj : ∀ tag, entryTag hdr i (0 + j) = .ok tag → tagName exifTags tag = "DateTime" ∧
      ((detailed || !ignoreTags.contains tag) = false ∨
        ∃ ft, entryType hdr i (0 + j) = .ok ft ∧ 0 < ft ∧ ft < 11) := by
    intro tag htag
    obtain ⟨tag', ht, hiff⟩ := hfirst j (le_refl _)
    obtain ⟨ft, hf1, hf2, hf3⟩ := htypes j (le_refl _)
    simp only [Nat.zero_add] at htag ⊢
    rw [htag] at ht
    simp only [Except.ok.injEq] at ht
    subst ht
    exact ⟨hiff.2 rfl, Or.inr ⟨ft, hf1, by omega, by omega⟩⟩
  have htrunc := dumpLoop_trunc quote detailed i "Image" exifTags 0 "DateTime" hdr hr j 0 n.toNat
    eh1 hsf (by omega) hj1 hbefore hatj
  have heq := dumpIfd_eq_loop quote detailed hdr eh1 i "Image" exifTags 0 "DateTime" n hS hs
  rw [heq, htrunc] at h1
  have habsent : ∀ nm : String,
      (∀ k, k ≤ j → ∀ tag, entryTag hdr i k = .ok tag → tagName exifTags tag ≠ nm) →
      hdr1.tags.get ("Image" ++ " " ++ nm) = none := by
    intro nm hnm
    rw [h1]
    refine dumpLoop_absent quote detailed i "Image" exifTags 0 "DateTime" hdr hr nm (j + 1) 0 eh1
      hsf (by omega) (fun k _ hk tag htag => hnm k (by omega) tag htag) ?_
    rw [htags1]; rfl
  have hproc : ∀ hX, exifStage quote detailed "DateTime" "Image" hdr1 = some hX →
      processIfd quote detailed "DateTime" 0 i hdr =
        gpsStage quote detailed "DateTime" "Image" hX := by
    intro hX hE
    unfold processIfd
    dsimp only
    rw [show ifdName 0 = "Image" by rfl, heq, htrunc, ← h1, hE]
  refine ⟨?_, ?_, ?_, ?_, ?_⟩
  · intro k t hk
    rw [h1] at hk
    rcases dumpLoop_from quote detailed i "Image" exifTags 0 "DateTime" hdr hr (j + 1) 0 eh1
      hsf (by omega) k t hk with h | ⟨m, _, hm, h⟩
    · rw [htags1] at h; simp at h
    · exact ⟨m, by omega, h⟩
  · intro hnm
    have hnone := habsent "ExifOffset" hnm
    rw [show "Image" ++ " " ++ "ExifOffset" = "Image" ++ " ExifOffset" by decide] at hnone
    unfold exifStage
    rw [followOffset_skip quote detailed "DateTime" _ "EXIF" exifTags hdr1 hnone]
  · intro t v0 rest hk hv
    exact ⟨_, followOffset_walk quote detailed "DateTime" "Image ExifOffset" "EXIF" exifTags
      hdr1 t v0 rest hk hv, subIfd_decoded quote detailed "DateTime" "EXIF" exifTags hdr1 _⟩
  · intro hX hE hnm
    have hnone := exifStage_keeps_absent quote detailed "DateTime" "Image" hdr1 hX "GPSInfo"
      hE (habsent "GPSInfo" hnm)
    rw [show "Image" ++ " " ++ "GPSInfo" = "Image" ++ " GPSInfo" by decide] at hnone
    rw [hproc hX hE]
    unfold gpsStage
    rw [followOffset_skip quote detailed "DateTime" _ "GPS" gpsTags hX hnone]
  · intro hX t v0 rest hE hk hv
    refine ⟨_, ?_, subIfd_decoded quote detailed "DateTime" "GPS" gpsTags hX _⟩
    rw [hproc hX hE]
    unfold gpsStage
    rw [show "Image" ++ " GPSInfo" = "Image GPSInfo" by decide,
      followOffset_walk quote detailed "DateTime" "Image GPSInfo" "GPS" gpsTags
        hX t v0 rest hk hv]

/-- C6, counterexample: the Image IFD of `tiffSorted` holds DateTime (entry 0), an
ExifOffset (entry 2) pointing to a readable EXIF IFD with a known tag, and a GPSInfo
(entry 3) pointing to a readable GPS IFD with a known tag.  With the stop tag "DateTime"
the result holds "Image DateTime" only: neither sub-IFD is walked. -/
theorem stop_tag_skips_sub_ifds :
    (entryTag hdrSorted 8 0 = .ok 0x0132 ∧ tagName exifTags 0x0132 = "DateTime" ∧
      entryTag hdrSorted 8 2 = .ok 0x8769 ∧ (s2n hdrSorted 42 4 false).1 = .ok 82 ∧
      entryTag hdrSorted 8 3 = .ok 0x8825 ∧ (s2n hdrSorted 54 4 false).1 = .ok 100) ∧
    ((dumpIfd quoteAscii true hdrSorted 82 "EXIF" (some exifTags) 0 "DateTime").1 = none ∧
      (dumpIfd quoteAscii true hdrSorted 82 "EXIF" (some exifTags) 0 "DateTime").2.tags =
        [("EXIF ColorSpace", ⟨"sRGB", 0xA001, 3, 92, 2, ["1"]⟩)]) ∧
    ((dumpIfd quoteAscii true hdrSorted 100 "GPS" (some gpsTags) 0 "DateTime").1 = none ∧
      (dumpIfd quoteAscii true hdrSorted 100 "GPS" (some gpsTags) 0 "DateTime").2.tags =
        [("GPS GPSAltitudeRef", ⟨"0", 0x0005, 1, 110, 1, ["0"]⟩)]) ∧
    ProcessFile quoteAscii 10 tiffSorted "DateTime" true false =
      some (.returned (some [("Image DateTime",
        ⟨"\"2010:11:28 16:42:18\"", 0x0132, 2, 62, 20, ["2010:11:28 16:42:18"]⟩)]) none) := by
  refine ⟨⟨by decide, by decide, by decide, by decide, by decide, by decide⟩,
    ⟨by decide, by decide⟩, ⟨by decide, by decide⟩, by decide⟩

/-- C6 (amended) at `tiffUnsorted`, whose Image IFD holds ExifOffset and GPSInfo before
DateTime (entry 2): the bindings come from the entries 0..2, and the EXIF sub-IFD at 82
is walked. -/
theorem stop_tag_sub_ifds_witness :
    ((s2n hdrUnsorted 8 2 false).1 = .ok 4 ∧
      hdrUnsortedImage.tags.get "Image ExifOffset" = some ⟨"82", 0x8769, 4, 18, 4, ["82"]⟩) ∧
    (∀ k t, (k, t) ∈ hdrUnsortedImage.tags → ∃ m, m ≤ 2 ∧ ∃ tag te,
      entryTag hdrUnsorted 8 m = .ok tag ∧ exifTags.lookup tag = some te ∧
        k = "Image" ++ " " ++ te.name ∧ t.tag = tag) ∧
    (∃ h2, followOffset quoteAscii true "DateTime" "Image ExifOffset" "EXIF" exifTags
        hdrUnsortedImage = some (true, h2) ∧
      subIfdDecoded quoteAscii true "DateTime" "EXIF" exifTags hdrUnsortedImage
        (atoi "82").1 h2) ∧
    (processIfd quoteAscii true "DateTime" 0 8 hdrUnsorted).map (fun h => h.tags.map Prod.fst) =
      some ["GPS GPSAltitudeRef", "EXIF ColorSpace", "Image DateTime", "Image GPSInfo",
        "Image ExifOffset"] :=
  have key := stop_tag_sub_ifds quoteAscii true 8 hdrUnsorted hdrUnsortedImage 4 2
    (by decide) (by unfold ifdInRange; decide) (by decide) (by decide)
    (by
      intro k hk
      interval_cases k
      · exact ⟨0x8769, by decide, by decide⟩
      · exact ⟨0x8825, by decide, by decide⟩
      · exact ⟨0x0132, by decide, by decide⟩)
    (by
      intro k hk
      interval_cases k
      · exact ⟨4, by decide, by decide, by decide⟩
      · exact ⟨4, by decide, by decide, by decide⟩
      · exact ⟨2, by decide, by decide, by decide⟩)
    rfl
  ⟨⟨by decide, by decide⟩, key.1,
    key.2.2.1 ⟨"82", 0x8769, 4, 18, 4, ["82"]⟩ "82" [] (by decide) rfl, by decide⟩

/-! ## Rationals: the printed form -/

theorem gcdFuel_nat : ∀ (fuel a b : Nat), b < fuel →
    gcdFuel fuel (a : Int) (b : Int) = some ((Nat.gcd a b : Nat) : Int) := by
  intro fuel
  induction fuel with
  | zero => intro a b h; omega
  | succ n ih =>
    intro a b h
    rw [gcdFuel]
    by_cases hb : b = 0
    · subst hb
      simp
    · have hb' : ¬ ((b : Int) = 0) := by exact_mod_cast hb
      rw [if_neg hb', ← Int.ofNat_tmod, ih b (a % b) (by
        have := Nat.mod_lt a (Nat.pos_of_ne_zero hb)
        omega)]
      congr 2
      rw [Nat.gcd_comm a b, Nat.gcd_rec b a, Nat.gcd_comm]

theorem gcd_nat (a b : Nat) : gcd (a : Int) (b : Int) = ((Nat.gcd a b : Nat) : Int) := by
  unfold gcd
  rw [Int.natAbs_ofNat, gcdFuel_nat _ a b (by omega)]
  rfl

theorem tdiv_nat (a b : Nat) : Int.tdiv (a : Int) (b : Int) = ((a / b : Nat) : Int) :=
  (Int.ofNat_tdiv a b).symm

/-- The string that `ratio.String` returns for non-negative `n` and `d`:
the fraction reduced by its greatest common divisor. -/
theorem ratio_string_nonneg (n d : Nat) :
    (newRatio (n : Int) (d : Int)).String.2 =
      if d / Nat.gcd n d = 1 then itoa ((n / Nat.gcd n d : Nat) : Int)
      else itoa ((n / Nat.gcd n d : Nat) : Int) ++ "/" ++ itoa ((d / Nat.gcd n d : Nat) : Int) := by
  unfold ratio.String newRatio ratio.reduce
  simp only [gcd_nat, Bool.not_false, if_true]
  by_cases hg : 1 < Nat.gcd n d
  · have hg' : ((Nat.gcd n d : Nat) : Int) > 1 := by exact_mod_cast hg
    rw [if_pos hg']
    dsimp only
    rw [tdiv_nat, tdiv_nat]
    by_cases hd : d / Nat.gcd n d = 1
    · have hd' : ((d / Nat.gcd n d : Nat) : Int) = 1 := by exact_mod_cast hd
      rw [if_pos hd', if_pos hd]
    · have hd' : ¬ ((d / Nat.gcd n d : Nat) : Int) = 1 := by exact_mod_cast hd
      rw [if_neg hd', if_neg hd]
  · have hg' : ¬ (((Nat.gcd n d : Nat) : Int) > 1) := by
      intro h
      exact hg (by exact_mod_cast h)
    rw [if_neg hg']
    dsimp only
    have h1 : Nat.gcd n d = 1 ∨ Nat.gcd n d = 0 := by omega
    rcases h1 with h1 | h1
    · rw [h1, Nat.div_one, Nat.div_one]
      by_cases hd : d = 1
      · have hd' : (d : Int) = 1 := by exact_mod_cast hd
        rw [if_pos hd', if_pos hd]
      · have hd' : ¬ (d : Int) = 1 := by exact_mod_cast hd
        rw [if_neg hd', if_neg hd]
    · have hn : n = 0 := (Nat.gcd_eq_zero_iff.1 h1).1
      have hd : d = 0 := (Nat.gcd_eq_zero_iff.1 h1).2
      subst hn
      subst hd
      decide

/-- C11: Go's remainder is truncated, so `gcd` returns a negative divisor for a negative
numerator (`gcd (-2) 6 = -2`), and `reduce` divides only when the divisor exceeds 1: the
signed ratio -2/6 is printed unreduced as "-2/6" and not as "-1/3", also through
`ProcessFile` for an ExposureBiasValue stored as the signed ratio (-2, 6).  The same
fraction with the sign removed is reduced. -/
theorem signed_ratio_not_reduced :
    gcd (-2) 6 = -2 ∧
    (newRatio (-2) 6).String.2 = "-2/6" ∧
    (newRatio 4 (-2)).String.2 = "4/-2" ∧
    (newRatio 2 6).String.2 = "1/3" ∧
    ProcessFile quoteAscii 10 tiffSignedRatio "" true false =
      some (.returned (some
        [("EXIF ExposureBiasValue", ⟨"-2/6", 0x9204, 10, 44, 8, ["-2/6"]⟩),
         ("Image ExifOffset", ⟨"26", 0x8769, 4, 18, 4, ["26"]⟩)]) none) := by
  refine ⟨by decide, by decide, by decide, by decide, by decide⟩

/-- C12: printing a ratio is invariant under scaling.  For `n ≥ 0`, `d ≥ 0` and `k > 0`
with `n * k` and `d * k` in the unsigned 32-bit range, `newRatio n d` and
`newRatio (n * k) (d * k)` print the same string, and `newRatio (n * k) k` prints the
bare decimal `n`. -/
theorem ratio_scaling (n d k : Int) (hn : 0 ≤ n) (hd : 0 ≤ d) (hk : 0 < k)
    (hnk : n * k < 2 ^ 32) (hdk : d * k < 2 ^ 32) :
    (newRatio n d).String.2 = (newRatio (n * k) (d * k)).String.2 ∧
    (newRatio (n * k) k).String.2 = itoa n := by
  lift n to Nat using hn
  lift d to Nat using hd
  lift k to Nat using le_of_lt hk
  have hk' : 0 < k := by exact_mod_cast hk
  constructor
  · rw [← Nat.cast_mul, ← Nat.cast_mul, ratio_string_nonneg, ratio_string_nonneg,
      Nat.gcd_mul_right, Nat.mul_div_mul_right _ _ hk', Nat.mul_div_mul_right _ _ hk']
  · rw [← Nat.cast_mul, ratio_string_nonneg, Nat.gcd_mul_left_left,
      Nat.div_self hk', if_pos rfl, Nat.mul_div_cancel _ hk']

theorem ratio_scaling_witness :
    (newRatio 72 1).String.2 = (newRatio (72 * 3) (1 * 3)).String.2 ∧
    (newRatio (72 * 3) 3).String.2 = itoa 72 :=
  ratio_scaling 72 1 3 (by decide) (by decide) (by decide) (by decide) (by decide)

/-- C13, counterexample: `gcd 5 0 = 5`, so `reduce` divides both fields by 5 and
`newRatio 5 0` prints "1/0", not "5/0". -/
theorem zero_den_prints_one :
    gcd 5 0 = 5 ∧ (newRatio 5 0).String.1 = ⟨1, 0, true⟩ ∧
    (newRatio 5 0).String.2 = "1/0" ∧ (newRatio 5 0).String.2 ≠ "5/0" := by
  refine ⟨by decide, by decide, by decide, by decide⟩

/-- C13, amended: a ratio with the denominator 0 has the divisor `gcd N 0 = N`; for
`N > 1` both fields are divided by it and the string is "1/0", for every other
numerator (`N ≤ 1`) nothing is divided and the string is the decimal `N` followed by
"/0". -/
theorem ratio_zero_den (N : Int) :
    gcd N 0 = N ∧
    (newRatio N 0).String.2 = if 1 < N then "1/0" else itoa N ++ "/0" := by
  have hg : gcd N 0 = N := by
    unfold gcd
    rw [Int.natAbs_zero, gcdFuel]
    simp
  refine ⟨hg, ?_⟩
  unfold ratio.String newRatio ratio.reduce
  simp only [hg, Bool.not_false, if_true]
  by_cases h : 1 < N
  · have h' : N > 1 := h
    have hne : N ≠ 0 := by omega
    rw [if_pos h', if_pos h]
    dsimp only
    rw [Int.zero_tdiv, Int.tdiv_self hne]
    decide
  · have h' : ¬ (N > 1) := h
    rw [if_neg h', if_neg h]
    dsimp only
    rw [if_neg (by decide), String.append_assoc]
    rfl

/-! ## The envelope (C14, C15, C16) -/

theorem window_length (cur : List UInt8) : (window cur).length = 10 := by
  unfold window File.buffer
  simp

theorem read_window (pre cur : List UInt8) (h : cur ≠ []) :
    File.read ⟨pre ++ cur, pre.length⟩ 10 =
      (.ok (window cur), ⟨pre ++ cur, pre.length + min 10 cur.length⟩) := by
  have hl : 0 < cur.length := List.length_pos.2 h
  unfold File.read window File.buffer
  simp
  exact h

theorem skipHeader_congr (a b c d : UInt8) (w : List UInt8) :
    skipHeader ([a, b] ++ w) ↔ skipHeader ([c, d] ++ w) := by
  unfold skipHeader sliceString
  simp

theorem exifMarked_congr (a b c d : UInt8) (w : List UInt8) :
    exifMarked ([a, b] ++ w) ↔ exifMarked ([c, d] ++ w) := by
  unfold exifMarked sliceString
  simp

theorem skippable_bytes (s : Segment) (h : s.skippable) :
    ∃ s0 s1 s2 s3 b0 b1 body, s.bytes = [0xFF, s.marker, s.hi, s.lo, s0, s1, s2, s3, b0, b1] ++ body ∧
      s.sig = [s0, s1, s2, s3] ∧ body.length + 8 = s.declared := by
  obtain ⟨h4, _, h8, hb⟩ := h
  rcases s with ⟨m, hi, lo, sig, body⟩
  simp only [Segment.declared] at h4 h8 hb ⊢
  match sig, h4 with
  | [s0, s1, s2, s3], _ =>
    match body, hb with
    | [], hb => simp at hb; omega
    | [_], hb => simp at hb; omega
    | b0 :: b1 :: body, hb =>
      refine ⟨s0, s1, s2, s3, b0, b1, body, ?_, rfl, ?_⟩
      · simp [Segment.bytes]
      · simp at hb; omega

theorem window_ten (x0 x1 x2 x3 x4 x5 x6 x7 x8 x9 : UInt8) (t : List UInt8) :
    window ([x0, x1, x2, x3, x4, x5, x6, x7, x8, x9] ++ t) =
      [x0, x1, x2, x3, x4, x5, x6, x7, x8, x9] := by
  simp [window, File.buffer]

theorem seekCur_fwd (D : List UInt8) (p k : Nat) :
    (File.mk D p).seekCur (k : Int) = ⟨D, p + k⟩ := by
  unfold File.seekCur
  have h : ¬ ((p : Int) + (k : Int) < 0) := by omega
  simp only [h, if_false]
  congr 1

theorem sliceString_sig (a b x0 x1 x2 x3 s0 s1 s2 s3 c0 c1 : UInt8) :
    sliceString ([a, b] ++ [x0, x1, x2, x3, s0, s1, s2, s3, c0, c1]) 6 10 =
      bytesToString [s0, s1, s2, s3] := by
  simp [sliceString]

theorem skipSegments_skip (rest : List UInt8) (hr : rest ≠ [])
    (hn : ¬ skipHeader ([0xFF, 0x00] ++ window rest)) :
    ∀ (segs : List Segment), (∀ s ∈ segs, s.skippable) →
    ∀ (fuel : Nat) (pre : List UInt8) (a b : UInt8) (fake : Bool), segs.length < fuel →
      ∃ a1 b1, skipSegments fuel
          ⟨pre ++ (segsBytes segs ++ rest), pre.length + min 10 (segsBytes segs ++ rest).length⟩
          ([a, b] ++ window (segsBytes segs ++ rest)) fake =
        some (some (.ok (⟨pre ++ (segsBytes segs ++ rest),
            pre.length + skippedLength segs + min 10 rest.length⟩,
          [a1, b1] ++ window rest, fake || !segs.isEmpty))) := by
  intro segs
  induction segs with
  | nil =>
    intro _ fuel pre a b fake hf
    obtain ⟨n, rfl⟩ : ∃ n, fuel = n + 1 := ⟨fuel - 1, by simp at hf; omega⟩
    refine ⟨a, b, ?_⟩
    have hn' : ¬ skipHeader ([a, b] ++ window rest) :=
      fun h => hn ((skipHeader_congr a b 0xFF 0x00 _).1 h)
    rw [skipSegments]
    simp only [segsBytes, List.nil_append, skippedLength, Nat.add_zero, List.isEmpty_nil,
      Bool.not_true, Bool.or_false]
    rw [if_neg]
    exact hn'
  | cons s segs ih =>
    intro hs fuel pre a b fake hf
    obtain ⟨n, rfl⟩ : ∃ n, fuel = n + 1 := ⟨fuel - 1, by simp at hf; omega⟩
    have hsk : s.skippable := hs s (List.mem_cons_self _ _)
    obtain ⟨s0, s1, s2, s3, c0, c1, body, hbytes, hsig, hlen⟩ := skippable_bytes s hsk
    have hmem : bytesToString [s0, s1, s2, s3] ∈ ["JFIF", "JFXX", "OLYM", "Phot"] := by
      rw [← hsig]
      exact hsk.2.1
    obtain ⟨a1, b1, hrec⟩ := ih (fun t ht => hs t (List.mem_cons_of_mem _ ht)) n
      (pre ++ s.bytes) 0xFF 0x00 true (by simp at hf; omega)
    refine ⟨a1, b1, ?_⟩
    generalize hX : segsBytes segs ++ rest = X at hrec
    have hcur : X ≠ [] := by
      intro h
      rw [← hX] at h
      exact hr (List.append_eq_nil.1 h).2
    have hread := read_window (pre ++ s.bytes) X hcur
    have hslen : s.bytes.length = body.length + 10 := by
      rw [hbytes]
      simp
    have hw : window (s.bytes ++ X) = [0xFF, s.marker, s.hi, s.lo, s0, s1, s2, s3, c0, c1] := by
      rw [hbytes, List.append_assoc, window_ten]
    have hmin : min 10 (s.bytes ++ X).length = 10 := by
      rw [List.length_append, hslen]
      omega
    have hcond : ([a, b] ++ [0xFF, s.marker, s.hi, s.lo, s0, s1, s2, s3, c0, c1]).getD 2 0 = 0xFF ∧
        ["JFIF", "JFXX", "OLYM", "Phot"].contains
          (sliceString ([a, b] ++ [0xFF, s.marker, s.hi, s.lo, s0, s1, s2, s3, c0, c1]) 6 10) := by
      refine ⟨rfl, ?_⟩
      rw [sliceString_sig]
      exact List.elem_eq_true_of_mem hmem
    have hdecl : ((([a, b] ++ [0xFF, s.marker, s.hi, s.lo, s0, s1, s2, s3, c0, c1]).getD 4 0).toNat : Int)
        * 256 + ((([a, b] ++ [0xFF, s.marker, s.hi, s.lo, s0, s1, s2, s3, c0, c1]).getD 5 0).toNat : Int)
        - 8 = ((body.length : Nat) : Int) := by
      have : ((s.hi.toNat : Int) * 256 + (s.lo.toNat : Int)) = ((body.length + 8 : Nat) : Int) := by
        rw [hlen]
        simp [Segment.declared]
      show ((s.hi.toNat : Int) * 256 + (s.lo.toNat : Int)) - 8 = _
      rw [this]
      push_cast
      ring
    have hseek : (File.mk (pre ++ (s.bytes ++ X)) (pre.length + 10)).seekCur ((body.length : Nat) : Int) =
        ⟨pre ++ s.bytes ++ X, (pre ++ s.bytes).length⟩ := by
      rw [seekCur_fwd, List.length_append, hslen, List.append_assoc]
      congr 1
      omega
    rw [skipSegments]
    simp only [segsBytes, List.append_assoc]
    rw [hX, hw, hmin, if_pos hcond]
    rw [hdecl, if_neg (by omega), hseek, hread]
    dsimp only
    rw [hrec]
    have hpos : (pre ++ s.bytes).length + skippedLength segs =
        pre.length + skippedLength (s :: segs) := by
      rw [List.length_append, hslen, skippedLength, ← hlen]
      omega
    rw [hpos, List.append_assoc]
    simp only [List.isEmpty_cons, Bool.not_false, Bool.or_true, Bool.true_or]

theorem read_one (pre : List UInt8) (e : UInt8) (tail : List UInt8) :
    File.read ⟨pre ++ e :: tail, pre.length⟩ 1 = (.ok [e], ⟨pre ++ e :: tail, pre.length + 1⟩) := by
  unfold File.read File.buffer
  simp

theorem segsBytes_length : ∀ (segs : List Segment), (∀ s ∈ segs, s.skippable) →
    (segsBytes segs).length = skippedLength segs := by
  intro segs
  induction segs with
  | nil => intro _; rfl
  | cons s segs ih =>
    intro hs
    obtain ⟨s0, s1, s2, s3, c0, c1, body, hbytes, _, hlen⟩ :=
      skippable_bytes s (hs s (List.mem_cons_self _ _))
    rw [segsBytes, skippedLength, List.length_append, ih (fun t ht => hs t (List.mem_cons_of_mem _ ht)),
      hbytes, ← hlen]
    simp

theorem readAtLeast_start (D : List UInt8) (h : 12 ≤ D.length) :
    File.readAtLeast ⟨D, 0⟩ 12 = (.ok (D.take 12), ⟨D, 12⟩) := by
  have hne : D ≠ [] := by
    intro h0
    rw [h0] at h
    simp at h
  unfold File.readAtLeast
  simp
  rw [if_neg hne, if_neg (by omega)]

theorem window_of_le (cur : List UInt8) (h : 10 ≤ cur.length) : window cur = cur.take 10 := by
  unfold window File.buffer
  simp
  omega

theorem jpeg_start (cur : List UInt8) (h : 10 ≤ cur.length) :
    File.readAtLeast ⟨[0xFF, 0xD8] ++ cur, 0⟩ 12 =
      (.ok ([0xFF, 0xD8] ++ window cur), ⟨[0xFF, 0xD8] ++ cur, 2 + min 10 cur.length⟩) := by
  rw [readAtLeast_start _ (by simp; omega), window_of_le cur h]
  have : min 10 cur.length = 10 := by omega
  rw [this]
  rfl

theorem segs_cur_length : ∀ (segs : List Segment) (rest : List UInt8), (∀ s ∈ segs, s.skippable) →
    (if segs = [] then 10 else 1) ≤ rest.length → 10 ≤ (segsBytes segs ++ rest).length := by
  intro segs rest hs hr
  cases segs with
  | nil => simpa [segsBytes] using hr
  | cons s segs =>
    obtain ⟨s0, s1, s2, s3, c0, c1, body, hbytes, _, hlen⟩ :=
      skippable_bytes s (hs s (List.mem_cons_self _ _))
    rw [segsBytes, hbytes]
    simp

theorem not_tiff_of_ff (w : List UInt8) :
    ¬ (["II*\x00", "MM\x00*"].contains (sliceString ([0xFF, 0xD8] ++ w) 0 4) = true) := by
  intro h
  have hm := List.mem_of_elem_eq_true h
  simp only [List.mem_cons, List.mem_singleton, List.not_mem_nil, or_false] at hm
  have hd : (sliceString ([0xFF, 0xD8] ++ w) 0 4).data.head? = some (Char.ofNat 255) := by
    simp [sliceString, bytesToString]
  rcases hm with hm | hm <;> rw [hm] at hd <;> exact absurd hd (by decide)

theorem jpeg_soi (w : List UInt8) : sliceString ([0xFF, 0xD8] ++ w) 0 2 = "\xFF\xD8" := by
  simp [sliceString, bytesToString]
  decide

theorem exifHead_not_skip (m hi lo p1 p2 e : UInt8) (tail : List UInt8) :
    ¬ skipHeader ([0xFF, 0x00] ++ window (exifHead m hi lo p1 p2 ++ e :: tail)) := by
  unfold exifHead
  rw [window_ten]
  unfold skipHeader
  rw [sliceString_sig]
  intro h
  exact absurd h.2 (by decide)

theorem exifHead_marked (a b m hi lo p1 p2 e : UInt8) (tail : List UInt8) :
    ([a, b] ++ window (exifHead m hi lo p1 p2 ++ e :: tail)).getD 2 0 = 0xFF ∧
    sliceString ([a, b] ++ window (exifHead m hi lo p1 p2 ++ e :: tail)) 6 10 = "Exif" := by
  unfold exifHead
  rw [window_ten, sliceString_sig]
  exact ⟨rfl, by decide⟩

/-- C14: for a JPEG input that starts FF D8 and continues with `segs`, any number of
complete segments with one of the signatures JFIF, JFXX, OLYM, Phot and a declared length
of at least 8, then a segment whose signature is "Exif" and at least one more byte `e`,
the envelope step finds the TIFF block right after the ten bytes marker, length, "Exif"
and two padding bytes: the offset is 12 plus the bytes of the skipped segments (12 for no
skipped segment, `L + 14` for one of declared length `L`), the endian byte is the byte
`e` at that offset and `fakeexif` is set exactly when a segment was skipped. -/
theorem exif_segment_located (segs : List Segment) (m hi lo p1 p2 e : UInt8)
    (tail : List UInt8) (fuel : Nat)
    (hs : ∀ s ∈ segs, s.skippable) (hfuel : segs.length < fuel) :
    locate fuel ⟨jpegFile segs (exifHead m hi lo p1 p2 ++ e :: tail), 0⟩ =
      some (.found ⟨jpegFile segs (exifHead m hi lo p1 p2 ++ e :: tail),
          12 + skippedLength segs + 1⟩ e ((12 + skippedLength segs : Nat) : Int)
        (!segs.isEmpty)) ∧
    (jpegFile segs (exifHead m hi lo p1 p2 ++ e :: tail)).get? (12 + skippedLength segs) =
      some e ∧
    (segs = [] → 12 + skippedLength segs = 12) ∧
    (∀ s, segs = [s] → 12 + skippedLength segs = s.declared + 14) := by
  have hlen := segsBytes_length segs hs
  have hfile : jpegFile segs (exifHead m hi lo p1 p2 ++ e :: tail) =
      ([0xFF, 0xD8] ++ segsBytes segs ++ exifHead m hi lo p1 p2) ++ e :: tail := by
    simp [jpegFile]
  have hpre : ([0xFF, 0xD8] ++ segsBytes segs ++ exifHead m hi lo p1 p2).length =
      12 + skippedLength segs := by
    simp [exifHead, hlen]
    omega
  refine ⟨?_, ?_, ?_, ?_⟩
  · obtain ⟨a1, b1, hskip⟩ := skipSegments_skip (exifHead m hi lo p1 p2 ++ e :: tail)
      (by simp [exifHead]) (exifHead_not_skip m hi lo p1 p2 e tail) segs hs fuel [0xFF, 0xD8]
      0xFF 0xD8 false hfuel
    have hmin : min 10 (exifHead m hi lo p1 p2 ++ e :: tail).length = 10 := by
      simp [exifHead]
    rw [hmin] at hskip
    unfold locate
    rw [show jpegFile segs (exifHead m hi lo p1 p2 ++ e :: tail) =
      [0xFF, 0xD8] ++ (segsBytes segs ++ (exifHead m hi lo p1 p2 ++ e :: tail)) from rfl]
    rw [jpeg_start _ (segs_cur_length segs _ hs (by
      simp [exifHead]
      split <;> omega))]
    dsimp only
    rw [if_neg (not_tiff_of_ff _), if_pos (jpeg_soi _)]
    rw [show ([0xFF, 0xD8] : List UInt8).length = 2 from rfl] at hskip
    rw [hskip]
    dsimp only
    rw [if_pos (exifHead_marked a1 b1 m hi lo p1 p2 e tail)]
    have hs0 : ∀ (f : File), f.seekCur 0 = f := by
      intro f
      unfold File.seekCur
      simp
    rw [hs0]
    dsimp only
    have hread := read_one ([0xFF, 0xD8] ++ segsBytes segs ++ exifHead m hi lo p1 p2) e tail
    rw [hpre] at hread
    have hD : [0xFF, 0xD8] ++ (segsBytes segs ++ (exifHead m hi lo p1 p2 ++ e :: tail)) =
        ([0xFF, 0xD8] ++ segsBytes segs ++ exifHead m hi lo p1 p2) ++ e :: tail := by
      simp
    rw [hD, show 2 + skippedLength segs + 10 = 12 + skippedLength segs by omega, hread]
    simp
  · rw [hfile, ← hpre, List.get?_eq_getElem?, List.getElem?_append_right (le_refl _)]
    simp
  · intro h
    rw [h]
    rfl
  · intro s h
    rw [h]
    simp [skippedLength]
    omega

theorem char_toNat (b : UInt8) : (Char.ofNat b.toNat).toNat = b.toNat := by
  have hb := byte_lt b
  have h : b.toNat.isValidChar := Or.inl (by omega)
  rw [Char.ofNat, dif_pos h]
  simp [Char.ofNatAux, Char.toNat, UInt32.toNat]

theorem bytesToString_inj (a b : List UInt8) (h : bytesToString a = bytesToString b) :
    a = b := by
  unfold bytesToString at h
  have h1 := congrArg String.data h
  dsimp only at h1
  refine List.map_injective_iff.2 ?_ h1
  intro x y hxy
  have := congrArg Char.toNat hxy
  simp only [char_toNat] at this
  exact UInt8.eq_of_val_eq (Fin.ext this)

theorem exif_segment_located_witness :
    (∀ s ∈ [jfifSegment], s.skippable) ∧
    locate 2 ⟨jpegFile [jfifSegment] (exifHead 0xE1 0x00 0x10 0x00 0x00 ++ 0x4D :: tiffEmpty.tail), 0⟩ =
      some (.found ⟨jpegFile [jfifSegment]
        (exifHead 0xE1 0x00 0x10 0x00 0x00 ++ 0x4D :: tiffEmpty.tail), 31⟩ 0x4D 30 true) ∧
    locate 1 ⟨jpegFile [] (exifHead 0xE1 0x00 0x10 0x00 0x00 ++ 0x4D :: tiffEmpty.tail), 0⟩ =
      some (.found ⟨jpegFile []
        (exifHead 0xE1 0x00 0x10 0x00 0x00 ++ 0x4D :: tiffEmpty.tail), 13⟩ 0x4D 12 false) :=
  ⟨by decide,
   (exif_segment_located [jfifSegment] 0xE1 0x00 0x10 0x00 0x00 0x4D tiffEmpty.tail 2
      (by decide) (by decide)).1,
   (exif_segment_located [] 0xE1 0x00 0x10 0x00 0x00 0x4D tiffEmpty.tail 1
      (by decide) (by decide)).1⟩

theorem readAtLeast_one (D : List UInt8) (p : Nat) (h : p < D.length) :
    File.readAtLeast ⟨D, p⟩ 1 = (.ok [D.getD p 0], ⟨D, p + 1⟩) := by
  have hd : (D.drop p).take 1 = [D.getD p 0] := by
    rw [List.getD_eq_getElem _ _ h, List.drop_eq_getElem_cons h]
    rfl
  unfold File.readAtLeast
  dsimp only
  rw [if_neg (by decide), if_neg (by omega), if_neg (by omega), hd]

theorem tiff_located (data : List UInt8) (fuel : Nat) (h12 : 12 ≤ data.length)
    (h : data.take 4 = [0x49, 0x49, 0x2A, 0x00] ∨ data.take 4 = [0x4D, 0x4D, 0x00, 0x2A]) :
    locate fuel ⟨data, 0⟩ = some (.found ⟨data, 2⟩ (data.getD 1 0) 0 false) := by
  have hs : sliceString (data.take 12) 0 4 = bytesToString (data.take 4) := by
    unfold sliceString
    rw [List.drop_zero, List.take_take]
    rfl
  have hc : ["II*\x00", "MM\x00*"].contains (sliceString (data.take 12) 0 4) = true := by
    rw [hs]
    rcases h with h | h <;> rw [h] <;> decide
  unfold locate
  rw [readAtLeast_start data h12]
  dsimp only
  rw [if_pos hc]
  have hseek : (File.mk data 12).seekStart 0 = ⟨data, 0⟩ := by
    unfold File.seekStart
    simp
  rw [hseek, readAtLeast_one data 0 (by omega)]
  dsimp only
  rw [readAtLeast_one data 1 (by omega)]
  rfl

/-- C15: for every input of at least 12 bytes (fewer make the first read fail, and no
header is built) whose first four bytes are "II*\0" or "MM\0*", the header that
`ProcessFile` builds has the offset 0, `fakeExif = false` and an endian byte equal to the
first byte of the input, 'I' resp. 'M': the second read of the endian byte takes the
second byte of the input, which is the same letter. -/
theorem tiff_header_built (data : List UInt8) (fuel : Nat) (strict : Bool)
    (h12 : 12 ≤ data.length)
    (h : data.take 4 = [0x49, 0x49, 0x2A, 0x00] ∨ data.take 4 = [0x4D, 0x4D, 0x00, 0x2A]) :
    ∃ hdr, builtHeader fuel ⟨data, 0⟩ strict = some hdr ∧
      hdr.offset = 0 ∧ hdr.fakeExif = false ∧ some hdr.endian = data.head? ∧
      hdr.endian = data.getD 1 0 ∧
      (data.take 4 = [0x49, 0x49, 0x2A, 0x00] → hdr.endian = 0x49) ∧
      (data.take 4 = [0x4D, 0x4D, 0x00, 0x2A] → hdr.endian = 0x4D) ∧
      hdr.file = ⟨data, 2⟩ ∧ hdr.strict = strict ∧ hdr.tags = [] := by
  refine ⟨newExifHeader ⟨data, 2⟩ (data.getD 1 0) 0 false strict, ?_, rfl, rfl, ?_, rfl, ?_, ?_,
    rfl, rfl, rfl⟩
  · unfold builtHeader
    rw [tiff_located data fuel h12 h]
  · match data, h with
    | x0 :: x1 :: x2 :: x3 :: rest, h =>
      simp only [List.take, List.cons.injEq] at h
      rcases h with ⟨h0, h1, _⟩ | ⟨h0, h1, _⟩ <;> simp [newExifHeader, h0, h1]
    | [], h => simp at h
    | [_], h => simp at h
    | [_, _], h => simp at h
    | [_, _, _], h => simp at h
  · intro h4
    match data, h4 with
    | x0 :: x1 :: x2 :: x3 :: rest, h =>
      simp only [List.take, List.cons.injEq] at h
      simp [newExifHeader, h.2.1]
  · intro h4
    match data, h4 with
    | x0 :: x1 :: x2 :: x3 :: rest, h =>
      simp only [List.take, List.cons.injEq] at h
      simp [newExifHeader, h.2.1]

theorem tiff_header_built_witness :
    ∃ hdr, builtHeader 0 ⟨tiffSorted.data, 0⟩ false = some hdr ∧
      hdr.offset = 0 ∧ hdr.fakeExif = false ∧ some hdr.endian = tiffSorted.data.head? ∧
      hdr.endian = tiffSorted.data.getD 1 0 ∧
      (tiffSorted.data.take 4 = [0x49, 0x49, 0x2A, 0x00] → hdr.endian = 0x49) ∧
      (tiffSorted.data.take 4 = [0x4D, 0x4D, 0x00, 0x2A] → hdr.endian = 0x4D) ∧
      hdr.file = ⟨tiffSorted.data, 2⟩ ∧ hdr.strict = false ∧ hdr.tags = [] :=
  tiff_header_built tiffSorted.data 0 false (by decide) (Or.inr (by decide))

theorem locate_unrecognised (data : List UInt8) (fuel : Nat) (h12 : 12 ≤ data.length)
    (hI : data.take 4 ≠ [0x49, 0x49, 0x2A, 0x00]) (hM : data.take 4 ≠ [0x4D, 0x4D, 0x00, 0x2A])
    (hJ : data.take 2 ≠ [0xFF, 0xD8]) :
    locate fuel ⟨data, 0⟩ = some .noExif := by
  have hs4 : sliceString (data.take 12) 0 4 = bytesToString (data.take 4) := by
    unfold sliceString
    rw [List.drop_zero, List.take_take]
    rfl
  have hs2 : sliceString (data.take 12) 0 2 = bytesToString (data.take 2) := by
    unfold sliceString
    rw [List.drop_zero, List.take_take]
    rfl
  have hc : ¬ (["II*\x00", "MM\x00*"].contains (sliceString (data.take 12) 0 4) = true) := by
    intro h
    have hm := List.mem_of_elem_eq_true h
    rw [hs4] at hm
    simp only [List.mem_cons, List.mem_singleton, List.not_mem_nil, or_false] at hm
    rcases hm with hm | hm
    · exact hI (bytesToString_inj _ [0x49, 0x49, 0x2A, 0x00] (hm.trans (by decide)))
    · exact hM (bytesToString_inj _ [0x4D, 0x4D, 0x00, 0x2A] (hm.trans (by decide)))
  have hj : ¬ (sliceString (data.take 12) 0 2 = "\xFF\xD8") := by
    intro h
    rw [hs2] at h
    exact hJ (bytesToString_inj _ [0xFF, 0xD8] (h.trans (by decide)))
  unfold locate
  rw [readAtLeast_start data h12]
  dsimp only
  rw [if_neg hc, if_neg hj]

theorem locate_jpeg_no_exif (segs : List Segment) (rest : List UInt8) (fuel : Nat)
    (hs : ∀ s ∈ segs, s.skippable) (hfuel : segs.length < fuel)
    (hr : (if segs = [] then 10 else 1) ≤ rest.length)
    (hn : ¬ skipHeader ([0xFF, 0x00] ++ window rest))
    (he : ¬ exifMarked ([0xFF, 0x00] ++ window rest)) :
    locate fuel ⟨jpegFile segs rest, 0⟩ = some .noExif := by
  have hr0 : rest ≠ [] := by
    intro h
    rw [h] at hr
    split at hr <;> simp at hr
  obtain ⟨a1, b1, hskip⟩ := skipSegments_skip rest hr0 hn segs hs fuel [0xFF, 0xD8]
    0xFF 0xD8 false hfuel
  have he' : ¬ (([a1, b1] ++ window rest).getD 2 0 = 0xFF ∧
      sliceString ([a1, b1] ++ window rest) 6 10 = "Exif") :=
    fun h => he ((exifMarked_congr a1 b1 0xFF 0x00 _).1 h)
  unfold locate jpegFile
  rw [jpeg_start _ (segs_cur_length segs _ hs hr)]
  dsimp only
  rw [if_neg (not_tiff_of_ff _), if_pos (jpeg_soi _)]
  rw [show ([0xFF, 0xD8] : List UInt8).length = 2 from rfl] at hskip
  rw [hskip]
  dsimp only
  rw [if_neg he']

/-- C16, counterexample: two JPEG inputs without an Exif segment for which `ProcessFile`
does not return an empty mapping and no error.  For a file that ends with its JFIF
segment the read after the skip returns `io.EOF`, which `ProcessFile` returns; for a JFIF
segment with the declared length 4 the `make` of line 103 has a negative length and
panics. -/
theorem jpeg_without_exif_fails :
    jpegJfifOnly.data.take 2 = [0xFF, 0xD8] ∧
    ProcessFile quoteAscii 2 jpegJfifOnly "" true false = some (.returned none (some .eof)) ∧
    ProcessFile quoteAscii 2 jpegShortSegment "" true false = some .panicked := by
  refine ⟨by decide, by decide, by decide⟩

/-- C16, amended: `ProcessFile` returns the nil mapping and no error (1) for every input
of at least 12 bytes whose first four bytes are neither "II*\0" nor "MM\0*" and whose
first two bytes are not FF D8, and (2) for every JPEG input made of FF D8, any number
of complete segments with a signature JFIF, JFXX, OLYM or Phot and a declared length of
at least 8, and further bytes `rest` (at least ten when no segment is skipped, at least
one otherwise) whose first ten bytes are neither the head of a segment with one of the
four signatures nor the head of an Exif segment. -/
theorem no_exif_no_error (quote : String → String) (fuel : Nat) (data : List UInt8)
    (stop_tag : String) (details strict : Bool) (segs : List Segment) (rest : List UInt8)
    (h : (12 ≤ data.length ∧ data.take 4 ≠ [0x49, 0x49, 0x2A, 0x00] ∧
          data.take 4 ≠ [0x4D, 0x4D, 0x00, 0x2A] ∧ data.take 2 ≠ [0xFF, 0xD8]) ∨
         (data = jpegFile segs rest ∧ (∀ s ∈ segs, s.skippable) ∧ segs.length < fuel ∧
          (if segs = [] then 10 else 1) ≤ rest.length ∧
          ¬ skipHeader ([0xFF, 0x00] ++ window rest) ∧
          ¬ exifMarked ([0xFF, 0x00] ++ window rest))) :
    ProcessFile quote fuel ⟨data, 0⟩ stop_tag details strict = some (.returned none none) := by
  have hloc : locate fuel ⟨data, 0⟩ = some .noExif := by
    rcases h with ⟨h12, hI, hM, hJ⟩ | ⟨hd, hs, hf, hr, hn, he⟩
    · exact locate_unrecognised data fuel h12 hI hM hJ
    · rw [hd]
      exact locate_jpeg_no_exif segs rest fuel hs hf hr hn he
  unfold ProcessFile
  dsimp only
  rw [hloc]

theorem no_exif_no_error_witness :
    ProcessFile quoteAscii 0 ⟨"GIF89a and more".data.map (fun c => c.toNat.toUInt8), 0⟩
      "" true false = some (.returned none none) ∧
    ProcessFile quoteAscii 2 ⟨jpegFile [jfifSegment] [0xFF, 0xD9], 0⟩ "" true false =
      some (.returned none none) :=
  ⟨no_exif_no_error quoteAscii 0 _ "" true false [] []
     (Or.inl ⟨by decide, by decide, by decide, by decide⟩),
   no_exif_no_error quoteAscii 2 _ "" true false [jfifSegment] [0xFF, 0xD9]
     (Or.inr ⟨rfl, by decide, by decide, by decide, by decide, by decide⟩)⟩

/-! ## The printable of a UserComment (C18) -/

/-- The transform `makestringuc` returns "" whenever the first value has fewer than eight
bytes, as the decimal rendering of a byte always has. -/
theorem makestringuc_short (v : String) (rest : List String) (h : v.data.length < 8) :
    makestringuc (v :: rest) = "" := by
  unfold makestringuc
  dsimp only
  rw [if_neg (by omega)]
  rfl

/-- C18: a UserComment of type 7 and count 10 whose bytes are "ASCII", three NUL bytes
and "Hi".  `makestring` of the bytes after the character-set code is "Hi", and
`makestringuc` handed the ten bytes as one string returns it; but `dumpIfd` hands
`makestringuc` the values, the decimal renderings of the single bytes, whose first
element "65" has fewer than eight bytes: the printable stored under "EXIF UserComment"
is "". -/
theorem user_comment_printable_empty :
    ((tiffUserComment.seekStart 44).read 10).1 =
      .ok [0x41, 0x53, 0x43, 0x49, 0x49, 0x00, 0x00, 0x00, 0x48, 0x69] ∧
    makestring [bytesToString [0x48, 0x69]] = "Hi" ∧
    makestringuc [bytesToString [0x41, 0x53, 0x43, 0x49, 0x49, 0x00, 0x00, 0x00, 0x48, 0x69]] =
      "Hi" ∧
    makestringuc ["65", "83", "67", "73", "73", "0", "0", "0", "72", "105"] = "" ∧
    ProcessFile quoteAscii 10 tiffUserComment "" true false =
      some (.returned (some
        [("EXIF UserComment", ⟨"", 0x9286, 7, 44, 10,
            ["65", "83", "67", "73", "73", "0", "0", "0", "72", "105"]⟩),
         ("Image ExifOffset", ⟨"26", 0x8769, 4, 18, 4, ["26"]⟩)]) none) := by
  refine ⟨by decide, by decide, by decide, by decide, by decide⟩

/-! ## What a stored tag holds (C17, C19, C20) -/

theorem decodeEntry_rich (quote : String → String) (ifd : Int)
    (ifdname : String) (dict : List (Int × exifTag)) (relative : Int) (entry tag : Int)
    (eh : exifHeader) :
    posOnly eh (decodeEntry quote ifd ifdname dict relative entry tag eh).2 ∨
    ∃ (te : exifTag) (t : IfdTag) (a0 : exifHeader),
      posOnly eh a0 ∧ dict.lookup tag = some te ∧ t.tag = tag ∧ decoded quote dict te t ∧
      (decodeEntry quote ifd ifdname dict relative entry tag eh).2 =
        { a0 with tags := a0.tags.set (ifdname ++ " " ++ te.name) t } := by
  unfold decodeEntry
  rcases h2 : s2n eh (wrap64 (entry + 2)) 2 false with ⟨r2, e2⟩
  have p2 := s2n_posOnly h2
  cases r2 with
  | error e => exact Or.inl p2
  | ok fieldtype =>
    dsimp only
    split
    · split <;> exact Or.inl p2
    · next hft =>
      rcases h3 : s2n e2 (wrap64 (entry + 4)) 4 false with ⟨r3, e3⟩
      have p3 := posOnly_trans p2 (s2n_posOnly h3)
      cases r3 with
      | error e => exact Or.inl p3
      | ok count =>
        dsimp only
        have hcount : 0 ≤ count ∧ count < 2 ^ (8 * 4) :=
          s2n_unsigned_bound (le_refl 4) (by rw [h3])
        rcases h4 : valueOffset e3 ifd relative count
          (FIELD_TYPES.getD fieldtype.toNat ⟨0, "", ""⟩).Size (wrap64 (entry + 8))
          with ⟨r4, e4⟩
        have p4 := posOnly_trans p3 (valueOffset_posOnly h4)
        cases r4 with
        | error e => exact Or.inl p4
        | ok offset =>
          dsimp only
          rcases h5 : readValues e4 (tagName dict tag) fieldtype count
            (FIELD_TYPES.getD fieldtype.toNat ⟨0, "", ""⟩).Size offset with ⟨r5, e5⟩
          have p5 := posOnly_trans p4 (readValues_posOnly h5)
          cases r5 with
          | error e => exact Or.inl p5
          | ok values =>
            dsimp only
            rcases hd : dict.lookup tag with _ | te
            · exact Or.inl p5
            · dsimp only
              rcases hp : tagPrintable te values (printableOf quote count fieldtype values)
                with e | printable
              · exact Or.inl p5
              · have hname : tagName dict tag = te.name := by
                  unfold tagName; rw [hd]
                rw [hname]
                simp only [Bool.not_eq_true', Bool.not_eq_false, Bool.and_eq_true,
                  decide_eq_true_eq] at hft
                refine Or.inr ⟨te, _, e5, p5, rfl, rfl, ?_, rfl⟩
                refine ⟨count, e4, e5, hcount.1, by simpa using hcount.2, hft.1, ?_, h5, rfl, hp⟩
                simpa [FIELD_TYPES] using hft.2

theorem dumpEntry_rich (quote : String → String) (detailed : Bool) (ifd : Int)
    (ifdname : String) (dict : List (Int × exifTag)) (relative : Int) (stoptag : String)
    (i : Nat) (eh : exifHeader) :
    posOnly eh (dumpEntry quote detailed ifd ifdname dict relative stoptag i eh).2 ∨
    ∃ (te : exifTag) (t : IfdTag) (a0 : exifHeader),
      posOnly eh a0 ∧ dict.lookup t.tag = some te ∧ decoded quote dict te t ∧
      (dumpEntry quote detailed ifd ifdname dict relative stoptag i eh).2 =
        { a0 with tags := a0.tags.set (ifdname ++ " " ++ te.name) t } := by
  unfold dumpEntry
  dsimp only
  rcases h1 : s2n eh (wrap64 (ifd + 2 + 12 * (i : Int))) 2 false with ⟨r1, e1⟩
  have p1 := s2n_posOnly h1
  cases r1 with
  | error e => exact Or.inl p1
  | ok tag =>
    dsimp only
    split
    · have hd := decodeEntry_rich quote ifd ifdname dict relative
        (wrap64 (ifd + 2 + 12 * (i : Int))) tag e1
      rcases hr : decodeEntry quote ifd ifdname dict relative
        (wrap64 (ifd + 2 + 12 * (i : Int))) tag e1 with ⟨c, e2⟩
      rw [hr] at hd
      have hd2 : posOnly eh e2 ∨ ∃ (te : exifTag) (t : IfdTag) (a0 : exifHeader),
          posOnly eh a0 ∧ dict.lookup t.tag = some te ∧ decoded quote dict te t ∧
          e2 = { a0 with tags := a0.tags.set (ifdname ++ " " ++ te.name) t } := by
        rcases hd with h | ⟨te, t, a0, hp, hl, ht, hdec, he⟩
        · exact Or.inl (posOnly_trans p1 h)
        · exact Or.inr ⟨te, t, a0, posOnly_trans p1 hp, by rw [ht]; exact hl, hdec, he⟩
      cases c with
      | none => dsimp only; rw [stopCheck_snd]; exact hd2
      | some ctl => exact hd2
    · rw [stopCheck_snd]; exact Or.inl p1

theorem dumpEntry_rich_inv (P : String → IfdTag → Prop) (quote : String → String)
    (detailed : Bool) (ifd : Int) (ifdname : String) (dict : List (Int × exifTag))
    (relative : Int) (stoptag : String) (i : Nat) (eh : exifHeader)
    (hP : ∀ (te : exifTag) (t : IfdTag), dict.lookup t.tag = some te →
      decoded quote dict te t → P (ifdname ++ " " ++ te.name) t)
    (h0 : ∀ k t, (k, t) ∈ eh.tags → P k t) :
    ∀ k t, (k, t) ∈ (dumpEntry quote detailed ifd ifdname dict relative stoptag i eh).2.tags →
      P k t := by
  intro k t hk
  rcases dumpEntry_rich quote detailed ifd ifdname dict relative stoptag i eh with h | h
  · rw [posOnly_tags h] at hk; exact h0 k t hk
  · obtain ⟨te, t1, a0, hp, hd, hdec, heq⟩ := h
    rw [heq] at hk
    simp only at hk
    rcases set_mem hk with h1 | h1
    · simp only [Prod.mk.injEq] at h1
      rw [h1.1, h1.2]
      exact hP te t1 hd hdec
    · rw [posOnly_tags hp] at h1; exact h0 k t h1

theorem dumpLoop_rich_inv (P : String → IfdTag → Prop) (quote : String → String)
    (detailed : Bool) (ifd : Int) (ifdname : String) (dict : List (Int × exifTag))
    (relative : Int) (stoptag : String)
    (hP : ∀ (te : exifTag) (t : IfdTag), dict.lookup t.tag = some te →
      decoded quote dict te t → P (ifdname ++ " " ++ te.name) t) :
    ∀ (n i : Nat) (eh : exifHeader), (∀ k t, (k, t) ∈ eh.tags → P k t) →
      ∀ k t, (k, t) ∈ (dumpLoop quote detailed ifd ifdname dict relative stoptag n i eh).2.tags →
        P k t := by
  intro n
  induction n with
  | zero => intro i eh h0 k t hk; exact h0 k t hk
  | succ n ih =>
    intro i eh h0 k t hk
    have hstep := dumpEntry_rich_inv P quote detailed ifd ifdname dict relative stoptag i eh hP h0
    simp only [dumpLoop] at hk
    rcases hd : dumpEntry quote detailed ifd ifdname dict relative stoptag i eh with ⟨ctl, e1⟩
    rw [hd] at hk hstep
    cases ctl with
    | next => exact ih (i + 1) e1 hstep k t hk
    | stop => exact hstep k t hk
    | fail e => exact hstep k t hk

theorem dumpIfd_storedBy (quote : String → String) (detailed : Bool) (eh : exifHeader)
    (ifd : Int) (ifdname : String) (dict : List (Int × exifTag)) (stoptag : String)
    (hw : walked ifdname dict) (h0 : ∀ k t, (k, t) ∈ eh.tags → storedBy quote k t) :
    ∀ k t, (k, t) ∈ (dumpIfd quote detailed eh ifd ifdname (some dict) 0 stoptag).2.tags →
      storedBy quote k t := by
  intro k t hk
  unfold dumpIfd at hk
  dsimp only at hk
  rcases h1 : s2n eh ifd 2 false with ⟨r1, e1⟩
  rw [h1] at hk
  have p1 := s2n_posOnly h1
  cases r1 with
  | error e => rw [posOnly_tags p1] at hk; exact h0 k t hk
  | ok entries =>
    refine dumpLoop_rich_inv (storedBy quote) quote detailed ifd ifdname dict 0 _
      (fun te t hd hdec => ⟨ifdname, dict, te, hw, hd, rfl, hdec⟩) _ _ e1 ?_ k t hk
    intro k t hk; rw [posOnly_tags p1] at hk; exact h0 k t hk

theorem followOffset_storedBy (quote : String → String) (detailed : Bool)
    (stop_tag key ifdname : String) (dict : List (Int × exifTag)) (hdr hdr1 : exifHeader)
    (b : Bool) (hw : walked ifdname dict)
    (h : followOffset quote detailed stop_tag key ifdname dict hdr = some (b, hdr1))
    (h0 : ∀ k t, (k, t) ∈ hdr.tags → storedBy quote k t) :
    ∀ k t, (k, t) ∈ hdr1.tags → storedBy quote k t := by
  unfold followOffset at h
  split at h
  · simp only [Option.some.injEq, Prod.mk.injEq] at h
    rw [← h.2]; exact h0
  · split at h
    · simp at h
    · simp only [Option.some.injEq, Prod.mk.injEq] at h
      rw [← h.2]
      exact dumpIfd_storedBy quote detailed hdr _ ifdname dict stop_tag hw h0

theorem exifStage_storedBy (quote : String → String) (detailed : Bool)
    (stop_tag ifdname : String) (hdr hdr1 : exifHeader)
    (h : exifStage quote detailed stop_tag ifdname hdr = some hdr1)
    (h0 : ∀ k t, (k, t) ∈ hdr.tags → storedBy quote k t) :
    ∀ k t, (k, t) ∈ hdr1.tags → storedBy quote k t := by
  unfold exifStage at h
  rcases hE : followOffset quote detailed stop_tag (ifdname ++ " ExifOffset") "EXIF" exifTags
    hdr with _ | ⟨b, hB1⟩
  · rw [hE] at h; simp at h
  · rw [hE] at h
    have hB := followOffset_storedBy quote detailed stop_tag _ "EXIF" exifTags hdr hB1 b
      (Or.inr (Or.inl ⟨rfl, rfl⟩)) hE h0
    cases b with
    | false => simp only [Option.some.injEq] at h; rw [← h]; exact hB
    | true =>
      dsimp only at h
      rcases hI : followOffset quote detailed stop_tag "EXIF SubIFD InteroperabilityOffset"
        "EXIF Interoperability" interTags hB1 with _ | ⟨b2, hI1⟩
      · rw [hI] at h; simp at h
      · rw [hI] at h
        simp only [Option.some.injEq] at h
        rw [← h]
        exact followOffset_storedBy quote detailed stop_tag _ "EXIF Interoperability"
          interTags hB1 hI1 b2 (Or.inr (Or.inr (Or.inl ⟨rfl, rfl⟩))) hI hB

theorem gpsStage_storedBy (quote : String → String) (detailed : Bool)
    (stop_tag ifdname : String) (hdr hdr1 : exifHeader)
    (h : gpsStage quote detailed stop_tag ifdname hdr = some hdr1)
    (h0 : ∀ k t, (k, t) ∈ hdr.tags → storedBy quote k t) :
    ∀ k t, (k, t) ∈ hdr1.tags → storedBy quote k t := by
  unfold gpsStage at h
  rcases hE : followOffset quote detailed stop_tag (ifdname ++ " GPSInfo") "GPS" gpsTags
    hdr with _ | ⟨b, hB1⟩
  · rw [hE] at h; simp at h
  · rw [hE] at h
    simp only [Option.some.injEq] at h
    rw [← h]
    exact followOffset_storedBy quote detailed stop_tag _ "GPS" gpsTags hdr hB1 b
      (Or.inr (Or.inr (Or.inr ⟨rfl, rfl⟩))) hE h0

theorem processIfd_storedBy (quote : String → String) (detailed : Bool) (stop_tag : String)
    (ctr : Nat) (i : Int) (hdr hdr1 : exifHeader)
    (h : processIfd quote detailed stop_tag ctr i hdr = some hdr1)
    (h0 : ∀ k t, (k, t) ∈ hdr.tags → storedBy quote k t) :
    ∀ k t, (k, t) ∈ hdr1.tags → storedBy quote k t := by
  unfold processIfd at h
  dsimp only at h
  have hA := dumpIfd_storedBy quote detailed hdr i _ exifTags stop_tag (walked_listed ctr) h0
  rcases hE : exifStage quote detailed stop_tag (ifdName ctr)
    (dumpIfd quote detailed hdr i (ifdName ctr) (some exifTags) 0 stop_tag).2 with _ | hB1
  · rw [hE] at h; simp at h
  · rw [hE] at h
    exact gpsStage_storedBy quote detailed stop_tag _ hB1 hdr1 h
      (exifStage_storedBy quote detailed stop_tag _ _ hB1 hE hA)

theorem processIfds_storedBy (quote : String → String) (detailed : Bool) (stop_tag : String) :
    ∀ (l : List Int) (ctr : Nat) (hdr hdr1 : exifHeader),
      processIfds quote detailed stop_tag l ctr hdr = some hdr1 →
      (∀ k t, (k, t) ∈ hdr.tags → storedBy quote k t) →
      ∀ k t, (k, t) ∈ hdr1.tags → storedBy quote k t := by
  intro l
  induction l with
  | nil =>
    intro ctr hdr hdr1 h h0
    rw [processIfds_nil] at h
    cases h
    exact h0
  | cons i rest ih =>
    intro ctr hdr hdr1 h h0
    rw [processIfds_cons] at h
    rcases hp : processIfd quote detailed stop_tag ctr i hdr with _ | hA1
    · rw [hp] at h; simp at h
    · rw [hp] at h
      exact ih (ctr + 1) hA1 hdr1 h (processIfd_storedBy quote detailed stop_tag ctr i hdr hA1 hp h0)

theorem ProcessFile_storedBy (quote : String → String) (fuel : Nat) (f : File)
    (stop_tag : String) (details strict : Bool) (m : TagMap) (err : Option GoError)
    (h : ProcessFile quote fuel f stop_tag details strict = some (.returned (some m) err)) :
    ∀ k t, (k, t) ∈ m → storedBy quote k t := by
  unfold ProcessFile at h
  dsimp only at h
  rcases hl : locate fuel f with _ | env
  · rw [hl] at h; simp at h
  · rw [hl] at h
    cases env with
    | panicked => simp at h
    | failed e => simp at h
    | noExif => simp at h
    | found f1 endian offset fakeexif =>
      dsimp only at h
      rcases hi : listIfds fuel (newExifHeader f1 endian offset fakeexif strict)
        with _ | ⟨r, hdr⟩
      · rw [hi] at h; simp at h
      · rw [hi] at h
        cases r with
        | error e => simp at h
        | ok ifdlist =>
          dsimp only at h
          have htags : hdr.tags = [] := posOnly_tags (listIfds_posOnly hi)
          rcases hp : processIfds quote details
            (if stop_tag.length = 0 then "UNDEF" else stop_tag) ifdlist 0 hdr with _ | hdr1
          · rw [hp] at h; simp at h
          · rw [hp] at h
            simp only [Option.some.injEq] at h
            have hm := (finish_tags h).1
            rw [hm]
            refine processIfds_storedBy quote details _ ifdlist 0 hdr hdr1 hp ?_
            intro k t hk
            rw [htags] at hk
            simp at hk

theorem fieldsPrintable_ok (fields : List (Int × String)) :
    ∀ (values : List String) (acc p : String), fieldsPrintable fields values acc = .ok p →
      p = acc ++ enumPrintable fields values ∧ ∀ v ∈ values, (atoi v).2 = none := by
  intro values
  induction values with
  | nil =>
    intro acc p h
    simp only [fieldsPrintable, Except.ok.injEq] at h
    refine ⟨?_, by simp⟩
    rw [← h, enumPrintable, String.append_empty]
  | cons v rest ih =>
    intro acc p h
    rw [fieldsPrintable] at h
    rcases ha : atoi v with ⟨j, err⟩
    rw [ha] at h
    cases err with
    | some e => simp at h
    | none =>
      dsimp only at h
      have hhead : enumPrintable fields (v :: rest) =
          (match fields.lookup j with
            | some s => s
            | none => v) ++ enumPrintable fields rest := by
        rw [enumPrintable, ha]
      rcases hl : fields.lookup j with _ | s
      · rw [hl] at h hhead
        dsimp only at h hhead
        obtain ⟨h1, h2⟩ := ih _ _ h
        refine ⟨?_, ?_⟩
        · rw [h1, hhead, String.append_assoc]
        · intro w hw
          rcases List.mem_cons.1 hw with hw | hw
          · rw [hw, ha]
          · exact h2 w hw
      · rw [hl] at h hhead
        dsimp only at h hhead
        obtain ⟨h1, h2⟩ := ih _ _ h
        refine ⟨?_, ?_⟩
        · rw [h1, hhead, String.append_assoc]
        · intro w hw
          rcases List.mem_cons.1 hw with hw | hw
          · rw [hw, ha]
          · exact h2 w hw

/-- C17: every tag in the map that `ProcessFile` returns was stored under the IFD name and
the name of its dictionary entry; when that entry has a table of value names and no
transform, every value is a decimal integer and the printable is the concatenation, in
order and without separator, of the name that the table gives to each value that is a
key of it and of the value itself otherwise. -/
theorem enum_printable (quote : String → String) (fuel : Nat) (f : File)
    (stop_tag : String) (details strict : Bool) (m : TagMap) (err : Option GoError)
    (k : String) (t : IfdTag)
    (h : ProcessFile quote fuel f stop_tag details strict = some (.returned (some m) err))
    (hk : m.get k = some t) :
    ∃ (ifdname : String) (dict : List (Int × exifTag)) (te : exifTag),
      walked ifdname dict ∧ dict.lookup t.tag = some te ∧ k = ifdname ++ " " ++ te.name ∧
      ∀ fields, te.fields = some fields → te.function = none →
        t.Printable = enumPrintable fields t.Values ∧ ∀ v ∈ t.Values, (atoi v).2 = none := by
  obtain ⟨ifdname, dict, te, hw, hl, hkey, count, eh, eh1, _, _, _, _, _, _, hp⟩ :=
    ProcessFile_storedBy quote fuel f stop_tag details strict m err h k t (get_some_mem m hk)
  refine ⟨ifdname, dict, te, hw, hl, hkey, ?_⟩
  intro fields hf hfun
  unfold tagPrintable at hp
  rw [hfun, hf] at hp
  dsimp only at hp
  have := fieldsPrintable_ok fields _ _ _ hp
  rw [String.empty_append] at this
  exact this

theorem enum_printable_witness :
    (exifTags.lookup 0x0112).bind (fun te => te.fields.bind (fun fs => fs.lookup 6)) =
      some "Rotated 90 CW" ∧
    enumPrintable [(6, "Rotated 90 CW")] ["6", "7"] = "Rotated 90 CW7" ∧
    ∃ (ifdname : String) (dict : List (Int × exifTag)) (te : exifTag),
      walked ifdname dict ∧ dict.lookup 0x0112 = some te ∧
      "Image Orientation" = ifdname ++ " " ++ te.name ∧
      ∀ fields, te.fields = some fields → te.function = none →
        "Rotated 90 CW" = enumPrintable fields ["6"] ∧ ∀ v ∈ ["6"], (atoi v).2 = none :=
  ⟨by decide, by decide,
   enum_printable quoteAscii 10 tiffIgnored "" true false tagsIgnored none "Image Orientation"
     ⟨"Rotated 90 CW", 0x0112, 3, 18, 2, ["6"]⟩ (by decide) (by decide)⟩

theorem dumpIfd_rich_inv (P : String → IfdTag → Prop) (quote : String → String)
    (detailed : Bool) (eh : exifHeader) (ifd : Int) (ifdname : String)
    (dict : List (Int × exifTag)) (relative : Int) (stoptag : String)
    (hP : ∀ (te : exifTag) (t : IfdTag), dict.lookup t.tag = some te →
      decoded quote dict te t → P (ifdname ++ " " ++ te.name) t)
    (h0 : ∀ k t, (k, t) ∈ eh.tags → P k t) :
    ∀ k t, (k, t) ∈ (dumpIfd quote detailed eh ifd ifdname (some dict) relative stoptag).2.tags →
      P k t := by
  intro k t hk
  unfold dumpIfd at hk
  dsimp only at hk
  rcases h1 : s2n eh ifd 2 false with ⟨r1, e1⟩
  rw [h1] at hk
  have p1 := s2n_posOnly h1
  cases r1 with
  | error e => rw [posOnly_tags p1] at hk; exact h0 k t hk
  | ok entries =>
    refine dumpLoop_rich_inv P quote detailed ifd ifdname dict relative _ hP _ _ e1 ?_ k t hk
    intro k t hk; rw [posOnly_tags p1] at hk; exact h0 k t hk

theorem readValuesLoop_length (ratios : Bool) (fieldtype : Int) (typelen : Nat) (signed : Bool) :
    ∀ (count : Nat) (offset : Int) (values : List String) (eh eh1 : exifHeader)
      (r : List String),
      readValuesLoop ratios fieldtype typelen signed count offset values eh = (.ok r, eh1) →
      r.length = values.length + count := by
  intro count
  induction count with
  | zero =>
    intro offset values eh eh1 r h
    simp only [readValuesLoop, Prod.mk.injEq, Except.ok.injEq] at h
    rw [← h.1]
    rfl
  | succ n ih =>
    intro offset values eh eh1 r h
    rw [readValuesLoop] at h
    rcases hv : readValue eh ratios fieldtype typelen signed offset with ⟨rv, e1⟩
    rw [hv] at h
    cases rv with
    | error e => simp at h
    | ok value =>
      dsimp only at h
      rw [ih _ _ _ _ _ h]
      simp
      omega

theorem readValues_length {eh eh1 : exifHeader} {tagname : String} {fieldtype count : Int}
    {typelen : Nat} {offset : Int} {values : List String} (hc : 0 ≤ count)
    (h : readValues eh tagname fieldtype count typelen offset = (.ok values, eh1)) :
    if fieldtype = 2 then values.length = 1
    else if count < 1000 ∨ tagname = "MakerNote" then (values.length : Int) = count
    else values = [] := by
  unfold readValues at h
  by_cases h2 : fieldtype = 2
  · rw [if_pos h2] at h ⊢
    split at h
    · dsimp only at h
      split at h
      · simp at h
      · simp only [Prod.mk.injEq, Except.ok.injEq] at h
        rw [← h.1]
        rfl
    · simp only [Prod.mk.injEq, Except.ok.injEq] at h
      rw [← h.1]
      rfl
  · rw [if_neg h2] at h ⊢
    dsimp only at h
    by_cases hk : count < 1000
    · rw [if_pos hk] at h
      rw [if_pos (Or.inl hk)]
      have := readValuesLoop_length _ _ _ _ _ _ _ _ _ _ h
      rw [this]
      simp
      omega
    · rw [if_neg hk] at h
      by_cases hm : tagname = "MakerNote"
      · rw [if_pos hm] at h
        rw [if_pos (Or.inr hm)]
        have := readValuesLoop_length _ _ _ _ _ _ _ _ _ _ h
        rw [this]
        simp
        omega
      · rw [if_neg hm] at h
        rw [if_neg (by
          intro h'
          rcases h' with h' | h'
          · exact hk h'
          · exact hm h')]
        simp only [Prod.mk.injEq, Except.ok.injEq] at h
        exact h.1.symm

/-- C20, counterexample: the ImageDescription of `tiffAscii13` has the count 13, below
1000, but `dumpIfd` stores a single value for it, the text before the first NUL. -/
theorem ascii_entry_single_value :
    (s2n (newExifHeader tiffAscii13 77 0 false false) 14 4 false).1 = .ok 13 ∧
    (dumpIfd quoteAscii true (newExifHeader tiffAscii13 77 0 false false) 8 "Image"
      (some exifTags) 0 "UNDEF").2.tags =
        [("Image ImageDescription", ⟨"\"Hello\"", 0x010E, 2, 26, 13, ["Hello"]⟩)] ∧
    (["Hello"] : List String).length ≠ 13 := by
  refine ⟨by decide, by decide, by decide⟩

/-- C20, amended: every tag that `dumpIfd` stores has a field type in `[1, 10]` and a
field length `count * size` for the count `0 ≤ count < 2^32` of its entry and the size of
its field type; a tag of type 2 (ASCII) has exactly one value whatever the count; a tag
of another type has `count` values when `count < 1000` or the tag is named MakerNote,
and no value otherwise. -/
theorem stored_values_length (quote : String → String) (detailed : Bool) (eh : exifHeader)
    (ifd : Int) (ifdname : String) (dict : List (Int × exifTag)) (relative : Int)
    (stoptag : String) (k : String) (t : IfdTag)
    (hk : (k, t) ∈ (dumpIfd quote detailed eh ifd ifdname (some dict) relative stoptag).2.tags)
    (hnew : (k, t) ∉ eh.tags) :
    ∃ count : Int, 0 ≤ count ∧ count < 2 ^ 32 ∧ 0 < t.Fieldtype ∧ t.Fieldtype < 11 ∧
      0 < (FIELD_TYPES.getD t.Fieldtype.toNat ⟨0, "", ""⟩).Size ∧
      t.fieldlength = count * ((FIELD_TYPES.getD t.Fieldtype.toNat ⟨0, "", ""⟩).Size : Int) ∧
      (if t.Fieldtype = 2 then t.Values.length = 1
       else if count < 1000 ∨ tagName dict t.tag = "MakerNote" then
         (t.Values.length : Int) = count
       else t.Values = []) := by
  have key := dumpIfd_rich_inv
    (fun k t => (k, t) ∈ eh.tags ∨
      ∃ count : Int, 0 ≤ count ∧ count < 2 ^ 32 ∧ 0 < t.Fieldtype ∧ t.Fieldtype < 11 ∧
        0 < (FIELD_TYPES.getD t.Fieldtype.toNat ⟨0, "", ""⟩).Size ∧
        t.fieldlength = count * ((FIELD_TYPES.getD t.Fieldtype.toNat ⟨0, "", ""⟩).Size : Int) ∧
        (if t.Fieldtype = 2 then t.Values.length = 1
         else if count < 1000 ∨ tagName dict t.tag = "MakerNote" then
           (t.Values.length : Int) = count
         else t.Values = []))
    quote detailed eh ifd ifdname dict relative stoptag
    (by
      intro te t1 _ hdec
      obtain ⟨count, e0, e1, hc0, hc1, hf0, hf1, hread, hlen, _⟩ := hdec
      refine Or.inr ⟨count, hc0, hc1, hf0, hf1, ?_, hlen, readValues_length hc0 hread⟩
      have h1 : t1.Fieldtype.toNat < 11 := by omega
      have h2 : 0 < t1.Fieldtype.toNat := by omega
      generalize t1.Fieldtype.toNat = n at h1 h2
      interval_cases n <;> decide)
    (fun k t h => Or.inl h) k t hk
  rcases key with h | h
  · exact absurd h hnew
  · exact h

theorem stored_values_length_witness :
    ∃ count : Int, 0 ≤ count ∧ count < 2 ^ 32 ∧ (0 : Int) < 2 ∧ (2 : Int) < 11 ∧
      0 < (FIELD_TYPES.getD (2 : Int).toNat ⟨0, "", ""⟩).Size ∧
      (13 : Int) = count * ((FIELD_TYPES.getD (2 : Int).toNat ⟨0, "", ""⟩).Size : Int) ∧
      (if (2 : Int) = 2 then ["Hello"].length = 1
       else if count < 1000 ∨ tagName exifTags 0x010E = "MakerNote" then
         ((["Hello"].length : Nat) : Int) = count
       else ["Hello"] = []) :=
  stored_values_length quoteAscii true (newExifHeader tiffAscii13 77 0 false false) 8 "Image"
    exifTags 0 "UNDEF" "Image ImageDescription" ⟨"\"Hello\"", 0x010E, 2, 26, 13, ["Hello"]⟩
    (by decide) (by decide)

theorem hexDigit_ne_blank (d : Nat) (h : d < 16) :
    (if d < 10 then Char.ofNat (48 + d) else Char.ofNat (55 + d)) ≠ ' ' := by
  interval_cases d <;> decide

theorem natDigits_no_blank : ∀ (fuel n : Nat), ' ' ∉ natDigits 16 fuel n := by
  intro fuel
  induction fuel with
  | zero => intro n; simp [natDigits]
  | succ f ih =>
    intro n
    have hd := hexDigit_ne_blank (n % 16) (Nat.mod_lt _ (by decide))
    rw [natDigits]
    split
    · intro hm
      exact hd (List.mem_singleton.1 hm).symm
    · intro hm
      rcases List.mem_append.1 hm with hm | hm
      · exact ih _ hm
      · exact hd (List.mem_singleton.1 hm).symm

theorem fmt04X_no_blank (v : Int) : ' ' ∉ (fmt04X v).data := by
  unfold fmt04X
  dsimp only
  have hds := natDigits_no_blank (v.natAbs + 1) v.natAbs
  split
  · intro hm
    simp only [List.cons_append, List.mem_cons, List.mem_append, List.mem_replicate] at hm
    rcases hm with hm | hm | hm
    · exact absurd hm (by decide)
    · exact absurd hm.2 (by decide)
    · exact hds hm
  · intro hm
    simp only [List.mem_append, List.mem_replicate] at hm
    rcases hm with hm | hm
    · exact absurd hm.2 (by decide)
    · exact hds hm

theorem exifTags_no_zero : ∀ p ∈ exifTags, p.2.name.data.head? ≠ some '0' := by decide

theorem interTags_no_zero : ∀ p ∈ interTags, p.2.name.data.head? ≠ some '0' := by decide

theorem gpsTags_no_zero : ∀ p ∈ gpsTags, p.2.name.data.head? ≠ some '0' := by decide

theorem walked_no_zero {ifdname : String} {dict : List (Int × exifTag)}
    (h : walked ifdname dict) : ∀ p ∈ dict, p.2.name.data.head? ≠ some '0' := by
  rcases h with ⟨_, h⟩ | ⟨_, h⟩ | ⟨_, h⟩ | ⟨_, h⟩ <;> rw [h]
  · exact exifTags_no_zero
  · exact exifTags_no_zero
  · exact interTags_no_zero
  · exact gpsTags_no_zero

theorem key_not_unnamed {ifdname : String} {dict : List (Int × exifTag)} {te : exifTag}
    {tag : Int} (hw : walked ifdname dict) (hl : dict.lookup tag = some te)
    (ifd1 : String) (tag1 : Int) :
    ifdname ++ " " ++ te.name ≠ ifd1 ++ " " ++ ("Tag 0x" ++ fmt04X tag1) := by
  intro h
  have hmem := lookup_mem tag te dict hl
  have hnb : ' ' ∉ te.name.data := (walked_facts hw (tag, te) hmem).1
  have hub : ' ' ∉ ("0x" ++ fmt04X tag1).data := by
    intro hm
    simp only [String.data_append, List.mem_append] at hm
    rcases hm with hm | hm
    · exact absurd hm (by decide)
    · exact fmt04X_no_blank tag1 hm
  have h2 : ifdname ++ " " ++ te.name = (ifd1 ++ " Tag") ++ " " ++ ("0x" ++ fmt04X tag1) := by
    rw [h]
    apply String.ext
    simp [String.data_append]
  have h3 := key_name_eq _ _ _ _ hnb hub h2
  have h4 : te.name.data.head? = some '0' := by
    rw [h3]
    simp [String.data_append]
  exact walked_no_zero hw (tag, te) hmem h4

/-- C19: an entry whose tag id is not in the dictionary leaves the tag map as it was (so
no key made from "Tag 0x" and the id is added), and every binding of the map that
`ProcessFile` returns has a tag id that is a key of the dictionary its IFD was walked
with and, as key, the IFD name, a blank and the name of that dictionary entry; no key is
an IFD name followed by " Tag 0x" and an id. -/
theorem unknown_tag_not_stored (quote : String → String) (detailed : Bool) (ifd : Int)
    (ifdname : String) (dict : List (Int × exifTag)) (relative : Int) (stoptag : String)
    (i : Nat) (eh : exifHeader) (fuel : Nat) (f : File) (stop_tag : String)
    (details strict : Bool) (m : TagMap) (err : Option GoError) :
    (∀ tag, entryTag eh ifd i = .ok tag → dict.lookup tag = none →
      (dumpEntry quote detailed ifd ifdname dict relative stoptag i eh).2.tags = eh.tags) ∧
    (ProcessFile quote fuel f stop_tag details strict = some (.returned (some m) err) →
      ∀ k t, (k, t) ∈ m →
        ∃ (name : String) (d : List (Int × exifTag)) (te : exifTag),
          walked name d ∧ d.lookup t.tag = some te ∧ k = name ++ " " ++ te.name ∧
          ∀ (ifd1 : String) (tag1 : Int), k ≠ ifd1 ++ " " ++ ("Tag 0x" ++ fmt04X tag1)) := by
  constructor
  · intro tag htag hno
    unfold entryTag at htag
    rcases hs : s2n eh (wrap64 (ifd + 2 + 12 * (i : Int))) 2 false with ⟨r, e1⟩
    rw [hs] at htag
    simp only at htag
    subst htag
    rcases (dumpEntry_cases quote detailed ifd ifdname dict relative stoptag i eh e1 tag hs).2.2.2
      with h | ⟨te, _, hl, _⟩
    · exact h
    · rw [hno] at hl
      simp at hl
  · intro h k t hk
    obtain ⟨name, d, te, hw, hl, hkey, _⟩ :=
      ProcessFile_storedBy quote fuel f stop_tag details strict m err h k t hk
    refine ⟨name, d, te, hw, hl, hkey, ?_⟩
    intro ifd1 tag1
    rw [hkey]
    exact key_not_unnamed hw hl ifd1 tag1

theorem unknown_tag_not_stored_witness :
    entryTag hdrUnknown 8 0 = .ok 0xC612 ∧ exifTags.lookup 0xC612 = none ∧
    (dumpEntry quoteAscii true 8 "Image" exifTags 0 "UNDEF" 0 hdrUnknown).2.tags =
      hdrUnknown.tags ∧
    ∃ (name : String) (d : List (Int × exifTag)) (te : exifTag),
      walked name d ∧ d.lookup 0x0112 = some te ∧ "Image Orientation" = name ++ " " ++ te.name ∧
      ∀ (ifd1 : String) (tag1 : Int),
        "Image Orientation" ≠ ifd1 ++ " " ++ ("Tag 0x" ++ fmt04X tag1) :=
  ⟨by decide, Option.isNone_iff_eq_none.1 (by decide),
   (unknown_tag_not_stored quoteAscii true 8 "Image" exifTags 0 "UNDEF" 0 hdrUnknown 10
      tiffUnknown "" true false
      [("Image Orientation", ⟨"Rotated 90 CW", 0x0112, 3, 30, 2, ["6"]⟩)] none).1
      0xC612 (by decide) (Option.isNone_iff_eq_none.1 (by decide)),
   (unknown_tag_not_stored quoteAscii true 8 "Image" exifTags 0 "UNDEF" 0 hdrUnknown 10
      tiffUnknown "" true false
      [("Image Orientation", ⟨"Rotated 90 CW", 0x0112, 3, 30, 2, ["6"]⟩)] none).2
      (by decide) "Image Orientation" ⟨"Rotated 90 CW", 0x0112, 3, 30, 2, ["6"]⟩ (by decide)⟩

/-! ## Short reads (C22) -/

/-- The method `s2n` returns a value, without error, whenever the seek succeeds and at
least one byte is left at the target, however many bytes were asked for. -/
theorem s2n_ok_of_byte (eh : exifHeader) (offset : Int) (n : Nat) (signed : Bool)
    (ht : 0 ≤ wrap64 (eh.offset + offset))
    (hb : (wrap64 (eh.offset + offset)).toNat < eh.file.data.length) :
    ∃ v, (s2n eh offset n signed).1 = .ok v := by
  unfold s2n
  dsimp only
  rw [seekStart_nonneg _ _ ht]
  unfold File.read
  dsimp only
  by_cases hn : n = 0
  · rw [if_pos hn]
    exact ⟨_, rfl⟩
  · rw [if_neg hn, if_neg (by omega)]
    exact ⟨_, rfl⟩

/-- C22: `s2n` tests only the error of `Read`, which a short read does not set.  Over the
single byte FF a read of two bytes at offset 0 returns no error and the value 0xFF00,
decoded from the byte and the zero left in the buffer; likewise a read of four bytes
over 12 34.  A read at the end of the input returns `io.EOF`, and a read of two bytes
over 12 34 returns 0x1234. -/
theorem short_read_decoded :
    hdrFF.file.data.length = 1 ∧
    s2n hdrFF 0 2 false = (.ok 0xFF00, { hdrFF with file := ⟨[0xFF], 1⟩ }) ∧
    (s2n hdrM 0 4 false).1 = .ok 0x12340000 ∧
    (s2n hdrI 1 2 true).1 = .ok 0x12 ∧
    (s2n hdrFF 1 2 false).1 = .error .eof ∧
    (s2n hdrM 0 2 false).1 = .ok 0x1234 := by
  refine ⟨by decide, by decide, by decide, by decide, by decide, by decide⟩

/-! ## The transform `makestring` (C23) -/

/-- C23: for every byte string `bs`, `makestring` of values whose first element is `bs`
is the subsequence of the bytes of `bs` that are at least 32, in order, and `bs` itself
when no byte is. -/
theorem makestring_filter (bs : List UInt8) (rest : List String) :
    makestring (bytesToString bs :: rest) =
      if bs.filter (fun b => decide (32 ≤ b.toNat)) = [] then bytesToString bs
      else bytesToString (bs.filter (fun b => decide (32 ≤ b.toNat))) := by
  have hf : (bytesToString bs).data.filter
      (fun c => decide (32 ≤ c.toNat) && decide (c.toNat < 256)) =
      (bytesToString (bs.filter (fun b => decide (32 ≤ b.toNat)))).data := by
    unfold bytesToString
    dsimp only
    rw [List.filter_map]
    congr 1
    apply List.filter_congr
    intro b _
    simp only [Function.comp, char_toNat]
    have := byte_lt b
    simp [this]
  unfold makestring
  dsimp only
  rw [hf]
  by_cases he : bs.filter (fun b => decide (32 ≤ b.toNat)) = []
  · rw [if_pos he, he]
    rfl
  · rw [if_neg he, if_neg]
    intro h0
    apply he
    have h1 : (bytesToString (bs.filter (fun b => decide (32 ≤ b.toNat)))).data = [] :=
      List.length_eq_zero.1 h0
    unfold bytesToString at h1
    exact List.map_eq_nil_iff.1 h1

/-! ## Reduction is idempotent (C24) -/

theorem gcdFuel_natAbs : ∀ (fuel : Nat) (a b g : Int), gcdFuel fuel a b = some g →
    g.natAbs = Nat.gcd a.natAbs b.natAbs := by
  intro fuel
  induction fuel with
  | zero => intro a b g h; simp [gcdFuel] at h
  | succ n ih =>
    intro a b g h
    rw [gcdFuel] at h
    by_cases hb : b = 0
    · rw [if_pos hb] at h
      simp only [Option.some.injEq] at h
      rw [← h, hb]
      simp
    · rw [if_neg hb] at h
      rw [ih _ _ _ h, natAbs_tmod, Nat.gcd_comm a.natAbs, Nat.gcd_rec b.natAbs a.natAbs,
        Nat.gcd_comm]

theorem gcd_natAbs (a b : Int) : (gcd a b).natAbs = Nat.gcd a.natAbs b.natAbs := by
  unfold gcd
  have hs := gcdFuel_isSome a b
  rcases hg : gcdFuel (b.natAbs + 1) a b with _ | g
  · rw [hg] at hs
    simp at hs
  · exact gcdFuel_natAbs _ a b g hg

theorem natAbs_tdiv_eq (a b : Int) : (Int.tdiv a b).natAbs = a.natAbs / b.natAbs := by
  cases a <;> cases b <;> simp [Int.tdiv, Int.natAbs_neg] <;> rfl

theorem reduce_reduce (r : ratio) : r.reduce.reduce = r.reduce := by
  unfold ratio.reduce
  dsimp only
  by_cases hg : gcd r.num r.den > 1
  · rw [if_pos hg]
    dsimp only
    have hG := gcd_natAbs r.num r.den
    have hpos : 0 < Nat.gcd r.num.natAbs r.den.natAbs := by
      rw [← hG]
      omega
    have hco := Nat.coprime_div_gcd_div_gcd hpos
    have h2 := gcd_natAbs (Int.tdiv r.num (gcd r.num r.den)) (Int.tdiv r.den (gcd r.num r.den))
    rw [natAbs_tdiv_eq, natAbs_tdiv_eq, hG] at h2
    have h1 : (gcd (Int.tdiv r.num (gcd r.num r.den)) (Int.tdiv r.den (gcd r.num r.den))).natAbs
        = 1 := by
      rw [h2]
      exact hco
    rw [if_neg (by omega)]
  · rw [if_neg hg, if_neg hg]

theorem string_of_reduced (r : ratio) (h : r.reduced = true) :
    r.String = (r, if r.den = 1 then itoa r.num else itoa r.num ++ "/" ++ itoa r.den) := by
  unfold ratio.String
  simp only [h, Bool.not_true, Bool.false_eq_true, if_false]
  split <;> rfl

theorem string_shape (r : ratio) :
    r.String.1.reduced = true ∧
    r.String.2 = (if r.String.1.den = 1 then itoa r.String.1.num
      else itoa r.String.1.num ++ "/" ++ itoa r.String.1.den) := by
  by_cases hr : r.reduced = true
  · rw [string_of_reduced r hr]
    exact ⟨hr, rfl⟩
  · have hf : r.reduced = false := by simpa using hr
    unfold ratio.String
    simp only [hf, Bool.not_false, if_true]
    split <;> exact ⟨rfl, by simp [*]⟩

/-- C24: for every pair of integers, negative values included, `reduce` applied twice
leaves the ratio that one application leaves, and a second call of `String` on the ratio
that the first call leaves returns the same string and leaves the same ratio. -/
theorem reduce_idempotent (r : ratio) :
    r.reduce.reduce = r.reduce ∧
    (r.reduce.reduce.num = r.reduce.num ∧ r.reduce.reduce.den = r.reduce.den) ∧
    r.String.1.String = r.String := by
  refine ⟨reduce_reduce r, ?_, ?_⟩
  · rw [reduce_reduce]
    exact ⟨rfl, rfl⟩
  · obtain ⟨h1, h2⟩ := string_shape r
    rw [string_of_reduced _ h1, ← h2]

/-! ## Panics of `ProcessFile` (C27, C28) -/

/-- C27: for every JPEG input of at least 12 bytes whose first segment carries one of
the signatures JFIF, JFXX, OLYM, Phot and declares a length below 8, the first turn of
the segment-skipping loop calls `make([]byte, length-8)` with a negative length and
`ProcessFile` panics: it ends with neither a header, nor an empty result, nor an
error. -/
theorem short_segment_panics (quote : String → String) (fuel : Nat)
    (m hi lo s0 s1 s2 s3 c0 c1 : UInt8) (rest : List UInt8) (stop_tag : String)
    (details strict : Bool) (hfuel : 0 < fuel)
    (hsig : bytesToString [s0, s1, s2, s3] ∈ ["JFIF", "JFXX", "OLYM", "Phot"])
    (hlen : hi.toNat * 256 + lo.toNat < 8) :
    locate fuel ⟨[0xFF, 0xD8, 0xFF, m, hi, lo, s0, s1, s2, s3, c0, c1] ++ rest, 0⟩ =
      some .panicked ∧
    ProcessFile quote fuel ⟨[0xFF, 0xD8, 0xFF, m, hi, lo, s0, s1, s2, s3, c0, c1] ++ rest, 0⟩
      stop_tag details strict = some .panicked := by
  have hloc : locate fuel
      ⟨[0xFF, 0xD8, 0xFF, m, hi, lo, s0, s1, s2, s3, c0, c1] ++ rest, 0⟩ = some .panicked := by
    obtain ⟨n, rfl⟩ : ∃ n, fuel = n + 1 := ⟨fuel - 1, by omega⟩
    have hcond : ([0xFF, 0xD8] ++ [0xFF, m, hi, lo, s0, s1, s2, s3, c0, c1]).getD 2 0 = 0xFF ∧
        ["JFIF", "JFXX", "OLYM", "Phot"].contains
          (sliceString ([0xFF, 0xD8] ++ [0xFF, m, hi, lo, s0, s1, s2, s3, c0, c1]) 6 10) := by
      refine ⟨rfl, ?_⟩
      rw [sliceString_sig]
      exact List.elem_eq_true_of_mem hsig
    have hneg : ((([0xFF, 0xD8] ++ [0xFF, m, hi, lo, s0, s1, s2, s3, c0, c1]).getD 4 0).toNat : Int)
        * 256 +
        ((([0xFF, 0xD8] ++ [0xFF, m, hi, lo, s0, s1, s2, s3, c0, c1]).getD 5 0).toNat : Int) - 8
        < 0 := by
      show ((hi.toNat : Int) * 256 + (lo.toNat : Int)) - 8 < 0
      omega
    unfold locate
    rw [show ([0xFF, 0xD8, 0xFF, m, hi, lo, s0, s1, s2, s3, c0, c1] ++ rest : List UInt8) =
      [0xFF, 0xD8] ++ ([0xFF, m, hi, lo, s0, s1, s2, s3, c0, c1] ++ rest) from rfl]
    rw [jpeg_start _ (by simp), window_ten]
    dsimp only
    rw [if_neg (not_tiff_of_ff _), if_pos (jpeg_soi _), skipSegments, if_pos hcond]
    dsimp only
    rw [if_pos hneg]
  refine ⟨hloc, ?_⟩
  unfold ProcessFile
  dsimp only
  rw [hloc]

theorem short_segment_panics_witness :
    locate 1 jpegShortSegment = some .panicked ∧
    ProcessFile quoteAscii 1 jpegShortSegment "" true false = some .panicked :=
  short_segment_panics quoteAscii 1 0xE0 0x00 0x04 0x4A 0x46 0x49 0x46 0x00 0x00 [] ""
    true false (by decide) (by decide) (by decide)

/-- C28: three inputs on which `ProcessFile` panics.  An ExifOffset entry with the count
0 and a GPSInfo entry with the count 1000 are stored with an empty `Values`, and the
expression `Values[0]` indexes out of range; a Thumbnail IFD with a JPEGInterchangeFormat
and no JPEGInterchangeFormatLength makes the map lookup return nil, which is
dereferenced. -/
theorem missing_values_panic :
    (dumpIfd quoteAscii true (newExifHeader tiffExifEmpty 77 0 false false) 8 "Image"
      (some exifTags) 0 "UNDEF").2.tags =
        [("Image ExifOffset", ⟨"", 0x8769, 4, 18, 0, []⟩)] ∧
    ProcessFile quoteAscii 10 tiffExifEmpty "" true false = some .panicked ∧
    (dumpIfd quoteAscii true (newExifHeader tiffGpsLarge 77 0 false false) 8 "Image"
      (some exifTags) 0 "UNDEF").2.tags =
        [("Image GPSInfo", ⟨"", 0x8825, 4, 0, 4000, []⟩)] ∧
    ProcessFile quoteAscii 10 tiffGpsLarge "" true false = some .panicked ∧
    (processIfds quoteAscii true "UNDEF" [8, 14] 0
      (newExifHeader tiffThumbNoLength 77 0 false false)).map exifHeader.tags =
        some [("Thumbnail JPEGInterchangeFormat", ⟨"32", 0x0201, 4, 24, 4, ["32"]⟩)] ∧
    ProcessFile quoteAscii 10 tiffThumbNoLength "" true false = some .panicked := by
  refine ⟨by decide, by decide, by decide, by decide, by decide, by decide⟩

/-! ## The chain of IFDs (C26) -/

theorem nextIfd_link (eh eh0 : exifHeader) (hs : sameFile eh eh0)
    (h0 : 0 ≤ eh.offset) (h1 : eh.offset < 2 ^ 62) (o nxt : Int) (ho0 : 0 ≤ o) (ho1 : o < 2 ^ 32)
    (hl : linkAfter eh o = .ok nxt) :
    ∃ e2, nextIfd eh0 o = (.ok nxt, e2) ∧ sameFile eh e2 ∧ 0 ≤ nxt ∧ nxt < 2 ^ 32 := by
  unfold linkAfter at hl
  rcases hn : (s2n eh o 2 false).1 with e | n
  · rw [hn] at hl
    simp at hl
  · rw [hn] at hl
    dsimp only at hl
    have hnb := s2n_unsigned_bound (by decide : 2 ≤ 4) hn
    have hxb := s2n_unsigned_bound (le_refl 4) hl
    have hsk1 : 0 ≤ wrap64 (eh.offset + o) := by
      rw [wrap64_id _ (by omega) (by omega)]
      omega
    have hw : wrap64 (o + 2 + 12 * n) = o + 2 + 12 * n :=
      wrap64_id _ (by omega) (by omega)
    have hsk2 : 0 ≤ wrap64 (eh.offset + wrap64 (o + 2 + 12 * n)) := by
      rw [hw, wrap64_id _ (by omega) (by omega)]
      omega
    have hc1 := s2n_fst_congr hs o 2 false hsk1
    rw [hn] at hc1
    unfold nextIfd
    rcases hr1 : s2n eh0 o 2 false with ⟨r1, e1⟩
    rw [hr1] at hc1
    simp only at hc1
    subst hc1
    dsimp only
    have hs1 : sameFile eh e1 := sameFile_trans hs (posOnly_sameFile (s2n_posOnly hr1))
    have hc2 := s2n_fst_congr hs1 (wrap64 (o + 2 + 12 * n)) 4 false hsk2
    rw [hl] at hc2
    rcases hr2 : s2n e1 (wrap64 (o + 2 + 12 * n)) 4 false with ⟨r2, e2⟩
    rw [hr2] at hc2
    simp only at hc2
    subst hc2
    exact ⟨e2, rfl, sameFile_trans hs1 (posOnly_sameFile (s2n_posOnly hr2)),
      hxb.1, by simpa using hxb.2⟩

theorem listIfdsLoop_chain (eh : exifHeader) (h0 : 0 ≤ eh.offset) (h1 : eh.offset < 2 ^ 62) :
    ∀ (l : List Int) (fuel : Nat) (o : Int) (a : List Int) (eh0 : exifHeader),
      sameFile eh eh0 → 0 ≤ o → o < 2 ^ 32 → ifdChain eh o l → l.length < fuel →
      ∃ e1, listIfdsLoop fuel o a eh0 = some (.ok (a ++ l), e1) := by
  intro l
  induction l with
  | nil =>
    intro fuel o a eh0 _ _ _ hc hf
    obtain ⟨n, rfl⟩ : ∃ n, fuel = n + 1 := ⟨fuel - 1, by simp at hf; omega⟩
    simp only [ifdChain] at hc
    rw [listIfdsLoop, if_neg (by omega), List.append_nil]
    exact ⟨eh0, rfl⟩
  | cons o1 rest ih =>
    intro fuel o a eh0 hs ho0 ho1 hc hf
    obtain ⟨n, rfl⟩ : ∃ n, fuel = n + 1 := ⟨fuel - 1, by simp at hf; omega⟩
    simp only [ifdChain] at hc
    obtain ⟨rfl, hne, nxt, hl, hrest⟩ := hc
    obtain ⟨e2, hnext, hs2, hx0, hx1⟩ := nextIfd_link eh eh0 hs h0 h1 o nxt ho0 ho1 hl
    obtain ⟨e3, hrec⟩ := ih n nxt (a ++ [o]) e2 hs2 hx0 hx1 hrest (by simp at hf; omega)
    rw [listIfdsLoop, if_pos (by omega), hnext]
    dsimp only
    rw [hrec]
    exact ⟨e3, by simp⟩

/-- C26: for a header at a non-negative offset whose first link, the unsigned four-byte
integer at offset 4, is `o1`, and whose IFD chain from `o1` is `l` (every offset
non-zero, each followed by the link of the next, the last by a zero link, all reads
succeeding), `listIfds` ends as soon as it is given more turns than `l` has elements and
returns exactly `l`, in chain order; the list is empty when the first link is 0. -/
theorem listIfds_chain (eh : exifHeader) (fuel : Nat) (o1 : Int) (l : List Int)
    (h0 : 0 ≤ eh.offset) (h1 : eh.offset < 2 ^ 62)
    (hfirst : (s2n eh 4 4 false).1 = .ok o1) (hc : ifdChain eh o1 l) (hf : l.length < fuel) :
    (∃ eh1, listIfds fuel eh = some (.ok l, eh1)) ∧ (o1 = 0 → l = []) := by
  constructor
  · have hb := s2n_unsigned_bound (le_refl 4) hfirst
    unfold listIfds firstIfd
    rcases hr : s2n eh 4 4 false with ⟨r, e1⟩
    rw [hr] at hfirst
    simp only at hfirst
    subst hfirst
    dsimp only
    obtain ⟨e2, h2⟩ := listIfdsLoop_chain eh h0 h1 l fuel o1 [] e1
      (posOnly_sameFile (s2n_posOnly hr)) hb.1 (by simpa using hb.2) hc hf
    exact ⟨e2, by simpa using h2⟩
  · intro hz
    cases l with
    | nil => rfl
    | cons o rest =>
      simp only [ifdChain] at hc
      exact absurd (hc.1 ▸ hz) hc.2.1

theorem listIfds_chain_witness :
    (∃ eh1, listIfds 3 (newExifHeader ⟨tiffThumbNoLength.data, 2⟩ 77 0 false false) =
      some (.ok [8, 14], eh1)) ∧ ((8 : Int) = 0 → [(8 : Int), 14] = []) :=
  listIfds_chain (newExifHeader ⟨tiffThumbNoLength.data, 2⟩ 77 0 false false) 3 8 [8, 14]
    (by decide) (by decide) (by decide)
    ⟨rfl, by decide, 14, by decide, rfl, by decide, 0, by decide, rfl⟩ (by decide)

/-! ## Inline values and value pointers (C25) -/

theorem dumpEntry_decoded (quote : String → String) (detailed : Bool) (ifd : Int)
    (ifdname : String) (dict : List (Int × exifTag)) (relative : Int) (stoptag : String)
    (i : Nat) (eh0 e1 e2 e3 : exifHeader) (tag ft count : Int) (te : exifTag)
    (h1 : s2n eh0 (wrap64 (ifd + 2 + 12 * (i : Int))) 2 false = (.ok tag, e1))
    (hign : (detailed || !ignoreTags.contains tag) = true)
    (h2 : s2n e1 (wrap64 (wrap64 (ifd + 2 + 12 * (i : Int)) + 2)) 2 false = (.ok ft, e2))
    (hft : 0 < ft ∧ ft < 11)
    (h3 : s2n e2 (wrap64 (wrap64 (ifd + 2 + 12 * (i : Int)) + 4)) 4 false = (.ok count, e3))
    (hd : dict.lookup tag = some te) :
    dumpEntry quote detailed ifd ifdname dict relative stoptag i eh0 =
      decodeTail quote ifdname stoptag te tag ft count
        (FIELD_TYPES.getD ft.toNat ⟨0, "", ""⟩).Size
        (valueOffset e3 ifd relative count (FIELD_TYPES.getD ft.toNat ⟨0, "", ""⟩).Size
          (wrap64 (wrap64 (ifd + 2 + 12 * (i : Int)) + 8))) := by
  have hname := tagName_of_lookup hd
  have hvalid : (!(decide (0 < ft) && decide (ft < (FIELD_TYPES.length : Int)))) = false := by
    have : ft < (FIELD_TYPES.length : Int) := by
      simp [FIELD_TYPES]
      exact hft.2
    simp [hft.1, this]
  unfold dumpEntry decodeTail
  dsimp only
  rw [h1]
  dsimp only
  rw [if_pos hign]
  unfold decodeEntry
  rw [h2]
  dsimp only
  rw [hvalid]
  simp only [Bool.false_eq_true, if_false]
  rw [h3]
  dsimp only
  rcases valueOffset e3 ifd relative count (FIELD_TYPES.getD ft.toNat ⟨0, "", ""⟩).Size
    (wrap64 (wrap64 (ifd + 2 + 12 * (i : Int)) + 8)) with ⟨r4, e4⟩
  cases r4 with
  | error e => rfl
  | ok offset =>
    dsimp only
    rw [hname]
    rcases readValues e4 te.name ft count (FIELD_TYPES.getD ft.toNat ⟨0, "", ""⟩).Size offset
      with ⟨r5, e5⟩
    cases r5 with
    | error e => rfl
    | ok values =>
      dsimp only
      rw [hd]
      dsimp only
      rcases tagPrintable te values (printableOf quote count ft values) with e | printable
      · rfl
      · rfl

/-! ## The values of an entry, from the bytes of the file -/

theorem seek_target_ok (e : exifHeader) (off : Int) (h0 : 0 ≤ e.offset) (h1 : 0 ≤ off)
    (h2 : e.offset + off < 2 ^ 63) :
    wrap64 (e.offset + off) = e.offset + off ∧ 0 ≤ wrap64 (e.offset + off) := by
  have := wrap64_id (e.offset + off) (by omega) (by omega)
  rw [this]
  exact ⟨rfl, by omega⟩

theorem readValue_fixed (e eh eh1 : exifHeader) (hs : sameFile e eh) (ratios : Bool)
    (ft : Int) (size : Nat) (off : Int) (v : String)
    (h0 : 0 ≤ e.offset) (h1 : 0 ≤ off) (h2 : e.offset + off + 8 < 2 ^ 63)
    (h : readValue eh ratios ft size ([6, 8, 9, 10].contains ft) off = (.ok v, eh1)) :
    decodesAt e ratios ft size off v ∧ sameFile e eh1 := by
  have ht := seek_target_ok e off h0 h1 (by omega)
  have hw4 : wrap64 (off + 4) = off + 4 := wrap64_id _ (by omega) (by omega)
  have ht4 := seek_target_ok e (off + 4) h0 (by omega) (by omega)
  unfold readValue at h
  unfold decodesAt
  by_cases hr : ratios = true ∧ (ft = 5 ∨ ft = 10)
  · rw [if_pos hr] at h ⊢
    rcases hn : s2n eh off 4 ([6, 8, 9, 10].contains ft) with ⟨rn, en⟩
    rw [hn] at h
    cases rn with
    | error err => simp at h
    | ok num =>
      dsimp only at h
      have hsn : sameFile e en := sameFile_trans hs (posOnly_sameFile (s2n_posOnly hn))
      rcases hdn : s2n en (wrap64 (off + 4)) 4 ([6, 8, 9, 10].contains ft) with ⟨rd, ed⟩
      rw [hdn] at h
      cases rd with
      | error err => simp at h
      | ok den =>
        simp only [Prod.mk.injEq, Except.ok.injEq] at h
        obtain ⟨hv, he⟩ := h
        have c1 := s2n_fst_congr hs off 4 ([6, 8, 9, 10].contains ft) ht.2
        rw [hn] at c1
        have c2 := s2n_fst_congr hsn (wrap64 (off + 4)) 4 ([6, 8, 9, 10].contains ft)
          (by rw [hw4]; exact ht4.2)
        rw [hdn, hw4] at c2
        refine ⟨⟨num, den, c1, c2, hv.symm⟩, ?_⟩
        rw [← he]
        exact sameFile_trans hsn (posOnly_sameFile (s2n_posOnly hdn))
  · rw [if_neg hr] at h ⊢
    rcases hn : s2n eh off size ([6, 8, 9, 10].contains ft) with ⟨rn, en⟩
    rw [hn] at h
    cases rn with
    | error err => simp at h
    | ok n =>
      simp only [Prod.mk.injEq, Except.ok.injEq] at h
      obtain ⟨hv, he⟩ := h
      have c1 := s2n_fst_congr hs off size ([6, 8, 9, 10].contains ft) ht.2
      rw [hn] at c1
      refine ⟨⟨n, c1, hv.symm⟩, ?_⟩
      rw [← he]
      exact sameFile_trans hs (posOnly_sameFile (s2n_posOnly hn))

theorem readValuesLoop_fixed (e : exifHeader) (ratios : Bool) (ft : Int) (size : Nat)
    (h0 : 0 ≤ e.offset) :
    ∀ (count : Nat) (off : Int) (acc : List String) (eh eh1 : exifHeader) (r : List String),
      sameFile e eh → 0 ≤ off →
      e.offset + off + ((count : Int) * (size : Int)) + 8 < 2 ^ 63 →
      readValuesLoop ratios ft size ([6, 8, 9, 10].contains ft) count off acc eh = (.ok r, eh1) →
      ∃ vs, r = acc ++ vs ∧ vs.length = count ∧
        ∀ k, k < count → ∃ v, vs.get? k = some v ∧
          decodesAt e ratios ft size (off + (k : Int) * (size : Int)) v := by
  intro count
  induction count with
  | zero =>
    intro off acc eh eh1 r _ _ _ h
    simp only [readValuesLoop, Prod.mk.injEq, Except.ok.injEq] at h
    exact ⟨[], by rw [← h.1, List.append_nil], rfl, fun k hk => absurd hk (by omega)⟩
  | succ n ih =>
    intro off acc eh eh1 r hs hoff hb h
    have hsz : (0 : Int) ≤ (n : Int) * (size : Int) := by positivity
    have hsz2 : ((n + 1 : Nat) : Int) * (size : Int) = (n : Int) * (size : Int) + (size : Int) := by
      push_cast
      ring
    rw [hsz2] at hb
    rw [readValuesLoop] at h
    rcases hv : readValue eh ratios ft size ([6, 8, 9, 10].contains ft) off with ⟨rv, e1⟩
    rw [hv] at h
    cases rv with
    | error err => simp at h
    | ok value =>
      dsimp only at h
      obtain ⟨hdec, hs1⟩ := readValue_fixed e eh e1 hs ratios ft size off value h0 hoff
        (by omega) hv
      have hw : wrap64 (off + (size : Int)) = off + (size : Int) :=
        wrap64_id _ (by omega) (by omega)
      rw [hw] at h
      obtain ⟨vs, hr, hlen, hall⟩ := ih (off + (size : Int)) (acc ++ [value]) e1 eh1 r hs1
        (by omega) (by omega) h
      refine ⟨value :: vs, by rw [hr, List.append_assoc]; rfl, by simp [hlen], ?_⟩
      intro k hk
      cases k with
      | zero =>
        refine ⟨value, rfl, ?_⟩
        simpa using hdec
      | succ j =>
        obtain ⟨v, hget, hd⟩ := hall j (by omega)
        refine ⟨v, by simpa using hget, ?_⟩
        have : off + (size : Int) + (j : Int) * (size : Int) =
            off + ((j + 1 : Nat) : Int) * (size : Int) := by
          push_cast
          ring
        rw [← this]
        exact hd

theorem readValues_fixed (e eh eh1 : exifHeader) (hs : sameFile e eh) (name : String)
    (ft count : Int) (size : Nat) (off : Int) (values : List String)
    (h0 : 0 ≤ e.offset) (h1 : 0 ≤ off) (hc : 0 ≤ count)
    (h2 : e.offset + off + count * (size : Int) + 8 < 2 ^ 63)
    (h : readValues eh name ft count size off = (.ok values, eh1)) :
    valuesAt e name ft count size off values := by
  have hcs : (0 : Int) ≤ count * (size : Int) := by positivity
  have ht := seek_target_ok e off h0 h1 (by omega)
  have hcn : ((count.toNat : Nat) : Int) = count := Int.toNat_of_nonneg hc
  unfold readValues at h
  unfold valuesAt
  by_cases hft : ft = 2
  · rw [if_pos hft] at h ⊢
    constructor
    · intro hz
      rw [if_neg (by omega)] at h
      simp only [Prod.mk.injEq, Except.ok.injEq] at h
      exact h.1.symm
    · intro hr
      have hx : ((2 ^^^ 31 : Nat) : Int) = 29 := by decide
      rw [if_pos (by rw [hx]; omega)] at h
      dsimp only at h
      rw [← hs.2.2.1, seekStart_nonneg _ _ ht.2, ht.1, ← hs.1] at h
      have hn : count.toNat ≠ 0 := by omega
      unfold File.read at h
      dsimp only at h
      rw [if_neg hn] at h
      by_cases hl : e.file.data.length ≤ (e.offset + off).toNat
      · rw [if_pos hl] at h
        simp at h
      · rw [if_neg hl] at h
        simp only [Prod.mk.injEq, Except.ok.injEq] at h
        rw [← h.1]
        rfl
  · rw [if_neg hft] at h ⊢
    dsimp only at h
    by_cases hk : count < 1000
    · rw [if_pos hk] at h
      rw [if_pos (Or.inl hk)]
      obtain ⟨vs, hr, hlen, hall⟩ := readValuesLoop_fixed e true ft size h0 count.toNat off []
        eh eh1 values hs h1 (by rw [hcn]; exact h2) h
      rw [List.nil_append] at hr
      rw [hr]
      refine ⟨hlen, ?_⟩
      intro k hkk
      obtain ⟨v, hget, hd⟩ := hall k hkk
      refine ⟨v, hget, ?_⟩
      simpa [hk] using hd
    · rw [if_neg hk] at h
      by_cases hm : name = "MakerNote"
      · rw [if_pos hm] at h
        rw [if_pos (Or.inr hm)]
        obtain ⟨vs, hr, hlen, hall⟩ := readValuesLoop_fixed e false ft size h0 count.toNat off []
          eh eh1 values hs h1 (by rw [hcn]; exact h2) h
        rw [List.nil_append] at hr
        rw [hr]
        refine ⟨hlen, ?_⟩
        intro k hkk
        obtain ⟨v, hget, hd⟩ := hall k hkk
        refine ⟨v, hget, ?_⟩
        simpa [hk] using hd
      · rw [if_neg hm] at h
        rw [if_neg (by
          intro h'
          rcases h' with h' | h'
          · exact hk h'
          · exact hm h')]
        simp only [Prod.mk.injEq, Except.ok.injEq] at h
        exact h.1.symm

theorem size_le_eight (ft : Int) (h : 0 < ft ∧ ft < 11) :
    (FIELD_TYPES.getD ft.toNat ⟨0, "", ""⟩).Size ≤ 8 := by
  have h1 : ft.toNat < 11 := by omega
  generalize ft.toNat = n at h1
  interval_cases n <;> decide

/-- C25, counterexample: the GPSInfo entry of `tiffGpsLarge` has the field type 4 and the
count 1000, so `count * size > 4`; the slot holds the pointer 0, where four bytes are
readable, and the stored field offset is 0, but no value is decoded there: the stored
tag has an empty `Values`. -/
theorem large_count_not_decoded :
    (s2n (newExifHeader tiffGpsLarge 77 0 false false) 12 2 false).1 = .ok 4 ∧
    (s2n (newExifHeader tiffGpsLarge 77 0 false false) 14 4 false).1 = .ok 1000 ∧
    (s2n (newExifHeader tiffGpsLarge 77 0 false false) 18 4 false).1 = .ok 0 ∧
    (s2n (newExifHeader tiffGpsLarge 77 0 false false) 0 4 false).1 = .ok 0x4D4D002A ∧
    (dumpEntry quoteAscii true 8 "Image" exifTags 0 "UNDEF" 0
      (newExifHeader tiffGpsLarge 77 0 false false)).2.tags =
        [("Image GPSInfo", ⟨"", 0x8825, 4, 0, 4000, []⟩)] := by
  refine ⟨by decide, by decide, by decide, by decide, by decide⟩

/-- C25, amended: for the entry `i` of an IFD at a reachable position, decoded with the
relative mode 0, with a tag of the dictionary that the ignore list lets through, a field
type `ft` in `[1, 10]` of size `size` and the count `count`, when the turn of the loop
of `dumpIfd` for this entry ends without an error it stores a tag with that tag id and
field type such that: when `count * size ≤ 4` the field offset is `entry + 8`, the place
of the four-byte slot of the entry; when `count * size > 4` the slot is read as an
unsigned four-byte integer `p` and the field offset is `p`; and the values are decoded
from the bytes at the field offset, relative to the header's offset, as `valuesAt`
says: the `count` bytes up to the first NUL for an ASCII field with `0 < count < 29`,
the `k`-th value from the field at `offset + k * size` for another type with
`count < 1000` or in a MakerNote, and no value for a larger count. -/
theorem value_offset_rule (quote : String → String) (detailed : Bool) (ifd : Int)
    (ifdname : String) (dict : List (Int × exifTag)) (stoptag : String) (i : Nat)
    (eh0 e1 e2 e3 : exifHeader) (tag ft count : Int) (te : exifTag)
    (hr : ifdInRange eh0 ifd) (hi : i < 65536)
    (h1 : s2n eh0 (wrap64 (ifd + 2 + 12 * (i : Int))) 2 false = (.ok tag, e1))
    (hign : (detailed || !ignoreTags.contains tag) = true)
    (h2 : s2n e1 (wrap64 (wrap64 (ifd + 2 + 12 * (i : Int)) + 2)) 2 false = (.ok ft, e2))
    (hft : 0 < ft ∧ ft < 11)
    (h3 : s2n e2 (wrap64 (wrap64 (ifd + 2 + 12 * (i : Int)) + 4)) 4 false = (.ok count, e3))
    (hd : dict.lookup tag = some te)
    (hrun : (dumpEntry quote detailed ifd ifdname dict 0 stoptag i eh0).1 = .next ∨
      (dumpEntry quote detailed ifd ifdname dict 0 stoptag i eh0).1 = .stop) :
    ∃ t, (dumpEntry quote detailed ifd ifdname dict 0 stoptag i eh0).2.tags.get
        (ifdname ++ " " ++ te.name) = some t ∧ t.tag = tag ∧ t.Fieldtype = ft ∧
      t.fieldlength = count * ((FIELD_TYPES.getD ft.toNat ⟨0, "", ""⟩).Size : Int) ∧
      valuesAt e3 te.name ft count (FIELD_TYPES.getD ft.toNat ⟨0, "", ""⟩).Size
        t.fieldoffset t.Values ∧
      (count * ((FIELD_TYPES.getD ft.toNat ⟨0, "", ""⟩).Size : Int) ≤ 4 →
        t.fieldoffset = ifd + 2 + 12 * (i : Int) + 8 ∧
        t.fieldoffset = wrap64 (wrap64 (ifd + 2 + 12 * (i : Int)) + 8) ∧
        (readValues e3 te.name ft count (FIELD_TYPES.getD ft.toNat ⟨0, "", ""⟩).Size
          (wrap64 (wrap64 (ifd + 2 + 12 * (i : Int)) + 8))).1 = .ok t.Values) ∧
      (count * ((FIELD_TYPES.getD ft.toNat ⟨0, "", ""⟩).Size : Int) > 4 →
        ∃ p e4, s2n e3 (wrap64 (wrap64 (ifd + 2 + 12 * (i : Int)) + 8)) 4 false = (.ok p, e4) ∧
          0 ≤ p ∧ p < 2 ^ 32 ∧ t.fieldoffset = p ∧
          (readValues e4 te.name ft count (FIELD_TYPES.getD ft.toNat ⟨0, "", ""⟩).Size p).1 =
            .ok t.Values) := by
  have hok : ∀ e, (dumpEntry quote detailed ifd ifdname dict 0 stoptag i eh0).1 ≠ .fail e := by
    intro e he
    rcases hrun with h | h <;> rw [h] at he <;> cases he
  have hdec := dumpEntry_decoded quote detailed ifd ifdname dict 0 stoptag i eh0 e1 e2 e3 tag ft
    count te h1 hign h2 hft h3 hd
  have hs3 : sameFile eh0 e3 :=
    sameFile_trans (posOnly_sameFile (s2n_posOnly h1))
      (sameFile_trans (posOnly_sameFile (s2n_posOnly h2)) (posOnly_sameFile (s2n_posOnly h3)))
  obtain ⟨hr0, hr1, hr2⟩ := hr
  have ho3 : e3.offset = eh0.offset := hs3.2.2.1.symm
  have hcb := s2n_unsigned_bound (le_refl 4)
    (show (s2n e2 (wrap64 (wrap64 (ifd + 2 + 12 * (i : Int)) + 4)) 4 false).1 = .ok count by
      rw [h3])
  have hc32 : count < 2 ^ 32 := by simpa using hcb.2
  have hslot : wrap64 (wrap64 (ifd + 2 + 12 * (i : Int)) + 8) = ifd + 2 + 12 * (i : Int) + 8 := by
    rw [wrap64_id (ifd + 2 + 12 * (i : Int)) (by omega) (by omega),
      wrap64_id _ (by omega) (by omega)]
  have hsz := size_le_eight ft hft
  rw [hdec] at hok ⊢
  rw [hslot] at hok ⊢
  have hslot0 : 0 ≤ ifd + 2 + 12 * (i : Int) + 8 := by omega
  have hslot1 : eh0.offset + (ifd + 2 + 12 * (i : Int) + 8) < 2 ^ 62 + 2 ^ 21 := by omega
  generalize ifd + 2 + 12 * (i : Int) + 8 = slot at hok hslot0 hslot1 ⊢
  generalize (FIELD_TYPES.getD ft.toNat ⟨0, "", ""⟩).Size = size at hok hsz ⊢
  have hcsz : count * (size : Int) ≤ 2 ^ 35 := by
    have h8 : (size : Int) ≤ 8 := by exact_mod_cast hsz
    have hs0 : (0 : Int) ≤ (size : Int) := by positivity
    nlinarith [hcb.1]
  have hstep : ∀ (offset : Int) (e4 : exifHeader), sameFile e3 e4 → 0 ≤ offset →
      offset < 2 ^ 62 + 2 ^ 33 - eh0.offset →
      valueOffset e3 ifd 0 count size slot = (.ok offset, e4) →
      ∃ t, (decodeTail quote ifdname stoptag te tag ft count size
          (valueOffset e3 ifd 0 count size slot)).2.tags.get
          (ifdname ++ " " ++ te.name) = some t ∧ t.tag = tag ∧ t.Fieldtype = ft ∧
        t.fieldlength = count * (size : Int) ∧ t.fieldoffset = offset ∧
        (readValues e4 te.name ft count size offset).1 = .ok t.Values ∧
        valuesAt e3 te.name ft count size offset t.Values := by
    intro offset e4 hs4 ho0 ho1 h4
    rw [h4] at hok ⊢
    unfold decodeTail at hok ⊢
    dsimp only at hok ⊢
    rcases h5 : readValues e4 te.name ft count size offset with ⟨r5, e5⟩
    rw [h5] at hok
    cases r5 with
    | error e => exact absurd rfl (hok e)
    | ok values =>
      dsimp only at hok ⊢
      have hva := readValues_fixed e3 e4 e5 hs4 te.name ft count size offset values
        (by rw [ho3]; exact hr0) ho0 hcb.1 (by rw [ho3]; omega) h5
      rcases hp : tagPrintable te values (printableOf quote count ft values) with e | printable
      · rw [hp] at hok
        exact absurd rfl (hok e)
      · dsimp only
        rw [stopCheck_snd]
        exact ⟨_, get_set_self _ _ _, rfl, rfl, rfl, rfl, rfl, hva⟩
  by_cases hbig : count * (size : Int) > 4
  · have hv : valueOffset e3 ifd 0 count size slot = s2n e3 slot 4 false := by
      unfold valueOffset
      rw [if_pos hbig, if_neg (by decide)]
    rcases hs : s2n e3 slot 4 false with ⟨rp, ep⟩
    cases rp with
    | error e =>
      rw [hv, hs] at hok
      unfold decodeTail at hok
      exact absurd rfl (hok e)
    | ok p =>
      have hb := s2n_unsigned_bound (le_refl 4)
        (show (s2n e3 slot 4 false).1 = .ok p by rw [hs])
      have hp32 : p < 2 ^ 32 := by simpa using hb.2
      obtain ⟨t, hget, htag, hty, hlen, hoff, hvals, hva⟩ := hstep p ep
        (posOnly_sameFile (s2n_posOnly hs)) hb.1 (by omega) (by rw [hv, hs])
      refine ⟨t, hget, htag, hty, hlen, by rw [hoff]; exact hva,
        fun hle => absurd hbig (by omega), fun _ => ?_⟩
      exact ⟨p, ep, rfl, hb.1, hp32, hoff, hvals⟩
  · have hv : valueOffset e3 ifd 0 count size slot = (.ok slot, e3) := by
      unfold valueOffset
      rw [if_neg hbig]
    obtain ⟨t, hget, htag, hty, hlen, hoff, hvals, hva⟩ := hstep slot e3 (sameFile_refl e3)
      hslot0 (by omega) hv
    exact ⟨t, hget, htag, hty, hlen, by rw [hoff]; exact hva,
      fun _ => ⟨hoff, hoff, hvals⟩, fun hgt => absurd hgt hbig⟩

theorem value_offset_rule_witness :
    bytesToString ((bytesAt (hdrSortedAt 18) 62 20).takeWhile (fun b => b != 0)) =
      "2010:11:28 16:42:18" ∧
    (∃ t, (dumpEntry quoteAscii true 8 "Image" exifTags 0 "UNDEF" 0 (hdrSortedAt 62)).2.tags.get
        ("Image" ++ " " ++ (exifTag.mk "DateTime" none none).name) = some t ∧
      t.tag = 0x0132 ∧ t.Fieldtype = 2 ∧
      t.fieldlength = 20 * ((FIELD_TYPES.getD (2 : Int).toNat ⟨0, "", ""⟩).Size : Int) ∧
      valuesAt (hdrSortedAt 18) (exifTag.mk "DateTime" none none).name 2 20
        (FIELD_TYPES.getD (2 : Int).toNat ⟨0, "", ""⟩).Size t.fieldoffset t.Values ∧
      (20 * ((FIELD_TYPES.getD (2 : Int).toNat ⟨0, "", ""⟩).Size : Int) ≤ 4 →
        t.fieldoffset = 8 + 2 + 12 * ((0 : Nat) : Int) + 8 ∧
        t.fieldoffset = wrap64 (wrap64 (8 + 2 + 12 * ((0 : Nat) : Int)) + 8) ∧
        (readValues (hdrSortedAt 18) (exifTag.mk "DateTime" none none).name 2 20
          (FIELD_TYPES.getD (2 : Int).toNat ⟨0, "", ""⟩).Size
          (wrap64 (wrap64 (8 + 2 + 12 * ((0 : Nat) : Int)) + 8))).1 = .ok t.Values) ∧
      (20 * ((FIELD_TYPES.getD (2 : Int).toNat ⟨0, "", ""⟩).Size : Int) > 4 →
        ∃ p e4, s2n (hdrSortedAt 18) (wrap64 (wrap64 (8 + 2 + 12 * ((0 : Nat) : Int)) + 8)) 4
            false = (.ok p, e4) ∧
          0 ≤ p ∧ p < 2 ^ 32 ∧ t.fieldoffset = p ∧
          (readValues e4 (exifTag.mk "DateTime" none none).name 2 20
            (FIELD_TYPES.getD (2 : Int).toNat ⟨0, "", ""⟩).Size p).1 = .ok t.Values)) ∧
    (s2n (hdrSortedAt 30) 30 2 false).1 = .ok 2 ∧
    (∃ t, (dumpEntry quoteAscii true 8 "Image" exifTags 0 "UNDEF" 1 (hdrSortedAt 62)).2.tags.get
        ("Image" ++ " " ++ "YCbCrPositioning") = some t ∧
      valuesAt (hdrSortedAt 30) "YCbCrPositioning" 3 1 2 t.fieldoffset t.Values ∧
      t.fieldoffset = 30) :=
  ⟨by decide,
   value_offset_rule quoteAscii true 8 "Image" exifTags "UNDEF" 0 (hdrSortedAt 62)
    (hdrSortedAt 12) (hdrSortedAt 14) (hdrSortedAt 18) 0x0132 2 20
    (exifTag.mk "DateTime" none none) (by unfold ifdInRange; decide) (by decide) (by decide)
    (by decide) (by decide) (by decide) (by decide) (by rfl) (Or.inl (by decide)),
   by decide,
   (value_offset_rule quoteAscii true 8 "Image" exifTags "UNDEF" 1 (hdrSortedAt 62)
    (hdrSortedAt 24) (hdrSortedAt 26) (hdrSortedAt 30) 0x0213 3 1
    (exifTag.mk "YCbCrPositioning" (some [(1, "Centered"), (2, "Co-sited")]) none)
    (by unfold ifdInRange; decide) (by decide) (by decide)
    (by decide) (by decide) (by decide) (by decide) (by rfl) (Or.inl (by decide))).imp
    (fun _ h => ⟨h.1, h.2.2.2.2.1, (h.2.2.2.2.2.1 (by decide)).1⟩)⟩

/-! ## Entries with an unknown field type (C21) -/

/-- C21, counterexample: in lenient mode with `details = false` and the stop tag
"MakerNote", a MakerNote entry with the field type 0 is passed over by the ignore list
before its field type is read, and the stop-tag test then ends the loop: the Orientation
entry behind it is not stored, which it is when the stop tag is not named or when
`details = true`. -/
theorem bad_type_stop_tag_ends_loop :
    entryTag (hdrBadTypeAt 38) 8 0 = .ok 0x927C ∧
    entryType (hdrBadTypeAt 38) 8 0 = .ok 0 ∧
    ProcessFile quoteAscii 10 tiffBadTypeStop "MakerNote" false false =
      some (.returned (some []) none) ∧
    ProcessFile quoteAscii 10 tiffBadTypeStop "" false false =
      some (.returned (some
        [("Image Orientation", ⟨"Rotated 90 CW", 0x0112, 3, 30, 2, ["6"]⟩)]) none) ∧
    ProcessFile quoteAscii 10 tiffBadTypeStop "MakerNote" true false =
      some (.returned (some
        [("Image Orientation", ⟨"Rotated 90 CW", 0x0112, 3, 30, 2, ["6"]⟩)]) none) := by
  refine ⟨by decide, by decide, by decide, by decide, by decide⟩

/-- C21, amended: in lenient mode, an entry that the ignore list lets through (with
`details = true`, or a tag other than UserComment and MakerNote) and whose field type is
outside `[1, 10]` is skipped.  The turn of the loop ends with `continue` and leaves the
header as it was but for the file position, so nothing is stored and no error is
returned for it; the loop goes on with the next entry; and every later entry of the IFD
that is in the dictionary, is let through by the ignore list, has a field type in
`[1, 10]` and has no entry named as the stop tag between the skipped entry and itself is
stored when the loop ends without error. -/
theorem bad_type_skipped (quote : String → String) (detailed : Bool) (ifd : Int)
    (ifdname : String) (dict : List (Int × exifTag)) (relative : Int) (stoptag : String)
    (i : Nat) (eh0 e1 e2 : exifHeader) (tag ft : Int)
    (hstrict : eh0.strict = false)
    (h1 : s2n eh0 (wrap64 (ifd + 2 + 12 * (i : Int))) 2 false = (.ok tag, e1))
    (hign : (detailed || !ignoreTags.contains tag) = true)
    (h2 : s2n e1 (wrap64 (wrap64 (ifd + 2 + 12 * (i : Int)) + 2)) 2 false = (.ok ft, e2))
    (hft : ¬ (0 < ft ∧ ft < 11)) :
    dumpEntry quote detailed ifd ifdname dict relative stoptag i eh0 = (.next, e2) ∧
    posOnly eh0 e2 ∧ e2.tags = eh0.tags ∧
    (∀ n, dumpLoop quote detailed ifd ifdname dict relative stoptag (n + 1) i eh0 =
      dumpLoop quote detailed ifd ifdname dict relative stoptag n (i + 1) e2) ∧
    (∀ (m n : Nat) (tag1 : Int) (te : exifTag), ifdInRange eh0 ifd → i + 1 + m < 65536 →
      m < n →
      (∀ k, i + 1 ≤ k → k < i + 1 + m → ∀ t, entryTag eh0 ifd k = .ok t →
        tagName dict t ≠ stoptag) →
      entryTag eh0 ifd (i + 1 + m) = .ok tag1 → dict.lookup tag1 = some te →
      (detailed || !ignoreTags.contains tag1) = true →
      (∃ ft1, entryType eh0 ifd (i + 1 + m) = .ok ft1 ∧ 0 < ft1 ∧ ft1 < 11) →
      (dumpLoop quote detailed ifd ifdname dict relative stoptag (n + 1) i eh0).1 = none →
      holdsNamed dict
        (dumpLoop quote detailed ifd ifdname dict relative stoptag (n + 1) i eh0).2.tags
        (ifdname ++ " " ++ te.name) te.name) := by
  have p1 := s2n_posOnly h1
  have p2 := posOnly_trans p1 (s2n_posOnly h2)
  have hs2 : e2.strict = false := by
    rw [← (posOnly_sameFile p2).2.2.2.2]
    exact hstrict
  have hbad : (!(decide (0 < ft) && decide (ft < (FIELD_TYPES.length : Int)))) = true := by
    have hl : (FIELD_TYPES.length : Int) = 11 := by
      simp [FIELD_TYPES]
    rw [hl]
    by_cases ha : 0 < ft
    · have hb : ¬ ft < 11 := fun hb => hft ⟨ha, hb⟩
      simp [ha, hb]
    · simp [ha]
  have hentry : dumpEntry quote detailed ifd ifdname dict relative stoptag i eh0 =
      (.next, e2) := by
    unfold dumpEntry
    dsimp only
    rw [h1]
    dsimp only
    rw [if_pos hign]
    unfold decodeEntry
    rw [h2]
    dsimp only
    rw [hbad]
    simp only [if_true]
    rw [hs2]
    rfl
  have hloop : ∀ n, dumpLoop quote detailed ifd ifdname dict relative stoptag (n + 1) i eh0 =
      dumpLoop quote detailed ifd ifdname dict relative stoptag n (i + 1) e2 := by
    intro n
    rw [dumpLoop, hentry]
  refine ⟨hentry, p2, posOnly_tags p2, hloop, ?_⟩
  intro m n tag1 te hr hi hmn hno htag hd hign1 hty hnone
  rw [hloop] at hnone ⊢
  exact dumpLoop_stores quote detailed ifd ifdname dict relative stoptag eh0 hr tag1 te hd hign1
    m (i + 1) n e2 (posOnly_sameFile p2) hi hmn hno htag hty hnone

theorem bad_type_skipped_witness :
    dumpEntry quoteAscii true 8 "Image" exifTags 0 "MakerNote" 0 (hdrBadTypeAt 38) =
      (.next, hdrBadTypeAt 14) ∧
    (dumpLoop quoteAscii true 8 "Image" exifTags 0 "MakerNote" 2 0 (hdrBadTypeAt 38)).2.tags =
      [("Image Orientation", ⟨"Rotated 90 CW", 0x0112, 3, 30, 2, ["6"]⟩)] ∧
    holdsNamed exifTags
      (dumpLoop quoteAscii true 8 "Image" exifTags 0 "MakerNote" (1 + 1) 0
        (hdrBadTypeAt 38)).2.tags
      ("Image" ++ " " ++ (exifTag.mk "Orientation" (some
        [(1, "Horizontal (normal)"), (2, "Mirrored horizontal"), (3, "Rotated 180"),
         (4, "Mirrored vertical"), (5, "Mirrored horizontal then rotated 90 CCW"),
         (6, "Rotated 90 CW"), (7, "Mirrored horizontal then rotated 90 CW"),
         (8, "Rotated 90 CCW")]) none).name) "Orientation" :=
  ⟨(bad_type_skipped quoteAscii true 8 "Image" exifTags 0 "MakerNote" 0 (hdrBadTypeAt 38)
      (hdrBadTypeAt 12) (hdrBadTypeAt 14) 0x927C 0 (by decide) (by decide) (by decide)
      (by decide) (by decide)).1,
   by decide,
   (bad_type_skipped quoteAscii true 8 "Image" exifTags 0 "MakerNote" 0 (hdrBadTypeAt 38)
      (hdrBadTypeAt 12) (hdrBadTypeAt 14) 0x927C 0 (by decide) (by decide) (by decide)
      (by decide) (by decide)).2.2.2.2 0 1 0x0112 _ (by unfold ifdInRange; decide) (by decide)
      (by decide) (by intro k h1 h2; omega) (by decide) (by rfl) (by decide)
      ⟨3, by decide, by decide, by decide⟩ (by decide)⟩

end Exif4go
